import Mathlib

/-!
# Marching squares (`src/src/msquares.c`)

A shallow embedding of `init_tables`, `par_msquares_from_grayscale` and the accessors
`par_msquares_get_mesh` and `par_msquares_get_count`.

* An `int` is a 32-bit two's complement integer: the result of every `int` operation of
  `par_msquares_from_grayscale` that can leave the range is reduced by `wrap32`.
  Counters that start at zero and stay below a bound that fits (`npts`, `ntris`, the loop
  counters, the table ids) are natural numbers or plain integers.
* A `float` is an IEEE 754 binary32 number and a `double` a binary64 number, each
  represented by its rational value; every operation rounds its exact result to nearest,
  ties to even (`binary32`, `binary64`).  The raster and the threshold are arbitrary
  rationals: they are only compared.
* `malloc` returns the null pointer for a request above `PTRDIFF_MAX` bytes and a block of
  the requested size otherwise; a store outside the block is a fault.
* The `uint16_t` stores into the triangle array reduce modulo `2 ^ 16`.
* A failed `assert`, a read outside the raster, a store outside an output array and a
  read through a released table entry are results of type `Fault`.
* The two static table pointers are an explicit `Globals` value that is passed in and
  returned.
* The local array `vertsz` is never fully initialised by the source, so its initial
  contents are a parameter of the model.
-/

namespace Parg

/-! ## Faults and the static table pointers -/

/-- Ways in which a run of the C code can go wrong. -/
inductive Fault where
  | assertion
  | division_by_zero
  | out_of_bounds
  | use_after_free
  | null_pointer
deriving DecidableEq, Repr

/-- A heap block reached through a table slot: still allocated, or released by `free`. -/
inductive Block where
  | live (cells : List Nat)
  | freed
deriving DecidableEq, Repr

/-- The statics `point_table` and `triangle_table`; `none` is the null pointer. -/
structure Globals where
  point_table : Option (List Block)
  triangle_table : Option (List Block)
deriving DecidableEq, Repr

/-- State of the statics at program start: `static int** point_table = 0`. -/
def Globals.initial : Globals := ⟨none, none⟩

def MIN (a b : Int) : Int := if a > b then b else a

def MAX (a b : Int) : Int := if a > b then a else b

/-! ## `init_tables` -/

def CODE_TABLE : String :=
  "0 0\n1 1 0 1 7\n2 1 1 2 3\n3 2 0 2 3 3 7 0\n4 1 7 5 6\n5 2 0 1 5 5 6 0\n6 2 1 2 3 7 5 6\n7 3 0 2 3 0 3 5 0 5 6\n8 1 3 4 5\n9 2 0 1 7 3 4 5\na 2 1 2 4 4 5 1\nb 3 0 2 4 0 4 5 0 5 7\nc 2 7 3 4 4 6 7\nd 3 0 1 3 0 3 4 0 4 6\ne 3 1 2 4 1 4 6 1 6 7\nf 2 0 2 4 4 6 0\n"

/-- Value of `*table_token` when `table_token` is `pos` characters into the text
(the terminating NUL past the end). -/
def deref (text : List Char) (pos : Nat) : Nat :=
  (text.getD pos (Char.ofNat 0)).toNat

/-- Effect of `sqrpts[++sqrpts[0]] = midp` on a block whose first cell is the count and
whose cells `1 .. count` hold the ids written so far. -/
def push_point (sqrpts : List Nat) (midp : Nat) : List Nat :=
  match sqrpts with
  | [] => []
  | n :: ids => (n + 1) :: (ids ++ [midp])

/-- The loop `for (j = 0; j < ntris * 3; j++, table_token += 2)` of `init_tables`;
`todo` is the number of iterations left.  Returns `table_token`, `sqrpts`, `sqrtris`.
The ids `*table_token - '0'` are taken in the naturals: every id character of the table
is a digit. -/
def init_ids (text : List Char) :
    Nat → Nat → Nat → List Nat → List Nat → Nat × List Nat × List Nat
  | 0, pos, _, sqrpts, sqrtris => (pos, sqrpts, sqrtris)
  | todo + 1, pos, mask, sqrpts, sqrtris =>
    let midp := deref text pos - 48
    let bit := 1 <<< midp
    if mask &&& bit = 0 then
      init_ids text todo (pos + 2) (mask ||| bit) (push_point sqrpts midp) (sqrtris ++ [midp])
    else
      init_ids text todo (pos + 2) mask sqrpts (sqrtris ++ [midp])

/-- The loop `for (i = 0; i < 16; i++)` of `init_tables`; `todo` is the number of
iterations left, `pt` and `tt` the table slots filled so far. -/
def init_codes (text : List Char) :
    Nat → Nat → Nat → List Block → List Block → Except Fault (List Block × List Block)
  | 0, _, _, pt, tt => .ok (pt, tt)
  | todo + 1, i, pos, pt, tt =>
    let code : Int := deref text pos
    if (i : Int) ≠ code - (if code ≥ 97 then 97 - 10 else 48) then .error .assertion
    else
      let pos := pos + 2
      let ntris := deref text pos - 48
      let pos := pos + 2
      let r := init_ids text (ntris * 3) pos 0 [0] [ntris]
      init_codes text todo (i + 1) r.1 (pt ++ [Block.live r.2.1]) (tt ++ [Block.live r.2.2])

/-- The function `init_tables`: both statics are overwritten with freshly built tables. -/
def init_tables : Except Fault Globals :=
  match init_codes CODE_TABLE.toList 16 0 0 [] [] with
  | .error e => .error e
  | .ok (pt, tt) => .ok ⟨some pt, some tt⟩

/-! ## The mesh types -/

/-- The struct `par_msquares_mesh`: `points` is the flat coordinate array, `triangles`
the flat array of 16-bit indices. -/
structure par_msquares_mesh where
  points : List ℚ
  npoints : Nat
  triangles : List Nat
  ntriangles : Nat
  dim : Nat

/-- The struct `par_msquares_meshlist_s`. -/
structure par_msquares_meshlist where
  nmeshes : Int
  meshes : List par_msquares_mesh

/-! ## Machine arithmetic -/

/-- The `int` that an `int` operation yields when its mathematical result is `x`: the
value congruent to `x` modulo `2^32` in `[-2^31, 2^31)`. -/
def wrap32 (x : Int) : Int := (x + 2147483648) % 4294967296 - 2147483648

/-- The conversion of an `int` to `size_t` (64 bits). -/
def to_size (x : Int) : Nat := (x % 18446744073709551616).toNat

/-- The call `malloc(size)`: the number of bytes of the block returned, `none` for the
null pointer.  A request above `PTRDIFF_MAX` fails; memory is not taken to run out
otherwise. -/
def malloc (size : Nat) : Option Nat :=
  if size ≤ 9223372036854775807 then some size else none

/-- The call `malloc(count * sizeof(T))` with `count` an `int` and `width = sizeof(T)`:
the product is formed in `size_t`.  The result is the number of elements of type `T` that
the block holds. -/
def buffer (count : Int) (width : Nat) : Option Nat :=
  (malloc (to_size count * width % 18446744073709551616)).map (fun bytes => bytes / width)

/-- The check that an output array which holds `len` elements after a store lies within
its block. -/
def store_check (block : Option Nat) (len : Nat) : Except Fault Unit :=
  match block with
  | none => if len = 0 then .ok () else .error .null_pointer
  | some capacity => if len ≤ capacity then .ok () else .error .out_of_bounds

/-- The nearest integer to `q`, a tie going to the even neighbour. -/
def round_even (q : ℚ) : Int :=
  if q - ⌊q⌋ < 1 / 2 then ⌊q⌋
  else if 1 / 2 < q - ⌊q⌋ then ⌊q⌋ + 1
  else if ⌊q⌋ % 2 = 0 then ⌊q⌋ else ⌊q⌋ + 1

/-- The number of binary digits of `n`, found by halving at most `fuel` times. -/
def bit_length_aux : Nat → Nat → Nat
  | 0, _ => 0
  | fuel + 1, n => if n = 0 then 0 else bit_length_aux fuel (n / 2) + 1

/-- The number of binary digits of `n`. -/
def bit_length (n : Nat) : Nat := bit_length_aux n n

/-- The binary exponent `e` of `x ≠ 0`, for which `2^e ≤ |x| < 2^(e+1)`. -/
def leading_bit (x : ℚ) : Int :=
  let d : Int := (bit_length x.num.natAbs : Int) - (bit_length x.den : Int)
  if (2 : ℚ) ^ d ≤ |x| then d else d - 1

/-- The value `x` rounded to `p` significant bits, to nearest, ties to even.  The exponent
range is left out: the values of the sweep are `0` or lie between `2^-33` and `2^32`, far
inside the normal range of both formats. -/
def round_to (p : Nat) (x : ℚ) : ℚ :=
  if x = 0 then 0
  else (round_even (x / 2 ^ (leading_bit x - ((p : Int) - 1))) : ℚ)
    * 2 ^ (leading_bit x - ((p : Int) - 1))

/-- Rounding to a `float`. -/
def binary32 (x : ℚ) : ℚ := round_to 24 x

/-- Rounding to a `double`. -/
def binary64 (x : ℚ) : ℚ := round_to 53 x

/-! ## `par_msquares_from_grayscale` -/

/-- The read `data[i]`. -/
def load (data : List ℚ) (i : Int) : Except Fault ℚ :=
  if i < 0 then .error .out_of_bounds
  else
    match data[i.toNat]? with
    | some v => .ok v
    | none => .error .out_of_bounds

/-- The expression `data[i] > threshold` as a C `int`. -/
def above (data : List ℚ) (threshold : ℚ) (i : Int) : Except Fault Nat :=
  match load data i with
  | .error e => .error e
  | .ok v => .ok (if v > threshold then 1 else 0)

/-- The read `table[code]` followed by a read through the resulting pointer. -/
def table_entry (table : Option (List Block)) (code : Nat) : Except Fault (List Nat) :=
  match table with
  | none => .error .null_pointer
  | some slots =>
    match slots[code]? with
    | none => .error .out_of_bounds
    | some Block.freed => .error .use_after_free
    | some (Block.live cells) => .ok cells

/-- The locals updated by the loop `while (ptspeclength--)`. -/
structure PointAcc where
  currinds : Nat → Nat
  mask : Nat
  pts : List ℚ
  npts : Nat

/-- Body of the loop `while (ptspeclength--)` for the id `midp` just read. -/
def point_step (vertsx vertsy vertsz : Nat → ℚ) (previnds : Nat → Nat) (prevmask : Nat)
    (acc : PointAcc) (midp : Nat) : PointAcc :=
  let bit := 1 <<< midp
  let mask := acc.mask ||| bit
  if bit = 1 ∧ prevmask &&& 4 ≠ 0 then
    { acc with mask := mask, currinds := Function.update acc.currinds midp (previnds 2) }
  else if bit = 128 ∧ prevmask &&& 8 ≠ 0 then
    { acc with mask := mask, currinds := Function.update acc.currinds midp (previnds 3) }
  else if bit = 64 ∧ prevmask &&& 16 ≠ 0 then
    { acc with mask := mask, currinds := Function.update acc.currinds midp (previnds 4) }
  else
    { mask := mask
      pts := acc.pts ++ [vertsx midp, vertsy midp, vertsz midp]
      currinds := Function.update acc.currinds midp acc.npts
      npts := acc.npts + 1 }

/-- The loop `while (ptspeclength--)`: `pointspec` is what lies at the read pointer and
`pts_block` the block that `pts` points to; the stores through `ppts` of an iteration must
lie within it. -/
def emit_points (pts_block : Option Nat) (vertsx vertsy vertsz : Nat → ℚ)
    (previnds : Nat → Nat) (prevmask : Nat) :
    Nat → List Nat → PointAcc → Except Fault PointAcc
  | 0, _, acc => .ok acc
  | _ + 1, [], _ => .error .out_of_bounds
  | ptspeclength + 1, midp :: pointspec, acc =>
    match store_check pts_block
        (point_step vertsx vertsy vertsz previnds prevmask acc midp).pts.length with
    | .error e => .error e
    | .ok _ =>
      emit_points pts_block vertsx vertsy vertsz previnds prevmask ptspeclength pointspec
        (point_step vertsx vertsy vertsz previnds prevmask acc midp)

/-- The three `uint16_t` stores of one iteration of the loop `while (trispeclength--)`,
for the table triangle `(a, b, c)`. -/
def tri_words (currinds : Nat → Nat) (a b c : Nat) : List Nat :=
  [currinds c % 65536, currinds b % 65536, currinds a % 65536]

/-- The loop `while (trispeclength--)`; `tris_block` is the block that `tris` points to.
Returns `tris` and `ntris`. -/
def emit_triangles (tris_block : Option Nat) (currinds : Nat → Nat) :
    Nat → List Nat → List Nat × Nat → Except Fault (List Nat × Nat)
  | 0, _, acc => .ok acc
  | trispeclength + 1, a :: b :: c :: trianglespec, acc =>
    match store_check tris_block (acc.1 ++ tri_words currinds a b c).length with
    | .error e => .error e
    | .ok _ =>
      emit_triangles tris_block currinds trispeclength trianglespec
        (acc.1 ++ tri_words currinds a b c, acc.2 + 1)
  | _ + 1, _, _ => .error .out_of_bounds

/-- The locals that live across iterations of the column loop, with the output cursors. -/
structure Sweep where
  vertsx : Nat → ℚ
  northi : Int
  southi : Int
  northwest : Nat
  southwest : Nat
  previnds : Nat → Nat
  prevmask : Nat
  pts : List ℚ
  npts : Nat
  tris : List Nat
  ntris : Nat

/-- The output cursors of a sweep state. -/
structure Cursor where
  pts : List ℚ
  npts : Nat
  tris : List Nat
  ntris : Nat

def Sweep.cursor (s : Sweep) : Cursor := ⟨s.pts, s.npts, s.tris, s.ntris⟩

/-- Body of the loop `for (col = 0; col < ncols; col++)`; `pts_block` and `tris_block`
are the blocks behind the two output arrays.  (`ncols - 1` cannot leave the range of an
`int`.) -/
def march_cell (g : Globals) (pts_block tris_block : Option Nat) (data : List ℚ)
    (threshold : ℚ) (cellsize ncols : Int)
    (normalized_cellsize : ℚ) (vertsy vertsz : Nat → ℚ) (col : Int) (s : Sweep) :
    Except Fault Sweep := do
  let northi := wrap32 (s.northi + cellsize)
  let southi := wrap32 (s.southi + cellsize)
  let northi := if col = ncols - 1 then wrap32 (northi - 1) else northi
  let southi := if col = ncols - 1 then wrap32 (southi - 1) else southi
  let northeast ← above data threshold northi
  let southeast ← above data threshold southi
  let code := s.southwest ||| (southeast <<< 1) ||| (s.northwest <<< 2) ||| (northeast <<< 3)
  let pointspec ← table_entry g.point_table code
  let acc ← emit_points pts_block s.vertsx vertsy vertsz s.previnds s.prevmask
    pointspec.headI pointspec.tail ⟨fun _ => 0, 0, s.pts, s.npts⟩
  let trianglespec ← table_entry g.triangle_table code
  let out ← emit_triangles tris_block acc.currinds trianglespec.headI trianglespec.tail
    (s.tris, s.ntris)
  pure
    { vertsx := fun i => binary32 (s.vertsx i + normalized_cellsize)
      northi := northi
      southi := southi
      northwest := northeast
      southwest := southeast
      previnds := acc.currinds
      prevmask := acc.mask
      pts := acc.pts
      npts := acc.npts
      tris := out.1
      ntris := out.2 }

/-- The loop `for (col = 0; col < ncols; col++)`; `todo` is the number of iterations left. -/
def march_cols (g : Globals) (pts_block tris_block : Option Nat) (data : List ℚ)
    (threshold : ℚ) (cellsize ncols : Int)
    (normalized_cellsize : ℚ) (vertsy vertsz : Nat → ℚ) :
    Nat → Int → Sweep → Except Fault Sweep
  | 0, _, s => .ok s
  | todo + 1, col, s =>
    match march_cell g pts_block tris_block data threshold cellsize ncols normalized_cellsize
        vertsy vertsz col s with
    | .error e => .error e
    | .ok s' =>
      march_cols g pts_block tris_block data threshold cellsize ncols normalized_cellsize
        vertsy vertsz todo (col + 1) s'

/-- The array `vertsx` as assigned at the top of the row loop.  The product
`0.5 * normalized_cellsize` is formed in `double` and stored as a `float`. -/
def row_vertsx (normalized_cellsize : ℚ) : Nat → ℚ
  | 1 => binary32 (binary64 (0.5 * normalized_cellsize))
  | 5 => binary32 (binary64 (0.5 * normalized_cellsize))
  | 2 => normalized_cellsize
  | 3 => normalized_cellsize
  | 4 => normalized_cellsize
  | _ => 0

/-- The array `vertsy` as assigned at the top of the row loop.  In
`normalized_cellsize * (row + 1)` and `normalized_cellsize * row` the `int` factor is
converted to `float` and the product is a `float`; `normalized_cellsize * (row + 0.5)` is
formed in `double` and stored as a `float`. -/
def row_vertsy (normalized_cellsize : ℚ) (row : Int) : Nat → ℚ
  | 0 => binary32 (normalized_cellsize * binary32 (row + 1))
  | 1 => binary32 (normalized_cellsize * binary32 (row + 1))
  | 2 => binary32 (normalized_cellsize * binary32 (row + 1))
  | 3 => binary32 (binary64 (normalized_cellsize * binary64 (row + 0.5)))
  | 7 => binary32 (binary64 (normalized_cellsize * binary64 (row + 0.5)))
  | _ => binary32 (normalized_cellsize * binary32 row)

/-- The part of the row loop body that precedes the column loop. -/
def row_start (data : List ℚ) (threshold : ℚ) (width cellsize maxrow : Int)
    (normalized_cellsize : ℚ) (row : Int) (out : Cursor) : Except Fault Sweep := do
  let northi := wrap32 (wrap32 (row * cellsize) * width)
  let southi := MIN (wrap32 (northi + wrap32 (cellsize * width))) maxrow
  let northwest ← above data threshold northi
  let southwest ← above data threshold southi
  pure
    { vertsx := row_vertsx normalized_cellsize
      northi := northi
      southi := southi
      northwest := northwest
      southwest := southwest
      previnds := fun _ => 0
      prevmask := 0
      pts := out.pts
      npts := out.npts
      tris := out.tris
      ntris := out.ntris }

/-- Body of the loop `for (row = 0; row < nrows; row++)`. -/
def march_row (g : Globals) (pts_block tris_block : Option Nat) (data : List ℚ)
    (threshold : ℚ) (width cellsize ncols maxrow : Int)
    (normalized_cellsize : ℚ) (vertsz : Nat → ℚ) (row : Int) (out : Cursor) :
    Except Fault Cursor := do
  let s ← row_start data threshold width cellsize maxrow normalized_cellsize row out
  let s' ← march_cols g pts_block tris_block data threshold cellsize ncols normalized_cellsize
    (row_vertsy normalized_cellsize row) vertsz ncols.toNat 0 s
  pure s'.cursor

/-- The loop `for (row = 0; row < nrows; row++)`; `todo` is the number of iterations left. -/
def march_rows (g : Globals) (pts_block tris_block : Option Nat) (data : List ℚ)
    (threshold : ℚ) (width cellsize ncols maxrow : Int)
    (normalized_cellsize : ℚ) (vertsz : Nat → ℚ) :
    Nat → Int → Cursor → Except Fault Cursor
  | 0, _, out => .ok out
  | todo + 1, row, out =>
    match march_row g pts_block tris_block data threshold width cellsize ncols maxrow
        normalized_cellsize vertsz row out with
    | .error e => .error e
    | .ok out' =>
      march_rows g pts_block tris_block data threshold width cellsize ncols maxrow
        normalized_cellsize vertsz todo (row + 1) out'

/-- The loop `for (i = 0; i < 16; i++) free(table[i])`. -/
def free_entries (table : Option (List Block)) : Except Fault (Option (List Block)) :=
  match table with
  | none => .error .null_pointer
  | some slots =>
    if slots.length < 16 then .error .out_of_bounds
    else .ok (some ((List.replicate 16 Block.freed) ++ slots.drop 16))

/-- The value of `normalized_cellsize`: `(float) cellsize / MAX(width, height)`, a
division of two `float`s. -/
def ncell (width height cellsize : Int) : ℚ :=
  binary32 (binary32 cellsize / binary32 (MAX width height))

/-- The function `par_msquares_from_grayscale`.  `g` is the state of the statics on
entry and `stack` the indeterminate initial contents of the local array `vertsz`; the
result is the mesh list together with the state of the statics on return.  The three
small allocations of the list and the mesh are taken to succeed; `ncorners` is computed by
the source and never used. -/
def par_msquares_from_grayscale (g : Globals) (stack : Nat → ℚ) (data : List ℚ)
    (width height cellsize : Int) (threshold : ℚ) (flags : Int) :
    Except Fault (par_msquares_meshlist × Globals) := do
  let _ := flags
  if ¬ (width > 0) then throw Fault.assertion
  if cellsize = 0 then throw Fault.division_by_zero
  if ¬ (width.tmod cellsize = 0) then throw Fault.assertion
  if ¬ (height > 0 ∧ height.tmod cellsize = 0) then throw Fault.assertion
  let g ← if g.point_table.isNone then init_tables else pure g
  let dim : Int := 3
  let ncols := width.tdiv cellsize
  let nrows := height.tdiv cellsize
  let maxtris := wrap32 (wrap32 (ncols * nrows) * 3)
  let tris_block := buffer (wrap32 (maxtris * 3)) 2
  let maxpts := wrap32 (wrap32 (ncols * nrows) * 6)
  let pts_block := buffer (wrap32 (maxpts * dim)) 4
  let normalized_cellsize : ℚ := ncell width height cellsize
  let maxrow := wrap32 (wrap32 (height - 1) * width)
  let vertsz := Function.update stack 0 0
  let out ← march_rows g pts_block tris_block data threshold width cellsize ncols maxrow
    normalized_cellsize vertsz nrows.toNat 0 ⟨[], 0, [], 0⟩
  if ¬ ((out.npts : Int) ≤ maxpts) then throw Fault.assertion
  if ¬ ((out.ntris : Int) ≤ maxtris) then throw Fault.assertion
  let mesh : par_msquares_mesh :=
    { points := out.pts, npoints := out.npts, triangles := out.tris, ntriangles := out.ntris,
      dim := 3 }
  let pt ← free_entries g.point_table
  let tt ← free_entries g.triangle_table
  pure ({ nmeshes := 1, meshes := [mesh] }, { point_table := pt, triangle_table := tt })

/-- The block behind `tris` in a call with a grid of `ncols` by `nrows` cells:
`malloc(maxtris * 3 * sizeof(uint16_t))` with `maxtris = ncols * nrows * 3`, as in
`par_msquares_from_grayscale`. -/
def tris_alloc (ncols nrows : Int) : Option Nat :=
  buffer (wrap32 (wrap32 (wrap32 (ncols * nrows) * 3) * 3)) 2

/-- The block behind `pts` in a call with a grid of `ncols` by `nrows` cells:
`malloc(maxpts * mesh->dim * sizeof(float))` with `maxpts = ncols * nrows * 6` and
`dim = 3`, as in `par_msquares_from_grayscale`. -/
def pts_alloc (ncols nrows : Int) : Option Nat :=
  buffer (wrap32 (wrap32 (wrap32 (ncols * nrows) * 6) * 3)) 4

/-! ## The sweep in exact arithmetic

The same loops as total functions over unbounded integers and exact rationals, with the
raster read as `0` outside its bounds and the tables taken from the constant lists that
`init_tables` builds.  This is the reference the C code is compared with: `cell32` to
`sweep32` below are the same loops with the rounding of the C code, `march_rows_eq` shows
that the C code computes those on a valid input that fits its integer types, and
`sweep32_exact` that the two sweeps coincide when no operation rounds. -/

/-- The values `0`, `n / 2`, `n` that the array `vertsx` is assigned at the top of the row
loop, without rounding. -/
def exact_vertsx (n : ℚ) : Nat → ℚ
  | 1 => 0.5 * n
  | 5 => 0.5 * n
  | 2 => n
  | 3 => n
  | 4 => n
  | _ => 0

/-- The values `n * (row + 1)`, `n * (row + 0.5)`, `n * row` that the array `vertsy` is
assigned at the top of the row loop, without rounding. -/
def exact_vertsy (n : ℚ) (row : Int) : Nat → ℚ
  | 0 => n * (row + 1)
  | 1 => n * (row + 1)
  | 2 => n * (row + 1)
  | 3 => n * (row + 0.5)
  | 7 => n * (row + 0.5)
  | _ => n * row

/-- Contents of the blocks `point_table[0 .. 15]` after `init_tables`. -/
def point_table : List (List Nat) :=
  [[0], [3, 0, 1, 7], [3, 1, 2, 3], [4, 0, 2, 3, 7], [3, 7, 5, 6], [4, 0, 1, 5, 6],
   [6, 1, 2, 3, 7, 5, 6], [5, 0, 2, 3, 5, 6], [3, 3, 4, 5], [6, 0, 1, 7, 3, 4, 5],
   [4, 1, 2, 4, 5], [5, 0, 2, 4, 5, 7], [4, 7, 3, 4, 6], [5, 0, 1, 3, 4, 6],
   [5, 1, 2, 4, 6, 7], [4, 0, 2, 4, 6]]

/-- Contents of the blocks `triangle_table[0 .. 15]` after `init_tables`. -/
def triangle_table : List (List Nat) :=
  [[0], [1, 0, 1, 7], [1, 1, 2, 3], [2, 0, 2, 3, 3, 7, 0], [1, 7, 5, 6],
   [2, 0, 1, 5, 5, 6, 0], [2, 1, 2, 3, 7, 5, 6], [3, 0, 2, 3, 0, 3, 5, 0, 5, 6],
   [1, 3, 4, 5], [2, 0, 1, 7, 3, 4, 5], [2, 1, 2, 4, 4, 5, 1],
   [3, 0, 2, 4, 0, 4, 5, 0, 5, 7], [2, 7, 3, 4, 4, 6, 7], [3, 0, 1, 3, 0, 3, 4, 0, 4, 6],
   [3, 1, 2, 4, 1, 4, 6, 1, 6, 7], [2, 0, 2, 4, 4, 6, 0]]

/-- State of the statics after `init_tables`. -/
def built : Globals :=
  ⟨some (point_table.map Block.live), some (triangle_table.map Block.live)⟩

/-- State of the statics after the sixteen table entries have been released. -/
def released : Globals :=
  ⟨some (List.replicate 16 Block.freed), some (List.replicate 16 Block.freed)⟩

/-- The point ids of a code: `point_table[code]` past its leading count. -/
def pointspec (code : Nat) : List Nat := (point_table.getD code []).tail

/-- The triangle ids of a code: `triangle_table[code]` past its leading count. -/
def trianglespec (code : Nat) : List Nat := (triangle_table.getD code []).tail

/-- The expression `data[i] > threshold`, taken to be `0` outside the raster. -/
def sample (data : List ℚ) (threshold : ℚ) (i : Int) : Nat :=
  match data[i.toNat]? with
  | some v => if v > threshold then 1 else 0
  | none => 0

/-- Consecutive triples of a flat array. -/
def chunk3 {α : Type} : List α → List (α × α × α)
  | a :: b :: c :: rest => (a, b, c) :: chunk3 rest
  | _ => []

/-- The stores made by the triangle loop for a whole triangle spec. -/
def tri_stores (currinds : Nat → Nat) (trianglespec : List Nat) : List Nat :=
  (chunk3 trianglespec).flatMap (fun t => tri_words currinds t.1 t.2.1 t.2.2)

/-- The part of the cell body that follows the two raster reads: code lookup, point
loop, triangle loop and the hand-over to the next column. -/
def cell_update (normalized_cellsize : ℚ) (vertsy vertsz : Nat → ℚ) (northi southi : Int)
    (northeast southeast : Nat) (s : Sweep) : Sweep :=
  let code := s.southwest ||| (southeast <<< 1) ||| (s.northwest <<< 2) ||| (northeast <<< 3)
  let acc := (pointspec code).foldl
    (point_step s.vertsx vertsy vertsz s.previnds s.prevmask) ⟨fun _ => 0, 0, s.pts, s.npts⟩
  { vertsx := fun i => s.vertsx i + normalized_cellsize
    northi := northi
    southi := southi
    northwest := northeast
    southwest := southeast
    previnds := acc.currinds
    prevmask := acc.mask
    pts := acc.pts
    npts := acc.npts
    tris := s.tris ++ tri_stores acc.currinds (trianglespec code)
    ntris := s.ntris + (chunk3 (trianglespec code)).length }

/-- The raster index of the east samples: the west index advanced by one cell, stepped
back by one on the last column. -/
def east_index (cellsize ncols col westi : Int) : Int :=
  if col = ncols - 1 then westi + cellsize - 1 else westi + cellsize

/-- The body of the column loop in exact arithmetic. -/
def cell (data : List ℚ) (threshold : ℚ) (cellsize ncols : Int)
    (normalized_cellsize : ℚ) (vertsy vertsz : Nat → ℚ) (col : Int) (s : Sweep) : Sweep :=
  let northi := east_index cellsize ncols col s.northi
  let southi := east_index cellsize ncols col s.southi
  cell_update normalized_cellsize vertsy vertsz northi southi
    (sample data threshold northi) (sample data threshold southi) s

/-- The column loop in exact arithmetic. -/
def cols (data : List ℚ) (threshold : ℚ) (cellsize ncols : Int)
    (normalized_cellsize : ℚ) (vertsy vertsz : Nat → ℚ) : Nat → Int → Sweep → Sweep
  | 0, _, s => s
  | todo + 1, col, s =>
    cols data threshold cellsize ncols normalized_cellsize vertsy vertsz todo (col + 1)
      (cell data threshold cellsize ncols normalized_cellsize vertsy vertsz col s)

/-- The start of the row loop body in exact arithmetic. -/
def row_init (data : List ℚ) (threshold : ℚ) (width cellsize maxrow : Int)
    (normalized_cellsize : ℚ) (row : Int) (out : Cursor) : Sweep :=
  { vertsx := exact_vertsx normalized_cellsize
    northi := row * cellsize * width
    southi := MIN (row * cellsize * width + cellsize * width) maxrow
    northwest := sample data threshold (row * cellsize * width)
    southwest := sample data threshold (MIN (row * cellsize * width + cellsize * width) maxrow)
    previnds := fun _ => 0
    prevmask := 0
    pts := out.pts
    npts := out.npts
    tris := out.tris
    ntris := out.ntris }

/-- The body of the row loop in exact arithmetic. -/
def row_sweep (data : List ℚ) (threshold : ℚ) (width cellsize ncols maxrow : Int)
    (normalized_cellsize : ℚ) (vertsz : Nat → ℚ) (row : Int) (out : Cursor) : Cursor :=
  (cols data threshold cellsize ncols normalized_cellsize (exact_vertsy normalized_cellsize row)
    vertsz ncols.toNat 0
    (row_init data threshold width cellsize maxrow normalized_cellsize row out)).cursor

/-- The row loop in exact arithmetic. -/
def rows (data : List ℚ) (threshold : ℚ) (width cellsize ncols maxrow : Int)
    (normalized_cellsize : ℚ) (vertsz : Nat → ℚ) : Nat → Int → Cursor → Cursor
  | 0, _, out => out
  | todo + 1, row, out =>
    rows data threshold width cellsize ncols maxrow normalized_cellsize vertsz todo (row + 1)
      (row_sweep data threshold width cellsize ncols maxrow normalized_cellsize vertsz row out)

/-- The quotient `cellsize / max(width, height)`, without rounding. -/
def exact_ncell (width height cellsize : Int) : ℚ := (cellsize : ℚ) / (MAX width height : ℚ)

/-- The output cursors at the end of the sweep of a whole raster. -/
def sweep (stack : Nat → ℚ) (data : List ℚ) (width height cellsize : Int) (threshold : ℚ) :
    Cursor :=
  rows data threshold width cellsize (width.tdiv cellsize) ((height - 1) * width)
    (exact_ncell width height cellsize) (Function.update stack 0 0)
    (height.tdiv cellsize).toNat 0 ⟨[], 0, [], 0⟩

/-! ## The sweep with the rounding of the C code

The loops once more as total functions over unbounded integers, now with the `float`
operations of the C code: everything is as in the exact sweep except the values of
`vertsx`, `vertsy` and `normalized_cellsize`, hence the stored coordinates. -/

/-- The part of the cell body that follows the two raster reads, with the `float`
additions `vertsx[i] += normalized_cellsize`. -/
def cell_update32 (normalized_cellsize : ℚ) (vertsy vertsz : Nat → ℚ) (northi southi : Int)
    (northeast southeast : Nat) (s : Sweep) : Sweep :=
  { cell_update normalized_cellsize vertsy vertsz northi southi northeast southeast s with
    vertsx := fun i => binary32 (s.vertsx i + normalized_cellsize) }

/-- The body of the column loop with the rounding of the C code. -/
def cell32 (data : List ℚ) (threshold : ℚ) (cellsize ncols : Int)
    (normalized_cellsize : ℚ) (vertsy vertsz : Nat → ℚ) (col : Int) (s : Sweep) : Sweep :=
  let northi := east_index cellsize ncols col s.northi
  let southi := east_index cellsize ncols col s.southi
  cell_update32 normalized_cellsize vertsy vertsz northi southi
    (sample data threshold northi) (sample data threshold southi) s

/-- The column loop with the rounding of the C code. -/
def cols32 (data : List ℚ) (threshold : ℚ) (cellsize ncols : Int)
    (normalized_cellsize : ℚ) (vertsy vertsz : Nat → ℚ) : Nat → Int → Sweep → Sweep
  | 0, _, s => s
  | todo + 1, col, s =>
    cols32 data threshold cellsize ncols normalized_cellsize vertsy vertsz todo (col + 1)
      (cell32 data threshold cellsize ncols normalized_cellsize vertsy vertsz col s)

/-- The start of the row loop body with the `float` values of `vertsx`. -/
def row_init32 (data : List ℚ) (threshold : ℚ) (width cellsize maxrow : Int)
    (normalized_cellsize : ℚ) (row : Int) (out : Cursor) : Sweep :=
  { row_init data threshold width cellsize maxrow normalized_cellsize row out with
    vertsx := row_vertsx normalized_cellsize }

/-- The body of the row loop with the rounding of the C code. -/
def row_sweep32 (data : List ℚ) (threshold : ℚ) (width cellsize ncols maxrow : Int)
    (normalized_cellsize : ℚ) (vertsz : Nat → ℚ) (row : Int) (out : Cursor) : Cursor :=
  (cols32 data threshold cellsize ncols normalized_cellsize (row_vertsy normalized_cellsize row)
    vertsz ncols.toNat 0
    (row_init32 data threshold width cellsize maxrow normalized_cellsize row out)).cursor

/-- The row loop with the rounding of the C code. -/
def rows32 (data : List ℚ) (threshold : ℚ) (width cellsize ncols maxrow : Int)
    (normalized_cellsize : ℚ) (vertsz : Nat → ℚ) : Nat → Int → Cursor → Cursor
  | 0, _, out => out
  | todo + 1, row, out =>
    rows32 data threshold width cellsize ncols maxrow normalized_cellsize vertsz todo (row + 1)
      (row_sweep32 data threshold width cellsize ncols maxrow normalized_cellsize vertsz row
        out)

/-- The output cursors at the end of the sweep of a whole raster, with the rounding of
the C code. -/
def sweep32 (stack : Nat → ℚ) (data : List ℚ) (width height cellsize : Int) (threshold : ℚ) :
    Cursor :=
  rows32 data threshold width cellsize (width.tdiv cellsize) ((height - 1) * width)
    (ncell width height cellsize) (Function.update stack 0 0)
    (height.tdiv cellsize).toNat 0 ⟨[], 0, [], 0⟩

/-- The mesh that `par_msquares_from_grayscale` fills in from the final cursors. -/
def Cursor.mesh (out : Cursor) : par_msquares_mesh :=
  { points := out.pts, npoints := out.npts, triangles := out.tris, ntriangles := out.ntris,
    dim := 3 }

/-- The hypotheses under which a call is valid: positive dimensions that are multiples
of a positive cell size, and a raster of `width * height` samples. -/
structure Valid (data : List ℚ) (width height cellsize : Int) : Prop where
  width_pos : 0 < width
  height_pos : 0 < height
  cell_pos : 1 ≤ cellsize
  width_dvd : cellsize ∣ width
  height_dvd : cellsize ∣ height
  length_eq : (data.length : Int) = width * height

/-- The sizes that fit the integer types of the C code: the raster has at most `INT_MAX`
samples, and `maxpts * dim = ncols * nrows * 18` (hence also `maxtris * 3`, `maxpts` and
`maxtris`) is at most `INT_MAX`. -/
structure Fits (width height cellsize : Int) : Prop where
  raster : width * height ≤ 2147483647
  cells : width.tdiv cellsize * height.tdiv cellsize * 18 ≤ 2147483647

/-- The grids on which no `float` operation of the sweep rounds: the longer side of the
raster is below `2^24` and spans `2^k` cells for some `k ≤ 22`, so that
`normalized_cellsize` is `2^-k` and every coordinate is a multiple of `2^-(k+1)` with a
numerator below `2^24`. -/
def Dyadic (width height cellsize : Int) : Prop :=
  ∃ k : Nat, k ≤ 22 ∧ MAX width height = cellsize * 2 ^ k ∧ MAX width height < 16777216

/-! ## Predicates used in the proofs -/

/-- The capacity of an output block, in elements; the null pointer holds nothing. -/
def limit : Option Nat → Nat
  | none => 0
  | some capacity => capacity

/-- Two sweep states that differ at most in the values of `vertsx` and of the stored
coordinates. -/
def Similar (a b : Sweep) : Prop :=
  a.northi = b.northi ∧ a.southi = b.southi ∧
  a.northwest = b.northwest ∧ a.southwest = b.southwest ∧ a.previnds = b.previnds ∧
  a.prevmask = b.prevmask ∧ a.npts = b.npts ∧ a.tris = b.tris ∧ a.ntris = b.ntris ∧
  a.pts.length = b.pts.length

/-- Two output cursors that differ at most in the values of the stored coordinates. -/
def Cursor.Similar (a b : Cursor) : Prop :=
  a.npts = b.npts ∧ a.tris = b.tris ∧ a.ntris = b.ntris ∧ a.pts.length = b.pts.length

/-- The facts about the grid that the sweep relies on, with `ncols` and `nrows` named. -/
structure Grid (data : List ℚ) (w h cs ncols nrows : Int) : Prop where
  cs_pos : 0 < cs
  ncols_pos : 0 < ncols
  nrows_pos : 0 < nrows
  w_eq : w = ncols * cs
  h_eq : h = nrows * cs
  len_eq : (data.length : Int) = w * h

/-- The value of `mask` after the point loop has run over `ids`. -/
def mask_of (ids : List Nat) : Nat := ids.foldl (fun m id => m ||| 1 <<< id) 0

/-- Shape and size of the output while a row is swept: `p0` and `t0` are the counters at
the start of the row. -/
def Sized (p0 t0 : Nat) (col : Int) (s : Sweep) : Prop :=
  s.pts.length = 3 * s.npts ∧ s.tris.length = 3 * s.ntris ∧
  p0 ≤ s.npts ∧ t0 ≤ s.ntris ∧
  (s.npts : Int) ≤ p0 + 6 * col ∧ (s.ntris : Int) ≤ t0 + 3 * col

/-- Shape and size of the output between rows. -/
def SizedOut (ncols : Int) (r : Int) (out : Cursor) : Prop :=
  out.pts.length = 3 * out.npts ∧ out.tris.length = 3 * out.ntris ∧
  (out.npts : Int) ≤ ncols * r * 6 ∧ (out.ntris : Int) ≤ ncols * r * 3

/-- The `(x, y)` positions of the points of a flat coordinate array of stride 3. -/
def xy_list (pts : List ℚ) : List (ℚ × ℚ) := (chunk3 pts).map (fun p => (p.1, p.2.1))

/-- Two point-loop states that agree on everything but the stored `z` values. -/
def PointAcc.Agree (a b : PointAcc) : Prop :=
  a.currinds = b.currinds ∧ a.mask = b.mask ∧ a.npts = b.npts ∧
  a.pts.length = 3 * a.npts ∧ b.pts.length = 3 * b.npts ∧ xy_list a.pts = xy_list b.pts

/-- Two sweep states that agree on everything but the stored `z` values. -/
def Sweep.Agree (a b : Sweep) : Prop :=
  a.vertsx = b.vertsx ∧ a.northi = b.northi ∧ a.southi = b.southi ∧
  a.northwest = b.northwest ∧ a.southwest = b.southwest ∧ a.previnds = b.previnds ∧
  a.prevmask = b.prevmask ∧ a.npts = b.npts ∧ a.tris = b.tris ∧ a.ntris = b.ntris ∧
  a.pts.length = 3 * a.npts ∧ b.pts.length = 3 * b.npts ∧ xy_list a.pts = xy_list b.pts

/-- Two output cursors that agree on everything but the stored `z` values. -/
def Cursor.Agree (a b : Cursor) : Prop :=
  a.npts = b.npts ∧ a.tris = b.tris ∧ a.ntris = b.ntris ∧
  a.pts.length = 3 * a.npts ∧ b.pts.length = 3 * b.npts ∧ xy_list a.pts = xy_list b.pts

/-- Twice the signed area of the triangle `t` over the positions `xy`:
`(x1 - x0) * (y2 - y0) - (x2 - x0) * (y1 - y0)`, positive for a counter-clockwise
triangle. -/
def signed_area (xy : List (ℚ × ℚ)) (t : Nat × Nat × Nat) : ℚ :=
  let p0 := xy.getD t.1 (0, 0)
  let p1 := xy.getD t.2.1 (0, 0)
  let p2 := xy.getD t.2.2 (0, 0)
  (p1.1 - p0.1) * (p2.2 - p0.2) - (p2.1 - p0.1) * (p1.2 - p0.2)

/-- The point loop takes the index of `id` from the previous cell instead of appending a
point: `id` lies on the west edge and the previous cell holds the coinciding point. -/
def reused (prevmask id : Nat) : Prop :=
  (id = 0 ∧ prevmask &&& 4 ≠ 0) ∨ (id = 7 ∧ prevmask &&& 8 ≠ 0) ∨ (id = 6 ∧ prevmask &&& 16 ≠ 0)

instance (prevmask id : Nat) : Decidable (reused prevmask id) := by
  unfold reused; infer_instance

/-- The id in the west neighbour that coincides with the west-edge id `id` (0, 7 or 6). -/
def west_id (id : Nat) : Nat := if id = 0 then 2 else if id = 7 then 3 else 4

/-- The ids of a list for which the point loop appends a point. -/
def fresh_ids (prevmask : Nat) (ids : List Nat) : List Nat :=
  ids.filter (fun id => decide (¬ reused prevmask id))

/-- Geometry carried along a row: `vertsx` has been advanced `col` times, the arrays have
stride-3 shape, and every index that the next cell can reuse designates a stored point
at the position the next cell gives to the reusing id. -/
def Placed (n : ℚ) (vy : Nat → ℚ) (col : Int) (s : Sweep) : Prop :=
  (∀ i, s.vertsx i = exact_vertsx n i + col * n) ∧
  s.pts.length = 3 * s.npts ∧ s.tris.length = 3 * s.ntris ∧
  ∀ e, reused s.prevmask e → s.previnds (west_id e) < s.npts ∧
    (xy_list s.pts).getD (s.previnds (west_id e)) (0, 0) = (s.vertsx e, vy e)

/-- The raster indices and corner flags carried along row `r`: while cells remain, the
west indices are those of column `col`. -/
def Tracked (w h cs ncols r col : Int) (s : Sweep) : Prop :=
  (col < ncols → s.northi = r * cs * w + col * cs ∧
    s.southi = MIN (r * cs * w + cs * w) ((h - 1) * w) + col * cs) ∧
  s.northwest ≤ 1 ∧ s.southwest ≤ 1

/-- The function `par_msquares_get_mesh`; `none` is the null list pointer.  The
assertion tests `mlist && mindex < mlist->nmeshes`, and the read `mlist->meshes[mindex]`
that follows is outside the array when `mindex` is negative. -/
def par_msquares_get_mesh (mlist : Option par_msquares_meshlist) (mindex : Int) :
    Except Fault par_msquares_mesh :=
  match mlist with
  | none => .error .assertion
  | some ml =>
    if ¬ (mindex < ml.nmeshes) then .error .assertion
    else if mindex < 0 then .error .out_of_bounds
    else
      match ml.meshes[mindex.toNat]? with
      | some m => .ok m
      | none => .error .out_of_bounds

/-- The function `par_msquares_get_count`. -/
def par_msquares_get_count (mlist : Option par_msquares_meshlist) : Except Fault Int :=
  match mlist with
  | none => .error .assertion
  | some ml => .ok ml.nmeshes

/-- The distinct elements of a list, in the order of their first occurrence. -/
def first_occurrences (l : List Nat) : List Nat :=
  l.foldl (fun acc x => if x ∈ acc then acc else acc ++ [x]) []

/-- The west samples held at column `col` of row `r` are the raster samples at the
north-west and south-west raster indices of that cell. -/
def Cornered (data : List ℚ) (thr : ℚ) (w h cs ncols r col : Int) (s : Sweep) : Prop :=
  col < ncols →
    s.northwest = sample data thr (r * cs * w + col * cs) ∧
    s.southwest = sample data thr (MIN (r * cs * w + cs * w) ((h - 1) * w) + col * cs)

/-- The code of cell `(row, col)` as the specification states it: `SW + 2*SE + 4*NW + 8*NE`
over the samples in raster rows `rN = row * cellsize`, `rS = min ((row+1) * cellsize) (height-1)`
and raster columns `cW = col * cellsize`, `cE = min ((col+1) * cellsize) (width-1)`. -/
def spec_code (data : List ℚ) (thr : ℚ) (w h cs : Int) (row col : Int) : Nat :=
  sample data thr (min ((row + 1) * cs) (h - 1) * w + col * cs)
    + 2 * sample data thr (min ((row + 1) * cs) (h - 1) * w + min ((col + 1) * cs) (w - 1))
    + 4 * sample data thr (row * cs * w + col * cs)
    + 8 * sample data thr (row * cs * w + min ((col + 1) * cs) (w - 1))

/-! ## The sweep cell by cell -/

/-- The state of the sweep at the start of the column loop of row `r`. -/
def row_entry (data : List ℚ) (thr : ℚ) (w cs ncols maxrow : Int) (n : ℚ) (vz : Nat → ℚ)
    (r : Nat) : Sweep :=
  row_init data thr w cs maxrow n r (rows data thr w cs ncols maxrow n vz r 0 ⟨[], 0, [], 0⟩)

/-- The state of the sweep before cell `(r, c)`, which for `c > 0` is the state after
cell `(r, c - 1)`. -/
def cell_entry (data : List ℚ) (thr : ℚ) (w cs ncols maxrow : Int) (n : ℚ) (vz : Nat → ℚ)
    (r c : Nat) : Sweep :=
  cols data thr cs ncols n (exact_vertsy n r) vz c 0
    (row_entry data thr w cs ncols maxrow n vz r)

/-- The offsets `dx` of the eight sample points of a cell, in cells, as the specification
lists them. -/
def dx (p : Nat) : ℚ := [0, 1 / 2, 1, 1, 1, 1 / 2, 0, 0].getD p 0

/-- The offsets `dy` of the eight sample points of a cell, in cells, as the specification
lists them. -/
def dy (p : Nat) : ℚ := [1, 1, 1, 1 / 2, 0, 0, 0, 1 / 2].getD p 0

/-- One triple `(i_c, i_b, i_a)` per table triangle `(a, b, c)` of a code, in table order,
the ids resolved through `idx`. -/
def raw_cell (idx : Nat → Nat) (code : Nat) : List Nat :=
  (chunk3 (trianglespec code)).flatMap (fun t => [idx t.2.2, idx t.2.1, idx t.1])

/-- The triples of all cells in row-major order: row 0 first, columns left to right. -/
def raw_tris (code : Nat → Nat → Nat) (idx : Nat → Nat → Nat → Nat) (nrows ncols : Nat) :
    List Nat :=
  (List.range nrows).flatMap (fun r =>
    (List.range ncols).flatMap (fun c => raw_cell (idx r c) (code r c)))

/-- The state of the C sweep at the start of the column loop of row `r`. -/
def row_entry32 (data : List ℚ) (thr : ℚ) (w cs ncols maxrow : Int) (n : ℚ) (vz : Nat → ℚ)
    (r : Nat) : Sweep :=
  row_init32 data thr w cs maxrow n r
    (rows32 data thr w cs ncols maxrow n vz r 0 ⟨[], 0, [], 0⟩)

/-- The state of the C sweep before cell `(r, c)`. -/
def cell_entry32 (data : List ℚ) (thr : ℚ) (w cs ncols maxrow : Int) (n : ℚ) (vz : Nat → ℚ)
    (r c : Nat) : Sweep :=
  cols32 data thr cs ncols n (row_vertsy n r) vz c 0
    (row_entry32 data thr w cs ncols maxrow n vz r)
/-! ## The tables and the raster -/

theorem init_tables_eq : init_tables = .ok built := rfl

theorem table_counts : ∀ code < 16,
    (point_table.getD code []).headI = (pointspec code).length ∧
    (trianglespec code).length = 3 * (triangle_table.getD code []).headI := by
  decide

theorem chunk3_length {α : Type} : ∀ (k : Nat) (l : List α), l.length = 3 * k →
    (chunk3 l).length = k := by
  intro k
  induction k with
  | zero =>
    intro l h
    have : l = [] := List.length_eq_zero.mp (by omega)
    subst this
    rfl
  | succ k ih =>
    intro l h
    match l, h with
    | a :: b :: c :: rest, h =>
      have hr : rest.length = 3 * k := by simp at h; omega
      simp [chunk3, ih rest hr]

theorem above_eq (data : List ℚ) (thr : ℚ) (i : Int) (h0 : 0 ≤ i) (h1 : i < data.length) :
    above data thr i = .ok (sample data thr i) := by
  have hlt : i.toNat < data.length := by omega
  simp [above, load, sample, Int.not_lt.mpr h0, List.getElem?_eq_getElem hlt]

theorem sample_le_one (data : List ℚ) (thr : ℚ) (i : Int) : sample data thr i ≤ 1 := by
  unfold sample
  split
  · split <;> omega
  · omega

theorem code_lt (sw se nw ne : Nat) (h1 : sw ≤ 1) (h2 : se ≤ 1) (h3 : nw ≤ 1) (h4 : ne ≤ 1) :
    sw ||| (se <<< 1) ||| (nw <<< 2) ||| (ne <<< 3) < 16 := by
  interval_cases sw <;> interval_cases se <;> interval_cases nw <;> interval_cases ne <;> decide

theorem table_entry_built : ∀ code < 16,
    table_entry built.point_table code = .ok (point_table.getD code []) ∧
    table_entry built.triangle_table code = .ok (triangle_table.getD code []) := by
  intro code h
  interval_cases code <;> exact ⟨rfl, rfl⟩

theorem Valid.grid {data : List ℚ} {w h cs : Int} (v : Valid data w h cs) :
    Grid data w h cs (w.tdiv cs) (h.tdiv cs) := by
  obtain ⟨hw, hh, hc, ⟨a, ha⟩, ⟨b, hb⟩, hl⟩ := v
  have hc0 : cs ≠ 0 := by omega
  have e1 : w.tdiv cs = a := by
    rw [ha, Int.mul_comm, Int.mul_tdiv_cancel _ hc0]
  have e2 : h.tdiv cs = b := by
    rw [hb, Int.mul_comm, Int.mul_tdiv_cancel _ hc0]
  rw [e1, e2]
  have ha0 : 0 < a := by
    by_contra hne
    have : a ≤ 0 := by omega
    have : cs * a ≤ 0 := Int.mul_nonpos_of_nonneg_of_nonpos (by omega) this
    omega
  have hb0 : 0 < b := by
    by_contra hne
    have : b ≤ 0 := by omega
    have : cs * b ≤ 0 := Int.mul_nonpos_of_nonneg_of_nonpos (by omega) this
    omega
  exact ⟨by omega, ha0, hb0, by rw [ha, Int.mul_comm], by rw [hb, Int.mul_comm], hl⟩

theorem Valid.tmod {data : List ℚ} {w h cs : Int} (v : Valid data w h cs) :
    w.tmod cs = 0 ∧ h.tmod cs = 0 :=
  ⟨Int.tmod_eq_zero_of_dvd v.width_dvd, Int.tmod_eq_zero_of_dvd v.height_dvd⟩

section bounds
variable {data : List ℚ} {w h cs ncols nrows : Int}

theorem Grid.w_pos (G : Grid data w h cs ncols nrows) : 0 < w := by
  rw [G.w_eq]; exact Int.mul_pos G.ncols_pos G.cs_pos

theorem Grid.h_pos (G : Grid data w h cs ncols nrows) : 0 < h := by
  rw [G.h_eq]; exact Int.mul_pos G.nrows_pos G.cs_pos

theorem Grid.north (G : Grid data w h cs ncols nrows) (r : Int) (h0 : 0 ≤ r) (h1 : r < nrows) :
    0 ≤ r * cs * w ∧ r * cs * w + cs * w ≤ w * h ∧ w ≤ cs * w := by
  have hw := G.w_pos
  have hc := G.cs_pos
  have hcw : 0 < cs * w := Int.mul_pos hc hw
  refine ⟨?_, ?_, ?_⟩
  · have : 0 ≤ r * cs := Int.mul_nonneg h0 (by omega)
    exact Int.mul_nonneg this (by omega)
  · have e : w * h = nrows * (cs * w) := by rw [G.h_eq]; ring
    have e2 : r * cs * w + cs * w = (r + 1) * (cs * w) := by ring
    rw [e, e2]
    exact Int.mul_le_mul_of_nonneg_right (by omega) (by omega)
  · nlinarith

theorem Grid.south (G : Grid data w h cs ncols nrows) (r : Int) (h0 : 0 ≤ r) (h1 : r < nrows) :
    0 ≤ MIN (r * cs * w + cs * w) ((h - 1) * w) ∧
      MIN (r * cs * w + cs * w) ((h - 1) * w) + w ≤ w * h := by
  obtain ⟨a, b, c⟩ := G.north r h0 h1
  have e : (h - 1) * w = w * h - w := by ring
  have hw := G.w_pos
  unfold MIN
  split <;> constructor <;> omega

theorem Grid.east (G : Grid data w h cs ncols nrows) (c : Int) (h0 : 0 ≤ c) (h1 : c < ncols) :
    0 ≤ c * cs ∧ (c = ncols - 1 → c * cs + cs = w) ∧ (c ≠ ncols - 1 → c * cs + cs < w) := by
  have hc := G.cs_pos
  refine ⟨Int.mul_nonneg h0 (by omega), ?_, ?_⟩
  · intro e; rw [G.w_eq, e]; ring
  · intro e
    have : c + 2 ≤ ncols := by omega
    have h2 : (c + 2) * cs ≤ ncols * cs := Int.mul_le_mul_of_nonneg_right this (by omega)
    rw [G.w_eq]
    nlinarith

end bounds

/-! ## Induction over the loops -/

section loops
variable (data : List ℚ) (thr : ℚ) (w cs ncols maxrow : Int) (n : ℚ) (vy vz : Nat → ℚ)

theorem cols_inv (I : Int → Sweep → Prop)
    (step : ∀ col s, 0 ≤ col → col < ncols → I col s →
      I (col + 1) (cell data thr cs ncols n vy vz col s)) :
    ∀ (todo : Nat) (col : Int) (s : Sweep), 0 ≤ col → col + todo ≤ ncols → I col s →
      I (col + todo) (cols data thr cs ncols n vy vz todo col s) := by
  intro todo
  induction todo with
  | zero => intro col s _ _ h; simpa [cols] using h
  | succ k ih =>
    intro col s h0 h1 h
    have := ih (col + 1) _ (by omega) (by push_cast at h1; omega)
      (step col s h0 (by push_cast at h1; omega) h)
    rw [show col + ((k + 1 : Nat) : Int) = col + 1 + (k : Int) by push_cast; ring]
    exact this

theorem rows_inv (K : Int → Cursor → Prop) (nrows : Int)
    (step : ∀ r out, 0 ≤ r → r < nrows → K r out →
      K (r + 1) (row_sweep data thr w cs ncols maxrow n vz r out)) :
    ∀ (todo : Nat) (r : Int) (out : Cursor), 0 ≤ r → r + todo ≤ nrows → K r out →
      K (r + todo) (rows data thr w cs ncols maxrow n vz todo r out) := by
  intro todo
  induction todo with
  | zero => intro r out _ _ h; simpa [rows] using h
  | succ k ih =>
    intro r out h0 h1 h
    have := ih (r + 1) _ (by omega) (by push_cast at h1; omega)
      (step r out h0 (by push_cast at h1; omega) h)
    rw [show r + ((k + 1 : Nat) : Int) = r + 1 + (k : Int) by push_cast; ring]
    exact this

end loops

/-! ## Sizes -/

theorem pointspec_of_ge {code : Nat} (h : 16 ≤ code) : pointspec code = [] := by
  unfold pointspec
  rw [List.getD_eq_default _ _ (by simpa [point_table] using h)]
  rfl

theorem trianglespec_of_ge {code : Nat} (h : 16 ≤ code) : trianglespec code = [] := by
  unfold trianglespec
  rw [List.getD_eq_default _ _ (by simpa [triangle_table] using h)]
  rfl

theorem pointspec_length_le (code : Nat) : (pointspec code).length ≤ 6 := by
  by_cases h : code < 16
  · revert code; decide
  · simp [pointspec_of_ge (not_lt.mp h)]

theorem trianglespec_length_le (code : Nat) : (chunk3 (trianglespec code)).length ≤ 3 := by
  by_cases h : code < 16
  · revert code; decide
  · simp [trianglespec_of_ge (not_lt.mp h), chunk3]

theorem tri_stores_length (ci : Nat → Nat) (spec : List Nat) :
    (tri_stores ci spec).length = 3 * (chunk3 spec).length := by
  unfold tri_stores
  induction chunk3 spec with
  | nil => rfl
  | cons t rest ih =>
    rw [List.flatMap_cons, List.length_append, ih, List.length_cons]
    simp only [tri_words, List.length_cons, List.length_nil]
    omega

theorem point_step_counts (vx vy vz : Nat → ℚ) (pi : Nat → Nat) (pm : Nat)
    (acc : PointAcc) (id : Nat) :
    acc.npts ≤ (point_step vx vy vz pi pm acc id).npts ∧
    (point_step vx vy vz pi pm acc id).npts ≤ acc.npts + 1 ∧
    (point_step vx vy vz pi pm acc id).pts.length + 3 * acc.npts
      = acc.pts.length + 3 * (point_step vx vy vz pi pm acc id).npts := by
  unfold point_step
  simp only []
  split_ifs
  all_goals simp
  all_goals omega

theorem fold_counts (vx vy vz : Nat → ℚ) (pi : Nat → Nat) (pm : Nat) :
    ∀ (ids : List Nat) (acc : PointAcc),
      acc.npts ≤ (ids.foldl (point_step vx vy vz pi pm) acc).npts ∧
      (ids.foldl (point_step vx vy vz pi pm) acc).npts ≤ acc.npts + ids.length ∧
      (ids.foldl (point_step vx vy vz pi pm) acc).pts.length + 3 * acc.npts
        = acc.pts.length + 3 * (ids.foldl (point_step vx vy vz pi pm) acc).npts := by
  intro ids
  induction ids with
  | nil => intro acc; simp
  | cons id rest ih =>
    intro acc
    have h1 := point_step_counts vx vy vz pi pm acc id
    have h2 := ih (point_step vx vy vz pi pm acc id)
    simp only [List.foldl_cons, List.length_cons]
    omega

/-- What one cell adds to the output counters and array lengths. -/
theorem cell_counts (data : List ℚ) (thr : ℚ) (cs ncols : Int) (n : ℚ) (vy vz : Nat → ℚ)
    (col : Int) (s : Sweep) :
    s.npts ≤ (cell data thr cs ncols n vy vz col s).npts ∧
    (cell data thr cs ncols n vy vz col s).npts ≤ s.npts + 6 ∧
    s.ntris ≤ (cell data thr cs ncols n vy vz col s).ntris ∧
    (cell data thr cs ncols n vy vz col s).ntris ≤ s.ntris + 3 ∧
    (cell data thr cs ncols n vy vz col s).pts.length + 3 * s.npts
      = s.pts.length + 3 * (cell data thr cs ncols n vy vz col s).npts ∧
    (cell data thr cs ncols n vy vz col s).tris.length + 3 * s.ntris
      = s.tris.length + 3 * (cell data thr cs ncols n vy vz col s).ntris := by
  simp only [cell, cell_update, List.length_append, tri_stores_length]
  generalize hcode : (s.southwest ||| _ ||| _ ||| _ : Nat) = code
  have h1 := fold_counts s.vertsx vy vz s.previnds s.prevmask (pointspec code)
    ⟨fun _ => 0, 0, s.pts, s.npts⟩
  have h2 := pointspec_length_le code
  have h3 := trianglespec_length_le code
  simp only [] at h1
  omega

theorem cell_sized (data : List ℚ) (thr : ℚ) (cs ncols : Int) (n : ℚ) (vy vz : Nat → ℚ)
    (p0 t0 : Nat) (col : Int) (s : Sweep) (h : Sized p0 t0 col s) :
    Sized p0 t0 (col + 1) (cell data thr cs ncols n vy vz col s) := by
  have := cell_counts data thr cs ncols n vy vz col s
  unfold Sized at *
  omega

theorem row_sized (data : List ℚ) (thr : ℚ) (w cs ncols maxrow : Int) (n : ℚ)
    (vz : Nat → ℚ) (hn : 0 ≤ ncols) (r : Int) (out : Cursor) (h : SizedOut ncols r out) :
    SizedOut ncols (r + 1) (row_sweep data thr w cs ncols maxrow n vz r out) := by
  have key := cols_inv data thr cs ncols n (exact_vertsy n r) vz (Sized out.npts out.ntris)
    (fun col s _ _ hs => cell_sized data thr cs ncols n _ vz _ _ col s hs)
    ncols.toNat 0 (row_init data thr w cs maxrow n r out) (le_refl _) (by omega)
    (by unfold Sized row_init; simp; exact ⟨h.1, h.2.1⟩)
  unfold SizedOut at *
  unfold Sized at key
  unfold row_sweep Sweep.cursor
  simp only []
  have e : (0 : Int) + (ncols.toNat : Int) = ncols := by omega
  rw [e] at key
  have e1 : ncols * (r + 1) * 6 = ncols * r * 6 + 6 * ncols := by ring
  have e2 : ncols * (r + 1) * 3 = ncols * r * 3 + 3 * ncols := by ring
  rw [e1, e2]
  omega

theorem sweep_sized (stack : Nat → ℚ) (data : List ℚ) (w h cs : Int) (thr : ℚ)
    (v : Valid data w h cs) :
    SizedOut (w.tdiv cs) (h.tdiv cs) (sweep stack data w h cs thr) := by
  have G := v.grid
  have key := rows_inv data thr w cs (w.tdiv cs) ((h - 1) * w) (exact_ncell w h cs)
    (Function.update stack 0 0) (SizedOut (w.tdiv cs)) (h.tdiv cs)
    (fun r out _ _ hk => row_sized data thr w cs _ _ _ _ (le_of_lt G.ncols_pos) r out hk)
    (h.tdiv cs).toNat 0 ⟨[], 0, [], 0⟩ (le_refl _) (by have := G.nrows_pos; omega)
    (by unfold SizedOut; simp)
  have e : (0 : Int) + ((h.tdiv cs).toNat : Int) = h.tdiv cs := by
    have := G.nrows_pos; omega
  rw [e] at key
  exact key


/-! ## Machine arithmetic -/

theorem wrap32_eq (x : Int) (h0 : -2147483648 ≤ x) (h1 : x ≤ 2147483647) : wrap32 x = x := by
  unfold wrap32
  omega

theorem buffer_eq (count : Int) (width : Nat) (h0 : 0 ≤ count) (h1 : count ≤ 2147483647)
    (hw : width = 2 ∨ width = 4) : buffer count width = some count.toNat := by
  have e : to_size count = count.toNat := by
    unfold to_size
    rw [Int.emod_eq_of_lt h0 (by omega)]
  have hc : count.toNat ≤ 2147483647 := by omega
  unfold buffer malloc
  rw [e]
  rcases hw with rfl | rfl
  · rw [Nat.mod_eq_of_lt (by omega), if_pos (by omega)]
    simp
  · rw [Nat.mod_eq_of_lt (by omega), if_pos (by omega)]
    simp

theorem store_check_ok (block : Option Nat) (len : Nat) (h : len ≤ limit block) :
    store_check block len = .ok () := by
  cases block with
  | none =>
    have : len = 0 := by simpa [limit] using h
    simp [store_check, this]
  | some c =>
    have : len ≤ c := by simpa [limit] using h
    simp [store_check, this]

theorem bit_length_aux_spec : ∀ (fuel n : Nat), n ≤ fuel → n ≠ 0 →
    2 ^ (bit_length_aux fuel n - 1) ≤ n ∧ n < 2 ^ bit_length_aux fuel n := by
  intro fuel
  induction fuel with
  | zero => intro n h0 h1; omega
  | succ f ih =>
    intro n hle hn
    rw [bit_length_aux, if_neg hn]
    by_cases h2 : n / 2 = 0
    · have h1 : n = 1 := by omega
      subst h1
      cases f <;> simp [bit_length_aux]
    · obtain ⟨a, b⟩ := ih (n / 2) (by omega) h2
      have hpos : 0 < bit_length_aux f (n / 2) := by
        rcases Nat.eq_zero_or_pos (bit_length_aux f (n / 2)) with e | e
        · rw [e] at b; simp at b; omega
        · exact e
      constructor
      · have e : bit_length_aux f (n / 2) + 1 - 1 = (bit_length_aux f (n / 2) - 1) + 1 := by
          omega
        rw [e, pow_succ]
        omega
      · rw [pow_succ]
        omega

/-- A positive `n` has exactly `bit_length n` binary digits. -/
theorem bit_length_spec (n : Nat) (hn : n ≠ 0) :
    2 ^ (bit_length n - 1) ≤ n ∧ n < 2 ^ bit_length n :=
  bit_length_aux_spec n n (le_refl _) hn

theorem bit_length_pos (n : Nat) (hn : n ≠ 0) : 0 < bit_length n := by
  obtain ⟨_, b⟩ := bit_length_spec n hn
  rcases Nat.eq_zero_or_pos (bit_length n) with e | e
  · rw [e] at b; simp at b; omega
  · exact e

theorem abs_num_den (x : ℚ) : |x| = (x.num.natAbs : ℚ) / (x.den : ℚ) := by
  rw [Rat.abs_def, Rat.divInt_eq_div]
  simp only [Nat.cast_natAbs, Int.cast_abs, Int.cast_natCast, Int.cast_id]

/-- The exponent found by `leading_bit` is that of the leading bit: `2^e ≤ |x| < 2^(e+1)`. -/
theorem leading_bit_spec (x : ℚ) (hx : x ≠ 0) :
    (2 : ℚ) ^ leading_bit x ≤ |x| ∧ |x| < (2 : ℚ) ^ (leading_bit x + 1) := by
  have hnum : x.num.natAbs ≠ 0 := by
    intro e
    exact hx (Rat.num_eq_zero.mp (Int.natAbs_eq_zero.mp e))
  obtain ⟨a1, a2⟩ := bit_length_spec _ hnum
  obtain ⟨b1, b2⟩ := bit_length_spec _ x.den_nz
  have hpa := bit_length_pos _ hnum
  have hpb := bit_length_pos _ x.den_nz
  have hd : (0 : ℚ) < (x.den : ℚ) := by exact_mod_cast Nat.pos_of_ne_zero x.den_nz
  have hden2 : (x.den : ℚ) < 2 ^ bit_length x.den := by exact_mod_cast b2
  have hden1 : (2 : ℚ) ^ (bit_length x.den - 1) ≤ (x.den : ℚ) := by exact_mod_cast b1
  have hnum1 : (2 : ℚ) ^ (bit_length x.num.natAbs - 1) ≤ (x.num.natAbs : ℚ) := by
    exact_mod_cast a1
  have hnum2 : (x.num.natAbs : ℚ) < 2 ^ bit_length x.num.natAbs := by exact_mod_cast a2
  unfold leading_bit
  simp only []
  split
  · rename_i hle
    refine ⟨hle, ?_⟩
    rw [abs_num_den, div_lt_iff₀ hd]
    have e1 : ((bit_length x.num.natAbs : Int) - (bit_length x.den : Int) + 1)
        = (bit_length x.num.natAbs : Int) - ((bit_length x.den - 1 : Nat) : Int) := by
      omega
    rw [e1, zpow_sub₀ (by norm_num), zpow_natCast, zpow_natCast]
    calc (x.num.natAbs : ℚ) < 2 ^ bit_length x.num.natAbs := hnum2
      _ = 2 ^ bit_length x.num.natAbs / 2 ^ (bit_length x.den - 1)
            * 2 ^ (bit_length x.den - 1) := by field_simp
      _ ≤ 2 ^ bit_length x.num.natAbs / 2 ^ (bit_length x.den - 1) * (x.den : ℚ) :=
          mul_le_mul_of_nonneg_left hden1 (by positivity)
  · rename_i hlt
    refine ⟨?_, ?_⟩
    · rw [abs_num_den, le_div_iff₀ hd]
      have e1 : ((bit_length x.num.natAbs : Int) - (bit_length x.den : Int) - 1)
          = ((bit_length x.num.natAbs - 1 : Nat) : Int) - (bit_length x.den : Int) := by
        omega
      rw [e1, zpow_sub₀ (by norm_num), zpow_natCast, zpow_natCast]
      calc (2 : ℚ) ^ (bit_length x.num.natAbs - 1) / 2 ^ bit_length x.den * (x.den : ℚ)
          ≤ (2 : ℚ) ^ (bit_length x.num.natAbs - 1) / 2 ^ bit_length x.den
              * 2 ^ bit_length x.den :=
            mul_le_mul_of_nonneg_left (le_of_lt hden2) (by positivity)
        _ = (2 : ℚ) ^ (bit_length x.num.natAbs - 1) := by field_simp
        _ ≤ (x.num.natAbs : ℚ) := hnum1
    · rw [show (bit_length x.num.natAbs : Int) - (bit_length x.den : Int) - 1 + 1
        = (bit_length x.num.natAbs : Int) - (bit_length x.den : Int) by ring]
      exact lt_of_not_le hlt

theorem round_even_int (z : Int) : round_even (z : ℚ) = z := by
  unfold round_even
  simp

/-- A value with a significand of at most `p` bits is left alone by rounding to `p` bits. -/
theorem round_to_exact (p : Nat) (m k : Int) (hm : |m| < 2 ^ p) :
    round_to p ((m : ℚ) * 2 ^ k) = (m : ℚ) * 2 ^ k := by
  unfold round_to
  by_cases hx : (m : ℚ) * 2 ^ k = 0
  · rw [if_pos hx, hx]
  · rw [if_neg hx]
    have hle := (leading_bit_spec _ hx).1
    have habs : |(m : ℚ) * 2 ^ k| < 2 ^ ((p : Int) + k) := by
      rw [abs_mul, abs_of_pos (by positivity : (0 : ℚ) < 2 ^ k), zpow_add₀ (by norm_num),
        zpow_natCast]
      apply mul_lt_mul_of_pos_right _ (by positivity)
      have : ((|m| : Int) : ℚ) < ((2 ^ p : Int) : ℚ) := by exact_mod_cast hm
      simpa using this
    have hlt : leading_bit ((m : ℚ) * 2 ^ k) < (p : Int) + k :=
      (zpow_lt_zpow_iff_right₀ (by norm_num : (1 : ℚ) < 2)).mp (lt_of_le_of_lt hle habs)
    generalize leading_bit ((m : ℚ) * 2 ^ k) = L at hlt
    obtain ⟨j, hj⟩ : ∃ j : Nat, k = (L - ((p : Int) - 1)) + j :=
      ⟨(k - (L - ((p : Int) - 1))).toNat, by omega⟩
    generalize L - ((p : Int) - 1) = e at hj
    subst hj
    have hq : (m : ℚ) * 2 ^ (e + (j : Int)) / 2 ^ e = ((m * 2 ^ j : Int) : ℚ) := by
      rw [zpow_add₀ (by norm_num), zpow_natCast]
      push_cast
      field_simp
      ring
    rw [hq, round_even_int, zpow_add₀ (by norm_num), zpow_natCast]
    push_cast
    ring

theorem binary32_exact (m k : Int) (hm : |m| < 16777216) :
    binary32 ((m : ℚ) * 2 ^ k) = (m : ℚ) * 2 ^ k :=
  round_to_exact 24 m k (by norm_num; exact hm)

theorem binary64_exact (m k : Int) (hm : |m| < 9007199254740992) :
    binary64 ((m : ℚ) * 2 ^ k) = (m : ℚ) * 2 ^ k :=
  round_to_exact 53 m k (by norm_num; exact hm)

theorem binary32_int (z : Int) (hz : |z| < 16777216) : binary32 (z : ℚ) = z := by
  have := binary32_exact z 0 hz
  simpa using this

theorem binary64_int (z : Int) (hz : |z| < 9007199254740992) : binary64 (z : ℚ) = z := by
  have := binary64_exact z 0 hz
  simpa using this

/-! ## The rounded sweep and the exact sweep

The two sweeps go through the same cells with the same codes, counters and indices; only
the coordinates differ. -/

theorem point_step_similar (vx vy vz vx' vy' vz' : Nat → ℚ) (pi : Nat → Nat) (pm : Nat)
    (a b : PointAcc) (id : Nat)
    (h : a.currinds = b.currinds ∧ a.mask = b.mask ∧ a.npts = b.npts ∧
      a.pts.length = b.pts.length) :
    (point_step vx vy vz pi pm a id).currinds = (point_step vx' vy' vz' pi pm b id).currinds ∧
    (point_step vx vy vz pi pm a id).mask = (point_step vx' vy' vz' pi pm b id).mask ∧
    (point_step vx vy vz pi pm a id).npts = (point_step vx' vy' vz' pi pm b id).npts ∧
    (point_step vx vy vz pi pm a id).pts.length
      = (point_step vx' vy' vz' pi pm b id).pts.length := by
  obtain ⟨h1, h2, h3, h4⟩ := h
  unfold point_step
  simp only []
  split_ifs <;> simp [h1, h2, h3, h4]

theorem fold_similar (vx vy vz vx' vy' vz' : Nat → ℚ) (pi : Nat → Nat) (pm : Nat) :
    ∀ (ids : List Nat) (a b : PointAcc),
      (a.currinds = b.currinds ∧ a.mask = b.mask ∧ a.npts = b.npts ∧
        a.pts.length = b.pts.length) →
      (ids.foldl (point_step vx vy vz pi pm) a).currinds
        = (ids.foldl (point_step vx' vy' vz' pi pm) b).currinds ∧
      (ids.foldl (point_step vx vy vz pi pm) a).mask
        = (ids.foldl (point_step vx' vy' vz' pi pm) b).mask ∧
      (ids.foldl (point_step vx vy vz pi pm) a).npts
        = (ids.foldl (point_step vx' vy' vz' pi pm) b).npts ∧
      (ids.foldl (point_step vx vy vz pi pm) a).pts.length
        = (ids.foldl (point_step vx' vy' vz' pi pm) b).pts.length := by
  intro ids
  induction ids with
  | nil => intro a b h; exact h
  | cons id rest ih =>
    intro a b h
    exact ih _ _ (point_step_similar vx vy vz vx' vy' vz' pi pm a b id h)

theorem cell_update_similar (n n' : ℚ) (vy vz vy' vz' : Nat → ℚ) (ni si : Int) (ne se : Nat)
    (a b : Sweep) (h : Similar a b) :
    Similar (cell_update32 n vy vz ni si ne se a) (cell_update n' vy' vz' ni si ne se b) := by
  obtain ⟨h1, h2, h3, h4, h5, h6, h7, h8, h9, h10⟩ := h
  have key := fold_similar a.vertsx vy vz b.vertsx vy' vz' b.previnds b.prevmask
    (pointspec (b.southwest ||| se <<< 1 ||| b.northwest <<< 2 ||| ne <<< 3))
    ⟨fun _ => 0, 0, a.pts, a.npts⟩ ⟨fun _ => 0, 0, b.pts, b.npts⟩ ⟨rfl, rfl, h7, h10⟩
  obtain ⟨k1, k2, k3, k4⟩ := key
  unfold cell_update32 cell_update Similar
  simp only [h3, h4, h5, h6, h8, h9]
  exact ⟨trivial, trivial, trivial, trivial, k1, k2, k3, by rw [k1], trivial, k4⟩

theorem cell_similar (data : List ℚ) (thr : ℚ) (cs ncols : Int) (n n' : ℚ)
    (vy vz vy' vz' : Nat → ℚ) (col : Int) (a b : Sweep) (h : Similar a b) :
    Similar (cell32 data thr cs ncols n vy vz col a) (cell data thr cs ncols n' vy' vz' col b) := by
  unfold cell32 cell
  rw [h.1, h.2.1]
  exact cell_update_similar n n' vy vz vy' vz' _ _ _ _ a b h

theorem cols_similar (data : List ℚ) (thr : ℚ) (cs ncols : Int) (n n' : ℚ)
    (vy vz vy' vz' : Nat → ℚ) :
    ∀ (todo : Nat) (col : Int) (a b : Sweep), Similar a b →
      Similar (cols32 data thr cs ncols n vy vz todo col a)
        (cols data thr cs ncols n' vy' vz' todo col b) := by
  intro todo
  induction todo with
  | zero => intro col a b h; exact h
  | succ k ih =>
    intro col a b h
    unfold cols32 cols
    exact ih _ _ _ (cell_similar data thr cs ncols n n' vy vz vy' vz' col a b h)

theorem row_init_similar (data : List ℚ) (thr : ℚ) (w cs maxrow : Int) (n n' : ℚ) (r : Int)
    (a b : Cursor) (h : a.Similar b) :
    Similar (row_init32 data thr w cs maxrow n r a) (row_init data thr w cs maxrow n' r b) :=
  ⟨rfl, rfl, rfl, rfl, rfl, rfl, h.1, h.2.1, h.2.2.1, h.2.2.2⟩

theorem row_similar (data : List ℚ) (thr : ℚ) (w cs ncols maxrow : Int) (n n' : ℚ)
    (vz vz' : Nat → ℚ) (r : Int) (a b : Cursor) (h : a.Similar b) :
    (row_sweep32 data thr w cs ncols maxrow n vz r a).Similar
      (row_sweep data thr w cs ncols maxrow n' vz' r b) := by
  obtain ⟨_, _, _, _, _, _, k7, k8, k9, k10⟩ := cols_similar data thr cs ncols n n'
    (row_vertsy n r) vz (exact_vertsy n' r) vz' ncols.toNat 0 _ _
    (row_init_similar data thr w cs maxrow n n' r a b h)
  exact ⟨k7, k8, k9, k10⟩

theorem rows_similar (data : List ℚ) (thr : ℚ) (w cs ncols maxrow : Int) (n n' : ℚ)
    (vz vz' : Nat → ℚ) :
    ∀ (todo : Nat) (r : Int) (a b : Cursor), a.Similar b →
      (rows32 data thr w cs ncols maxrow n vz todo r a).Similar
        (rows data thr w cs ncols maxrow n' vz' todo r b) := by
  intro todo
  induction todo with
  | zero => intro r a b h; exact h
  | succ k ih =>
    intro r a b h
    unfold rows32 rows
    exact ih _ _ _ (row_similar data thr w cs ncols maxrow n n' vz vz' r a b h)

/-- The sweep of the C code and the exact sweep of a raster have the same counters, the
same triangle array and point arrays of the same length. -/
theorem sweep_similar (stack : Nat → ℚ) (data : List ℚ) (w h cs : Int) (thr : ℚ) :
    (sweep32 stack data w h cs thr).Similar (sweep stack data w h cs thr) :=
  rows_similar data thr w cs _ _ _ _ _ _ _ _ _ _ ⟨rfl, rfl, rfl, rfl⟩

/-! ### Lengths only grow -/

theorem cell32_grows (data : List ℚ) (thr : ℚ) (cs ncols : Int) (n : ℚ) (vy vz : Nat → ℚ)
    (col : Int) (s : Sweep) :
    s.pts.length ≤ (cell32 data thr cs ncols n vy vz col s).pts.length ∧
    s.tris.length ≤ (cell32 data thr cs ncols n vy vz col s).tris.length := by
  have h := cell_counts data thr cs ncols n vy vz col s
  have e1 : (cell32 data thr cs ncols n vy vz col s).pts
      = (cell data thr cs ncols n vy vz col s).pts := rfl
  have e2 : (cell32 data thr cs ncols n vy vz col s).tris
      = (cell data thr cs ncols n vy vz col s).tris := rfl
  rw [e1, e2]
  omega

theorem cols32_grows (data : List ℚ) (thr : ℚ) (cs ncols : Int) (n : ℚ) (vy vz : Nat → ℚ) :
    ∀ (todo : Nat) (col : Int) (s : Sweep),
      s.pts.length ≤ (cols32 data thr cs ncols n vy vz todo col s).pts.length ∧
      s.tris.length ≤ (cols32 data thr cs ncols n vy vz todo col s).tris.length := by
  intro todo
  induction todo with
  | zero => intro col s; exact ⟨le_refl _, le_refl _⟩
  | succ k ih =>
    intro col s
    have h1 := cell32_grows data thr cs ncols n vy vz col s
    have h2 := ih (col + 1) (cell32 data thr cs ncols n vy vz col s)
    unfold cols32
    omega

theorem row32_grows (data : List ℚ) (thr : ℚ) (w cs ncols maxrow : Int) (n : ℚ)
    (vz : Nat → ℚ) (r : Int) (out : Cursor) :
    out.pts.length ≤ (row_sweep32 data thr w cs ncols maxrow n vz r out).pts.length ∧
    out.tris.length ≤ (row_sweep32 data thr w cs ncols maxrow n vz r out).tris.length :=
  cols32_grows data thr cs ncols n (row_vertsy n r) vz ncols.toNat 0
    (row_init32 data thr w cs maxrow n r out)

theorem rows32_grows (data : List ℚ) (thr : ℚ) (w cs ncols maxrow : Int) (n : ℚ)
    (vz : Nat → ℚ) :
    ∀ (todo : Nat) (r : Int) (out : Cursor),
      out.pts.length ≤ (rows32 data thr w cs ncols maxrow n vz todo r out).pts.length ∧
      out.tris.length ≤ (rows32 data thr w cs ncols maxrow n vz todo r out).tris.length := by
  intro todo
  induction todo with
  | zero => intro r out; exact ⟨le_refl _, le_refl _⟩
  | succ k ih =>
    intro r out
    have h1 := row32_grows data thr w cs ncols maxrow n vz r out
    have h2 := ih (r + 1) (row_sweep32 data thr w cs ncols maxrow n vz r out)
    unfold rows32
    omega

/-! ## The C code computes the rounded sweep -/

theorem emit_points_eq (block : Option Nat) (vx vy vz : Nat → ℚ) (pi : Nat → Nat) (pm : Nat) :
    ∀ (ids : List Nat) (acc : PointAcc),
      (ids.foldl (point_step vx vy vz pi pm) acc).pts.length ≤ limit block →
      emit_points block vx vy vz pi pm ids.length ids acc
        = .ok (ids.foldl (point_step vx vy vz pi pm) acc) := by
  intro ids
  induction ids with
  | nil => intro acc _; rfl
  | cons id rest ih =>
    intro acc h
    rw [List.foldl_cons] at h
    have hg := fold_counts vx vy vz pi pm rest (point_step vx vy vz pi pm acc id)
    have hs : store_check block (point_step vx vy vz pi pm acc id).pts.length = .ok () :=
      store_check_ok _ _ (by omega)
    simp only [List.length_cons, emit_points, hs, List.foldl_cons]
    exact ih _ h

theorem emit_triangles_eq (block : Option Nat) (ci : Nat → Nat) :
    ∀ (k : Nat) (spec : List Nat) (acc : List Nat × Nat), spec.length = 3 * k →
      (acc.1 ++ tri_stores ci spec).length ≤ limit block →
      emit_triangles block ci k spec acc = .ok (acc.1 ++ tri_stores ci spec, acc.2 + k) := by
  intro k
  induction k with
  | zero =>
    intro spec acc h _
    have : spec = [] := List.length_eq_zero.mp (by omega)
    subst this
    simp [emit_triangles, tri_stores, chunk3]
  | succ k ih =>
    intro spec acc h hl
    match spec, h, hl with
    | a :: b :: c :: rest, h, hl =>
      have hr : rest.length = 3 * k := by simp at h; omega
      have e : tri_stores ci (a :: b :: c :: rest)
          = tri_words ci a b c ++ tri_stores ci rest := by
        simp [tri_stores, chunk3]
      rw [e, ← List.append_assoc] at hl
      have hs : store_check block (acc.1 ++ tri_words ci a b c).length = .ok () :=
        store_check_ok _ _ (by rw [List.length_append] at hl; omega)
      simp only [emit_triangles, hs]
      rw [ih rest _ hr hl, e]
      simp only [List.append_assoc]
      congr 2
      omega

theorem march_cell_eq (pb tb : Option Nat) (data : List ℚ) (thr : ℚ) (cs ncols : Int) (n : ℚ)
    (vy vz : Nat → ℚ) (col : Int) (s : Sweep)
    (hlen : (data.length : Int) ≤ 2147483647)
    (hn0 : 0 ≤ east_index cs ncols col s.northi)
    (hn1 : east_index cs ncols col s.northi < data.length)
    (hs0 : 0 ≤ east_index cs ncols col s.southi)
    (hs1 : east_index cs ncols col s.southi < data.length)
    (hnw : s.northwest ≤ 1) (hsw : s.southwest ≤ 1)
    (hp : (cell32 data thr cs ncols n vy vz col s).pts.length ≤ limit pb)
    (ht : (cell32 data thr cs ncols n vy vz col s).tris.length ≤ limit tb) :
    march_cell built pb tb data thr cs ncols n vy vz col s
      = .ok (cell32 data thr cs ncols n vy vz col s) := by
  have en : (if col = ncols - 1 then wrap32 (wrap32 (s.northi + cs) - 1)
      else wrap32 (s.northi + cs)) = east_index cs ncols col s.northi := by
    unfold east_index at hn0 hn1 ⊢
    split
    · rename_i hc
      rw [if_pos hc] at hn0 hn1
      rw [wrap32_eq (s.northi + cs) (by omega) (by omega), wrap32_eq _ (by omega) (by omega)]
    · rename_i hc
      rw [if_neg hc] at hn0 hn1
      rw [wrap32_eq (s.northi + cs) (by omega) (by omega)]
  have es : (if col = ncols - 1 then wrap32 (wrap32 (s.southi + cs) - 1)
      else wrap32 (s.southi + cs)) = east_index cs ncols col s.southi := by
    unfold east_index at hs0 hs1 ⊢
    split
    · rename_i hc
      rw [if_pos hc] at hs0 hs1
      rw [wrap32_eq (s.southi + cs) (by omega) (by omega), wrap32_eq _ (by omega) (by omega)]
    · rename_i hc
      rw [if_neg hc] at hs0 hs1
      rw [wrap32_eq (s.southi + cs) (by omega) (by omega)]
  have hc := code_lt s.southwest (sample data thr (east_index cs ncols col s.southi))
    s.northwest (sample data thr (east_index cs ncols col s.northi))
    hsw (sample_le_one _ _ _) hnw (sample_le_one _ _ _)
  have htab := table_entry_built _ hc
  have hk := table_counts _ hc
  unfold march_cell
  simp only [en, es, above_eq data thr _ hn0 hn1, above_eq data thr _ hs0 hs1, htab.1, htab.2,
    bind, Except.bind, pure, Except.pure]
  obtain ⟨hk1, hk2⟩ := hk
  simp only [pointspec, trianglespec] at hk1 hk2
  unfold cell32 cell_update32 cell_update at hp ht ⊢
  simp only [pointspec, trianglespec] at hp ht ⊢
  rw [hk1, emit_points_eq pb _ _ _ _ _ _ _ hp]
  simp only []
  rw [emit_triangles_eq tb _ _ _ _ hk2 ht]
  rw [chunk3_length _ _ hk2]

theorem march_rows_succ (g : Globals) (pb tb : Option Nat) (data : List ℚ) (thr : ℚ)
    (w cs ncols maxrow : Int) (n : ℚ) (vz : Nat → ℚ) (todo : Nat) (r : Int) (out : Cursor) :
    march_rows g pb tb data thr w cs ncols maxrow n vz (todo + 1) r out
      = match march_row g pb tb data thr w cs ncols maxrow n vz r out with
        | .error e => .error e
        | .ok out' => march_rows g pb tb data thr w cs ncols maxrow n vz todo (r + 1) out' :=
  rfl

theorem rows32_succ (data : List ℚ) (thr : ℚ)
    (w cs ncols maxrow : Int) (n : ℚ) (vz : Nat → ℚ) (todo : Nat) (r : Int) (out : Cursor) :
    rows32 data thr w cs ncols maxrow n vz (todo + 1) r out
      = rows32 data thr w cs ncols maxrow n vz todo (r + 1)
          (row_sweep32 data thr w cs ncols maxrow n vz r out) := rfl


section refine
variable {data : List ℚ} {w h cs ncols nrows : Int}

theorem row_init32_tracked (thr n : ℚ) (r : Int) (out : Cursor) :
    Tracked w h cs ncols r 0 (row_init32 data thr w cs ((h - 1) * w) n r out) :=
  ⟨fun _ => by simp [row_init32, row_init], sample_le_one _ _ _, sample_le_one _ _ _⟩

theorem cell32_tracked (thr n : ℚ) (vy vz : Nat → ℚ) (r col : Int) (s : Sweep)
    (hs : Tracked w h cs ncols r col s) :
    Tracked w h cs ncols r (col + 1) (cell32 data thr cs ncols n vy vz col s) := by
  refine ⟨fun hlt => ?_, sample_le_one _ _ _, sample_le_one _ _ _⟩
  obtain ⟨hn, hso⟩ := hs.1 (by omega)
  have hl : col ≠ ncols - 1 := by omega
  simp only [cell32, cell_update32, cell_update, east_index, hl, if_false, hn, hso]
  constructor <;> ring

/-- One cell of a row of a valid raster that fits an `int`: the C code computes `cell32`. -/
theorem march_cell_tracked (G : Grid data w h cs ncols nrows) (hfit : w * h ≤ 2147483647)
    (pb tb : Option Nat) (thr n : ℚ) (vy vz : Nat → ℚ)
    (r : Int) (hr0 : 0 ≤ r) (hr1 : r < nrows) (col : Int) (hc0 : 0 ≤ col) (hc1 : col < ncols)
    (s : Sweep) (hs : Tracked w h cs ncols r col s)
    (hp : (cell32 data thr cs ncols n vy vz col s).pts.length ≤ limit pb)
    (ht : (cell32 data thr cs ncols n vy vz col s).tris.length ≤ limit tb) :
    march_cell built pb tb data thr cs ncols n vy vz col s
      = .ok (cell32 data thr cs ncols n vy vz col s) := by
  obtain ⟨hn, hso⟩ := hs.1 hc1
  obtain ⟨n0, n1, n2⟩ := G.north r hr0 hr1
  obtain ⟨s0, s1⟩ := G.south r hr0 hr1
  obtain ⟨e0, e1, e2⟩ := G.east col hc0 hc1
  have hlen := G.len_eq
  have hcs := G.cs_pos
  apply march_cell_eq pb tb _ _ _ _ _ _ _ _ _ (by rw [hlen]; exact hfit) ?_ ?_ ?_ ?_
    hs.2.1 hs.2.2 hp ht
  all_goals
    try rw [hlen]
    unfold east_index
    by_cases hl : col = ncols - 1
    · have := e1 hl
      rw [if_pos hl]
      omega
    · have := e2 hl
      rw [if_neg hl]
      omega

/-- The column loop run for any number of leading cells of a row. -/
theorem march_cols_upto (G : Grid data w h cs ncols nrows) (hfit : w * h ≤ 2147483647)
    (pb tb : Option Nat) (thr n : ℚ) (vy vz : Nat → ℚ)
    (r : Int) (hr0 : 0 ≤ r) (hr1 : r < nrows) :
    ∀ (todo : Nat) (col : Int) (s : Sweep), 0 ≤ col → col + todo ≤ ncols →
      Tracked w h cs ncols r col s →
      (cols32 data thr cs ncols n vy vz todo col s).pts.length ≤ limit pb →
      (cols32 data thr cs ncols n vy vz todo col s).tris.length ≤ limit tb →
      march_cols built pb tb data thr cs ncols n vy vz todo col s
        = .ok (cols32 data thr cs ncols n vy vz todo col s) ∧
      Tracked w h cs ncols r (col + todo) (cols32 data thr cs ncols n vy vz todo col s) := by
  intro todo
  induction todo with
  | zero => intro col s _ _ hs _ _; exact ⟨rfl, by simpa [cols32] using hs⟩
  | succ k ih =>
    intro col s hc0 hc1 hs hp ht
    have hg := cols32_grows data thr cs ncols n vy vz k (col + 1)
      (cell32 data thr cs ncols n vy vz col s)
    have hp' : (cols32 data thr cs ncols n vy vz k (col + 1)
        (cell32 data thr cs ncols n vy vz col s)).pts.length ≤ limit pb := hp
    have ht' : (cols32 data thr cs ncols n vy vz k (col + 1)
        (cell32 data thr cs ncols n vy vz col s)).tris.length ≤ limit tb := ht
    have hcell := march_cell_tracked G hfit pb tb thr n vy vz r hr0 hr1 col hc0
      (by push_cast at hc1; omega) s hs (le_trans hg.1 hp') (le_trans hg.2 ht')
    obtain ⟨i1, i2⟩ := ih (col + 1) _ (by omega) (by push_cast at hc1 ⊢; omega)
      (cell32_tracked thr n vy vz r col s hs) hp' ht'
    unfold march_cols cols32
    rw [hcell]
    refine ⟨i1, ?_⟩
    rw [show col + ((k + 1 : Nat) : Int) = col + 1 + (k : Int) by push_cast; ring]
    exact i2

theorem row_start_eq (G : Grid data w h cs ncols nrows) (hfit : w * h ≤ 2147483647)
    (thr n : ℚ) (r : Int) (hr0 : 0 ≤ r) (hr1 : r < nrows) (out : Cursor) :
    row_start data thr w cs ((h - 1) * w) n r out
      = .ok (row_init32 data thr w cs ((h - 1) * w) n r out) := by
  obtain ⟨n0, n1, n2⟩ := G.north r hr0 hr1
  obtain ⟨s0, s1⟩ := G.south r hr0 hr1
  have hlen := G.len_eq
  have hw := G.w_pos
  have hcs := G.cs_pos
  have hcw : 0 ≤ cs * w := Int.mul_nonneg (by omega) (by omega)
  have hrc0 : 0 ≤ r * cs := Int.mul_nonneg hr0 (by omega)
  have hrc1 : r * cs ≤ r * cs * w := by nlinarith
  have w1 : wrap32 (r * cs) = r * cs := wrap32_eq _ (by omega) (by omega)
  have w2 : wrap32 (r * cs * w) = r * cs * w := wrap32_eq _ (by omega) (by omega)
  have w3 : wrap32 (cs * w) = cs * w := wrap32_eq _ (by omega) (by omega)
  have w4 : wrap32 (r * cs * w + cs * w) = r * cs * w + cs * w :=
    wrap32_eq _ (by omega) (by omega)
  have a1 := above_eq data thr (r * cs * w) n0 (by omega)
  have a2 := above_eq data thr (MIN (r * cs * w + cs * w) ((h - 1) * w)) s0 (by omega)
  unfold row_start row_init32 row_init
  simp only [w1, w2, w3, w4, a1, a2, bind, Except.bind, pure, Except.pure]

theorem march_row_eq (G : Grid data w h cs ncols nrows) (hfit : w * h ≤ 2147483647)
    (pb tb : Option Nat) (thr n : ℚ) (vz : Nat → ℚ)
    (r : Int) (hr0 : 0 ≤ r) (hr1 : r < nrows) (out : Cursor)
    (hp : (row_sweep32 data thr w cs ncols ((h - 1) * w) n vz r out).pts.length ≤ limit pb)
    (ht : (row_sweep32 data thr w cs ncols ((h - 1) * w) n vz r out).tris.length ≤ limit tb) :
    march_row built pb tb data thr w cs ncols ((h - 1) * w) n vz r out
      = .ok (row_sweep32 data thr w cs ncols ((h - 1) * w) n vz r out) := by
  have hnc := G.ncols_pos
  obtain ⟨hcols, _⟩ := march_cols_upto G hfit pb tb thr n (row_vertsy n r) vz r hr0 hr1
    ncols.toNat 0 (row_init32 data thr w cs ((h - 1) * w) n r out) (le_refl _) (by omega)
    (row_init32_tracked thr n r out) hp ht
  unfold march_row
  simp only [row_start_eq G hfit thr n r hr0 hr1 out, hcols, bind, Except.bind, pure,
    Except.pure]
  rfl


theorem march_rows_eq (G : Grid data w h cs ncols nrows) (hfit : w * h ≤ 2147483647)
    (pb tb : Option Nat) (thr n : ℚ) (vz : Nat → ℚ) :
    ∀ (todo : Nat) (r : Int) (out : Cursor), 0 ≤ r → r + todo ≤ nrows →
      (rows32 data thr w cs ncols ((h - 1) * w) n vz todo r out).pts.length ≤ limit pb →
      (rows32 data thr w cs ncols ((h - 1) * w) n vz todo r out).tris.length ≤ limit tb →
      march_rows built pb tb data thr w cs ncols ((h - 1) * w) n vz todo r out
        = .ok (rows32 data thr w cs ncols ((h - 1) * w) n vz todo r out) := by
  intro todo
  induction todo with
  | zero => intro r out _ _ _ _; rfl
  | succ k ih =>
    intro r out h0 h1 hp ht
    rw [rows32_succ] at hp ht ⊢
    have hg := rows32_grows data thr w cs ncols ((h - 1) * w) n vz k (r + 1)
      (row_sweep32 data thr w cs ncols ((h - 1) * w) n vz r out)
    have hrow := march_row_eq G hfit pb tb thr n vz r h0 (by omega) out
      (le_trans hg.1 hp) (le_trans hg.2 ht)
    rw [march_rows_succ, hrow]
    exact ih (r + 1) _ (by omega) (by push_cast at h1 ⊢; omega) hp ht
end refine

/-! ## The whole call -/

theorem fits_bounds {data : List ℚ} {w h cs : Int} (v : Valid data w h cs)
    (f : Fits w h cs) :
    0 < w.tdiv cs * h.tdiv cs ∧ w.tdiv cs * h.tdiv cs * 18 ≤ 2147483647 ∧
    0 ≤ (h - 1) * w ∧ (h - 1) * w ≤ 2147483647 := by
  have G := v.grid
  have h1 : 0 < w.tdiv cs * h.tdiv cs := Int.mul_pos G.ncols_pos G.nrows_pos
  have hw := v.width_pos
  have hh := v.height_pos
  have h2 : 0 ≤ (h - 1) * w := Int.mul_nonneg (by omega) (by omega)
  have h3 : (h - 1) * w = w * h - w := by ring
  exact ⟨h1, f.cells, h2, by have := f.raster; omega⟩

/-- The output arrays of the rounded sweep fit the two blocks that a call allocates. -/
theorem sweep32_sized (stack : Nat → ℚ) (data : List ℚ) (w h cs : Int) (thr : ℚ)
    (v : Valid data w h cs) :
    (sweep32 stack data w h cs thr).pts.length = 3 * (sweep32 stack data w h cs thr).npts ∧
    (sweep32 stack data w h cs thr).tris.length = 3 * (sweep32 stack data w h cs thr).ntris ∧
    ((sweep32 stack data w h cs thr).npts : Int) ≤ w.tdiv cs * h.tdiv cs * 6 ∧
    ((sweep32 stack data w h cs thr).ntris : Int) ≤ w.tdiv cs * h.tdiv cs * 3 := by
  obtain ⟨s1, s2, s3, s4⟩ := sweep_similar stack data w h cs thr
  obtain ⟨k1, k2, k3, k4⟩ := sweep_sized stack data w h cs thr v
  rw [s1, s2, s3, s4]
  exact ⟨k1, k2, k3, k4⟩

/-- On a valid input that fits the integer types, a first call (null statics) returns a
one-mesh list holding the output of the rounded sweep, and leaves the statics pointing at
released entries. -/
theorem from_grayscale_eq (stack : Nat → ℚ) (data : List ℚ) (w h cs : Int) (thr : ℚ)
    (flags : Int) (v : Valid data w h cs) (f : Fits w h cs) :
    par_msquares_from_grayscale Globals.initial stack data w h cs thr flags
      = .ok (⟨1, [(sweep32 stack data w h cs thr).mesh]⟩, released) := by
  have G := v.grid
  have hm := v.tmod
  obtain ⟨b1, b2, b3, b4⟩ := fits_bounds v f
  obtain ⟨z1, z2, z3, z4⟩ := sweep32_sized stack data w h cs thr v
  have w0 : wrap32 (w.tdiv cs * h.tdiv cs) = w.tdiv cs * h.tdiv cs :=
    wrap32_eq _ (by omega) (by omega)
  have w1 : wrap32 (w.tdiv cs * h.tdiv cs * 3) = w.tdiv cs * h.tdiv cs * 3 :=
    wrap32_eq _ (by omega) (by omega)
  have w2 : wrap32 (w.tdiv cs * h.tdiv cs * 3 * 3) = w.tdiv cs * h.tdiv cs * 3 * 3 :=
    wrap32_eq _ (by omega) (by omega)
  have w3 : wrap32 (w.tdiv cs * h.tdiv cs * 6) = w.tdiv cs * h.tdiv cs * 6 :=
    wrap32_eq _ (by omega) (by omega)
  have w4 : wrap32 (w.tdiv cs * h.tdiv cs * 6 * 3) = w.tdiv cs * h.tdiv cs * 6 * 3 :=
    wrap32_eq _ (by omega) (by omega)
  have w5 : wrap32 (h - 1) = h - 1 :=
    wrap32_eq _ (by have := v.height_pos; omega)
      (by have := v.width_pos; have := f.raster; nlinarith [v.height_pos])
  have w6 : wrap32 ((h - 1) * w) = (h - 1) * w := wrap32_eq _ (by omega) (by omega)
  have t1 := buffer_eq (w.tdiv cs * h.tdiv cs * 3 * 3) 2 (by omega) (by omega) (Or.inl rfl)
  have t2 := buffer_eq (w.tdiv cs * h.tdiv cs * 6 * 3) 4 (by omega) (by omega) (Or.inr rfl)
  have hrows := march_rows_eq G f.raster
    (some (w.tdiv cs * h.tdiv cs * 6 * 3).toNat) (some (w.tdiv cs * h.tdiv cs * 3 * 3).toNat)
    thr (ncell w h cs) (Function.update stack 0 0)
    (h.tdiv cs).toNat 0 ⟨[], 0, [], 0⟩ (le_refl _) (by have := G.nrows_pos; omega)
    (by
      show (sweep32 stack data w h cs thr).pts.length ≤ (w.tdiv cs * h.tdiv cs * 6 * 3).toNat
      omega)
    (by
      show (sweep32 stack data w h cs thr).tris.length ≤ (w.tdiv cs * h.tdiv cs * 3 * 3).toNat
      omega)
  have hw := v.width_pos
  have hh := v.height_pos
  have hc : cs ≠ 0 := by have := v.cell_pos; omega
  unfold par_msquares_from_grayscale
  simp only [hw, hh, hc, hm.1, hm.2, Globals.initial, init_tables_eq, not_true_eq_false,
    if_false, and_self, Option.isNone_none, if_true, bind, Except.bind, pure, Except.pure,
    gt_iff_lt, w0, w1, w2, w3, w4, w5, w6, t1, t2, hrows]
  have e : rows32 data thr w cs (w.tdiv cs) ((h - 1) * w) (ncell w h cs)
      (Function.update stack 0 0) (h.tdiv cs).toNat 0 ⟨[], 0, [], 0⟩
      = sweep32 stack data w h cs thr := rfl
  rw [e]
  simp only [z3, z4, not_true_eq_false, if_false]
  rfl

/-! ## Grids on which nothing rounds -/

theorem cell_update32_exact (n : ℚ) (vy vz : Nat → ℚ) (ni si : Int) (ne se : Nat) (s : Sweep)
    (hx : ∀ i, binary32 (s.vertsx i + n) = s.vertsx i + n) :
    cell_update32 n vy vz ni si ne se s = cell_update n vy vz ni si ne se s := by
  have e : (fun i => binary32 (s.vertsx i + n)) = fun i => s.vertsx i + n := funext hx
  unfold cell_update32
  rw [e]
  rfl

theorem cols32_exact (data : List ℚ) (thr : ℚ) (cs ncols : Int) (n : ℚ) (vy vz : Nat → ℚ)
    (hX : ∀ c : Int, 0 ≤ c → c < ncols → ∀ i,
      binary32 (exact_vertsx n i + c * n + n) = exact_vertsx n i + c * n + n) :
    ∀ (todo : Nat) (col : Int) (s : Sweep), 0 ≤ col → col + todo ≤ ncols →
      (∀ i, s.vertsx i = exact_vertsx n i + col * n) →
      cols32 data thr cs ncols n vy vz todo col s = cols data thr cs ncols n vy vz todo col s := by
  intro todo
  induction todo with
  | zero => intro col s _ _ _; rfl
  | succ k ih =>
    intro col s h0 h1 hs
    have hcell : cell32 data thr cs ncols n vy vz col s = cell data thr cs ncols n vy vz col s :=
      cell_update32_exact n vy vz _ _ _ _ s (fun i => by
        rw [hs i]
        exact hX col h0 (by push_cast at h1; omega) i)
    rw [cols32, cols, hcell]
    apply ih (col + 1) _ (by omega) (by push_cast at h1 ⊢; omega)
    intro i
    show s.vertsx i + n = _
    rw [hs i]
    push_cast
    ring

theorem row_sweep32_exact (data : List ℚ) (thr : ℚ) (w cs ncols maxrow : Int) (n : ℚ)
    (vz : Nat → ℚ) (hnc : 0 ≤ ncols)
    (hX : ∀ c : Int, 0 ≤ c → c < ncols → ∀ i,
      binary32 (exact_vertsx n i + c * n + n) = exact_vertsx n i + c * n + n)
    (hx : row_vertsx n = exact_vertsx n) (r : Int) (hy : row_vertsy n r = exact_vertsy n r)
    (out : Cursor) :
    row_sweep32 data thr w cs ncols maxrow n vz r out
      = row_sweep data thr w cs ncols maxrow n vz r out := by
  have e : row_init32 data thr w cs maxrow n r out = row_init data thr w cs maxrow n r out := by
    unfold row_init32
    rw [hx]
    rfl
  unfold row_sweep32 row_sweep
  rw [e, hy, cols32_exact data thr cs ncols n _ vz hX ncols.toNat 0 _ (le_refl _) (by omega)
    (fun i => by simp [row_init])]

theorem rows32_exact (data : List ℚ) (thr : ℚ) (w cs ncols maxrow nrows : Int) (n : ℚ)
    (vz : Nat → ℚ) (hnc : 0 ≤ ncols)
    (hX : ∀ c : Int, 0 ≤ c → c < ncols → ∀ i,
      binary32 (exact_vertsx n i + c * n + n) = exact_vertsx n i + c * n + n)
    (hx : row_vertsx n = exact_vertsx n)
    (hy : ∀ r : Int, 0 ≤ r → r < nrows → row_vertsy n r = exact_vertsy n r) :
    ∀ (todo : Nat) (r : Int) (out : Cursor), 0 ≤ r → r + todo ≤ nrows →
      rows32 data thr w cs ncols maxrow n vz todo r out
        = rows data thr w cs ncols maxrow n vz todo r out := by
  intro todo
  induction todo with
  | zero => intro r out _ _; rfl
  | succ k ih =>
    intro r out h0 h1
    rw [rows32, rows, row_sweep32_exact data thr w cs ncols maxrow n vz hnc hX hx r
      (hy r h0 (by push_cast at h1; omega)) out]
    exact ih (r + 1) _ (by omega) (by push_cast at h1 ⊢; omega)

theorem exact_vertsx_cases (n : ℚ) (i : Nat) :
    exact_vertsx n i = 0 ∨ exact_vertsx n i = 0.5 * n ∨ exact_vertsx n i = n := by
  unfold exact_vertsx
  split <;> simp

/-- With `normalized_cellsize = 2 * 2^e` and fewer than `2^22` columns to the west, the
addition `vertsx[i] += normalized_cellsize` does not round. -/
theorem advance_exact (e c : Int) (hc0 : 0 ≤ c) (hc1 : c < 4194304) (i : Nat) :
    binary32 (exact_vertsx (2 * 2 ^ e) i + c * (2 * 2 ^ e) + 2 * 2 ^ e)
      = exact_vertsx (2 * 2 ^ e) i + c * (2 * 2 ^ e) + 2 * 2 ^ e := by
  rcases exact_vertsx_cases (2 * 2 ^ e) i with h | h | h
  · have a : exact_vertsx (2 * (2 : ℚ) ^ e) i + c * (2 * 2 ^ e) + 2 * 2 ^ e
        = ((2 * c + 2 : Int) : ℚ) * 2 ^ e := by rw [h]; push_cast; ring
    rw [a]
    exact binary32_exact _ _ (by rw [abs_of_nonneg (by omega)]; omega)
  · have a : exact_vertsx (2 * (2 : ℚ) ^ e) i + c * (2 * 2 ^ e) + 2 * 2 ^ e
        = ((2 * c + 3 : Int) : ℚ) * 2 ^ e := by rw [h]; push_cast; ring
    rw [a]
    exact binary32_exact _ _ (by rw [abs_of_nonneg (by omega)]; omega)
  · have a : exact_vertsx (2 * (2 : ℚ) ^ e) i + c * (2 * 2 ^ e) + 2 * 2 ^ e
        = ((2 * c + 4 : Int) : ℚ) * 2 ^ e := by rw [h]; push_cast; ring
    rw [a]
    exact binary32_exact _ _ (by rw [abs_of_nonneg (by omega)]; omega)

theorem row_vertsx_exact (e : Int) : row_vertsx (2 * 2 ^ e) = exact_vertsx (2 * 2 ^ e) := by
  have a : (0.5 : ℚ) * (2 * 2 ^ e) = ((1 : Int) : ℚ) * 2 ^ e := by push_cast; ring
  funext i
  unfold row_vertsx exact_vertsx
  split <;> first
    | rfl
    | (rw [a, binary64_exact 1 e (by decide), binary32_exact 1 e (by decide)])

theorem row_vertsy_exact (e r : Int) (hr0 : 0 ≤ r) (hr1 : r < 4194304) :
    row_vertsy (2 * 2 ^ e) r = exact_vertsy (2 * 2 ^ e) r := by
  have a1 : ((r : ℚ) + 1) = ((r + 1 : Int) : ℚ) := by push_cast; ring
  have a2 : (2 * (2 : ℚ) ^ e) * ((r + 1 : Int) : ℚ) = ((2 * (r + 1) : Int) : ℚ) * 2 ^ e := by
    push_cast; ring
  have a3 : (2 * (2 : ℚ) ^ e) * ((r : Int) : ℚ) = ((2 * r : Int) : ℚ) * 2 ^ e := by
    push_cast; ring
  have a4 : ((r : ℚ) + 0.5) = ((2 * r + 1 : Int) : ℚ) * 2 ^ (-1 : Int) := by
    push_cast; norm_num; ring
  have a5 : (2 * (2 : ℚ) ^ e) * (((2 * r + 1 : Int) : ℚ) * 2 ^ (-1 : Int))
      = ((2 * r + 1 : Int) : ℚ) * 2 ^ e := by
    push_cast; norm_num; ring
  have b1 : binary32 (((r + 1 : Int) : ℚ)) = ((r + 1 : Int) : ℚ) :=
    binary32_int _ (by rw [abs_of_nonneg (by omega)]; omega)
  have b2 : binary32 ((r : Int) : ℚ) = ((r : Int) : ℚ) :=
    binary32_int _ (by rw [abs_of_nonneg (by omega)]; omega)
  have c1 : binary32 ((2 * (2 : ℚ) ^ e) * binary32 ((r : ℚ) + 1)) = (2 * 2 ^ e) * ((r : ℚ) + 1) := by
    rw [a1, b1, a2]
    exact binary32_exact _ _ (by rw [abs_of_nonneg (by omega)]; omega)
  have c2 : binary32 ((2 * (2 : ℚ) ^ e) * binary32 (r : ℚ)) = (2 * 2 ^ e) * (r : ℚ) := by
    rw [b2, a3]
    exact binary32_exact _ _ (by rw [abs_of_nonneg (by omega)]; omega)
  have c3 : binary32 (binary64 ((2 * (2 : ℚ) ^ e) * binary64 ((r : ℚ) + 0.5)))
      = (2 * 2 ^ e) * ((r : ℚ) + 0.5) := by
    rw [a4, binary64_exact _ _ (by rw [abs_of_nonneg (by omega)]; omega), a5,
      binary64_exact _ _ (by rw [abs_of_nonneg (by omega)]; omega),
      binary32_exact _ _ (by rw [abs_of_nonneg (by omega)]; omega)]
  funext i
  unfold row_vertsy exact_vertsy
  split <;> first | exact c1 | exact c2 | exact c3

/-- On a valid dyadic grid `normalized_cellsize` is computed without rounding and is a power
of two; the grid has at most `2^22` columns and rows. -/
theorem dyadic_cellsize {data : List ℚ} {w h cs : Int} (v : Valid data w h cs)
    (d : Dyadic w h cs) :
    ∃ e : Int, ncell w h cs = 2 * 2 ^ e ∧ exact_ncell w h cs = 2 * 2 ^ e ∧
      w.tdiv cs ≤ 4194304 ∧ h.tdiv cs ≤ 4194304 := by
  obtain ⟨k, hk, hmax, hlt⟩ := d
  have G := v.grid
  have hcs := v.cell_pos
  have hpow : (1 : Int) ≤ 2 ^ k := by
    have : (0 : Int) < 2 ^ k := by positivity
    linarith
  have hpow2 : (2 : Int) ^ k ≤ 2 ^ 22 := pow_le_pow_right₀ (by norm_num) hk
  have hcm : cs ≤ MAX w h := by rw [hmax]; nlinarith
  have hwm : w ≤ MAX w h := by unfold MAX; split <;> omega
  have hhm : h ≤ MAX w h := by unfold MAX; split <;> omega
  have hnc : w.tdiv cs ≤ 2 ^ k := by
    have := G.w_eq
    by_contra hgt
    have : (2 ^ k + 1) * cs ≤ w.tdiv cs * cs :=
      Int.mul_le_mul_of_nonneg_right (by omega) (by omega)
    nlinarith
  have hnr : h.tdiv cs ≤ 2 ^ k := by
    have := G.h_eq
    by_contra hgt
    have : (2 ^ k + 1) * cs ≤ h.tdiv cs * cs :=
      Int.mul_le_mul_of_nonneg_right (by omega) (by omega)
    nlinarith
  have ex : exact_ncell w h cs = 2 * 2 ^ (-((k : Int) + 1)) := by
    unfold exact_ncell
    rw [hmax]
    have hc0 : (cs : ℚ) ≠ 0 := by exact_mod_cast (by omega : cs ≠ 0)
    rw [neg_add, zpow_add₀ (by norm_num), zpow_neg, zpow_natCast]
    push_cast
    field_simp
    ring
  refine ⟨-((k : Int) + 1), ?_, ex, by norm_num at hpow2; omega, by norm_num at hpow2; omega⟩
  have e1 : binary32 (cs : ℚ) = cs :=
    binary32_int _ (by rw [abs_of_nonneg (by omega)]; omega)
  have e2 : binary32 ((MAX w h : Int) : ℚ) = (MAX w h : Int) :=
    binary32_int _ (by rw [abs_of_nonneg (by omega)]; omega)
  unfold ncell
  rw [e1, e2]
  have e3 : (cs : ℚ) / ((MAX w h : Int) : ℚ) = exact_ncell w h cs := rfl
  rw [e3, ex]
  have e4 : (2 : ℚ) * 2 ^ (-((k : Int) + 1)) = ((1 : Int) : ℚ) * 2 ^ (-(k : Int)) := by
    rw [neg_add, zpow_add₀ (by norm_num)]
    push_cast
    field_simp
    ring
  rw [e4]
  exact binary32_exact 1 _ (by decide)

/-- On a valid dyadic grid the sweep of the C code is the exact sweep: no `float`
operation rounds. -/
theorem sweep32_exact (stack : Nat → ℚ) (data : List ℚ) (w h cs : Int) (thr : ℚ)
    (v : Valid data w h cs) (d : Dyadic w h cs) :
    sweep32 stack data w h cs thr = sweep stack data w h cs thr := by
  have G := v.grid
  obtain ⟨e, e1, e2, hnc, hnr⟩ := dyadic_cellsize v d
  unfold sweep32 sweep
  rw [e1, e2]
  exact rows32_exact data thr w cs (w.tdiv cs) ((h - 1) * w) (h.tdiv cs) (2 * 2 ^ e)
    (Function.update stack 0 0) (le_of_lt G.ncols_pos)
    (fun c hc0 hc1 i => advance_exact e c hc0 (by omega) i)
    (row_vertsx_exact e)
    (fun r hr0 hr1 => row_vertsy_exact e r hr0 (by omega))
    (h.tdiv cs).toNat 0 ⟨[], 0, [], 0⟩ (le_refl _) (by have := G.nrows_pos; omega)

/-- On a valid dyadic input that fits the integer types, a first call returns a one-mesh
list holding the output of the exact sweep. -/
theorem from_grayscale_exact (stack : Nat → ℚ) (data : List ℚ) (w h cs : Int) (thr : ℚ)
    (flags : Int) (v : Valid data w h cs) (f : Fits w h cs) (d : Dyadic w h cs) :
    par_msquares_from_grayscale Globals.initial stack data w h cs thr flags
      = .ok (⟨1, [(sweep stack data w h cs thr).mesh]⟩, released) := by
  rw [from_grayscale_eq stack data w h cs thr flags v f, sweep32_exact stack data w h cs thr v d]
/-! ## Index validity -/

theorem fold_mask (vx vy vz : Nat → ℚ) (pi : Nat → Nat) (pm : Nat) :
    ∀ (ids : List Nat) (acc : PointAcc),
      (ids.foldl (point_step vx vy vz pi pm) acc).mask
        = ids.foldl (fun m id => m ||| 1 <<< id) acc.mask := by
  intro ids
  induction ids with
  | nil => intro acc; rfl
  | cons id rest ih =>
    intro acc
    simp only [List.foldl_cons]
    rw [ih]
    congr 1
    unfold point_step
    simp only []
    split_ifs <;> rfl

/-- A property `Q` of the index recorded for an id holds for every id of the list once
the point loop has run, when each step establishes it for its own id and keeps it for
the others; `W` is what the steps may rely on. -/
theorem fold_spec (f : PointAcc → Nat → PointAcc) (W : PointAcc → Prop)
    (Q : PointAcc → Nat → Prop)
    (hW : ∀ acc id, W acc → W (f acc id))
    (hnew : ∀ acc id, W acc → Q (f acc id) id)
    (hkeep : ∀ acc id id', W acc → Q acc id' → Q (f acc id) id') :
    ∀ (ids : List Nat) (acc : PointAcc), W acc →
      W (ids.foldl f acc) ∧ (∀ id, Q acc id → Q (ids.foldl f acc) id) ∧
        ∀ id ∈ ids, Q (ids.foldl f acc) id := by
  intro ids
  induction ids with
  | nil => intro acc h; exact ⟨h, fun _ hq => hq, by simp⟩
  | cons id rest ih =>
    intro acc h
    obtain ⟨h1, h2, h3⟩ := ih (f acc id) (hW acc id h)
    refine ⟨h1, fun id' hq => h2 id' (hkeep acc id id' h hq), ?_⟩
    intro id' hmem
    rcases List.mem_cons.mp hmem with e | e
    · subst e; exact h2 _ (hnew acc _ h)
    · exact h3 id' e

theorem mem_chunk3 {α : Type} : ∀ (l : List α) (t : α × α × α), t ∈ chunk3 l →
    t.1 ∈ l ∧ t.2.1 ∈ l ∧ t.2.2 ∈ l
  | a :: b :: c :: rest, t, h => by
    simp only [chunk3, List.mem_cons] at h
    rcases h with e | e
    · subst e; simp
    · have := mem_chunk3 rest t e
      simp [this.1, this.2.1, this.2.2]
  | [], _, h => by simp [chunk3] at h
  | [_], _, h => by simp [chunk3] at h
  | [_, _], _, h => by simp [chunk3] at h

theorem triangle_ids_declared (code : Nat) : ∀ x ∈ trianglespec code, x ∈ pointspec code := by
  by_cases h : code < 16
  · revert code; decide
  · simp [trianglespec_of_ge (not_lt.mp h)]

theorem mask_bits_declared (code : Nat) :
    (mask_of (pointspec code) &&& 4 ≠ 0 → 2 ∈ pointspec code) ∧
    (mask_of (pointspec code) &&& 8 ≠ 0 → 3 ∈ pointspec code) ∧
    (mask_of (pointspec code) &&& 16 ≠ 0 → 4 ∈ pointspec code) := by
  by_cases h : code < 16
  · revert code; decide
  · simp [pointspec_of_ge (not_lt.mp h), mask_of]

theorem point_step_other (vx vy vz : Nat → ℚ) (pi : Nat → Nat) (pm : Nat)
    (acc : PointAcc) (id id' : Nat) (hne : id' ≠ id) :
    (point_step vx vy vz pi pm acc id).currinds id' = acc.currinds id' := by
  unfold point_step
  simp only []
  split_ifs <;> simp [Function.update, hne]

theorem valid_one : Valid [1] 1 1 1 :=
  ⟨by decide, by decide, by decide, ⟨1, rfl⟩, ⟨1, rfl⟩, rfl⟩

theorem valid_two : Valid [1, 1, 1, 0] 2 2 1 :=
  ⟨by decide, by decide, by decide, ⟨2, rfl⟩, ⟨2, rfl⟩, rfl⟩

/-! ## A raster that is nowhere above the threshold -/

theorem sample_eq_zero (data : List ℚ) (thr : ℚ) (hle : ∀ v ∈ data, v ≤ thr) (i : Int) :
    sample data thr i = 0 := by
  unfold sample
  split
  · rename_i v hv
    have := hle v (List.getElem?_mem hv)
    rw [if_neg (not_lt.mpr this)]
  · rfl

theorem cell_outside (data : List ℚ) (thr : ℚ) (cs ncols : Int) (n : ℚ) (vy vz : Nat → ℚ)
    (hle : ∀ v ∈ data, v ≤ thr) (out : Cursor) (col : Int) (s : Sweep)
    (h : s.cursor = out ∧ s.northwest = 0 ∧ s.southwest = 0) :
    (cell data thr cs ncols n vy vz col s).cursor = out ∧
    (cell data thr cs ncols n vy vz col s).northwest = 0 ∧
    (cell data thr cs ncols n vy vz col s).southwest = 0 := by
  obtain ⟨h1, h2, h3⟩ := h
  subst h1
  simp [cell, cell_update, sample_eq_zero data thr hle, h2, h3, Sweep.cursor, pointspec, trianglespec,
    point_table, triangle_table, tri_stores, chunk3]

theorem row_outside (data : List ℚ) (thr : ℚ) (w cs ncols maxrow : Int) (n : ℚ)
    (vz : Nat → ℚ) (hle : ∀ v ∈ data, v ≤ thr) (hn : 0 ≤ ncols) (r : Int) (out : Cursor) :
    row_sweep data thr w cs ncols maxrow n vz r out = out := by
  have key := cols_inv data thr cs ncols n (exact_vertsy n r) vz
    (fun _ s => s.cursor = out ∧ s.northwest = 0 ∧ s.southwest = 0)
    (fun col s _ _ hs => cell_outside data thr cs ncols n _ vz hle out col s hs)
    ncols.toNat 0 (row_init data thr w cs maxrow n r out) (le_refl _) (by omega)
    (by simp [row_init, Sweep.cursor, sample_eq_zero data thr hle])
  exact key.1

theorem sweep_outside (stack : Nat → ℚ) (data : List ℚ) (w h cs : Int) (thr : ℚ)
    (v : Valid data w h cs) (hle : ∀ v ∈ data, v ≤ thr) :
    sweep stack data w h cs thr = ⟨[], 0, [], 0⟩ := by
  have G := v.grid
  exact rows_inv data thr w cs (w.tdiv cs) ((h - 1) * w) (exact_ncell w h cs)
    (Function.update stack 0 0) (fun _ out => out = ⟨[], 0, [], 0⟩) (h.tdiv cs)
    (fun r out _ _ hk => by
      rw [row_outside data thr w cs _ _ _ _ hle (le_of_lt G.ncols_pos) r out]; exact hk)
    (h.tdiv cs).toNat 0 ⟨[], 0, [], 0⟩ (le_refl _) (by have := G.nrows_pos; omega) rfl

theorem valid_three : Valid [0, 1 / 2, 1 / 2, 0, 1 / 4, 1 / 2] 3 2 1 :=
  ⟨by decide, by decide, by decide, ⟨3, rfl⟩, ⟨2, rfl⟩, rfl⟩
/-! ## A single cell that is everywhere above the threshold -/

theorem sample_eq_one (data : List ℚ) (thr : ℚ) (hgt : ∀ v ∈ data, thr < v) (i : Int)
    (h0 : 0 ≤ i) (h1 : i < data.length) : sample data thr i = 1 := by
  have hlt : i.toNat < data.length := by omega
  unfold sample
  rw [List.getElem?_eq_getElem hlt]
  simp only []
  rw [if_pos (hgt _ (List.getElem_mem _))]

theorem exact_ncell_self (cs : Int) (hc : 1 ≤ cs) : exact_ncell cs cs cs = 1 := by
  have : (cs : ℚ) ≠ 0 := by
    have : cs ≠ 0 := by omega
    exact_mod_cast this
  simp [exact_ncell, MAX, this]

theorem sweep_one_cell (stack : Nat → ℚ) (data : List ℚ) (cs : Int) (thr : ℚ)
    (v : Valid data cs cs cs) (hgt : ∀ x ∈ data, thr < x) :
    sweep stack data cs cs cs thr
      = ⟨[0, 1, 0, 1, 1, stack 2, 1, 0, stack 4, 0, 0, stack 6], 4, [2, 1, 0, 0, 3, 2], 2⟩ := by
  have hc := v.cell_pos
  have hlen := v.length_eq
  have e1 : cs.tdiv cs = 1 := Int.tdiv_self (by omega)
  have hsq : 1 ≤ cs * cs := by nlinarith
  have hmin : MIN (0 * cs * cs + cs * cs) ((cs - 1) * cs) = cs * cs - cs := by
    unfold MIN
    have : (cs - 1) * cs = cs * cs - cs := by ring
    rw [this, if_pos (by omega)]
  have hcc : cs ≤ cs * cs := by nlinarith
  have s1 : sample data thr (0 * cs * cs) = 1 :=
    sample_eq_one data thr hgt _ (by simp) (by rw [hlen]; simp; omega)
  have s2 : sample data thr (cs * cs - cs) = 1 :=
    sample_eq_one data thr hgt _ (by omega) (by rw [hlen]; omega)
  have s3 : sample data thr (east_index cs 1 0 (0 * cs * cs)) = 1 :=
    sample_eq_one data thr hgt _ (by simp [east_index]; omega)
      (by rw [hlen]; simp [east_index]; omega)
  have s4 : sample data thr (east_index cs 1 0 (cs * cs - cs)) = 1 :=
    sample_eq_one data thr hgt _ (by simp [east_index]; omega)
      (by rw [hlen]; simp [east_index])
  unfold sweep
  rw [e1, exact_ncell_self cs hc]
  have hcode : (1 ||| 1 <<< 1 ||| 1 <<< 2 ||| 1 <<< 3 : Nat) = 15 := by decide
  have hp : pointspec 15 = [0, 2, 4, 6] := rfl
  have ht : trianglespec 15 = [0, 2, 4, 4, 6, 0] := rfl
  simp only [Int.toNat_one, rows, row_sweep, cols, row_init, cell, hmin, s1, s2, s3, s4,
    Sweep.cursor, cell_update, hcode, hp, ht]
  norm_num [point_step, tri_stores, chunk3, tri_words, exact_vertsx, exact_vertsy,
    Function.update]

theorem valid_block : Valid [1, 1, 1, 1] 2 2 2 :=
  ⟨by decide, by decide, by decide, ⟨1, rfl⟩, ⟨1, rfl⟩, rfl⟩
/-! ## The stored `z` values do not influence anything else -/

theorem chunk3_append {α : Type} : ∀ (k : Nat) (l : List α) (a b c : α), l.length = 3 * k →
    chunk3 (l ++ [a, b, c]) = chunk3 l ++ [(a, b, c)] := by
  intro k
  induction k with
  | zero =>
    intro l a b c h
    have : l = [] := List.length_eq_zero.mp (by omega)
    subst this
    rfl
  | succ k ih =>
    intro l a b c h
    match l, h with
    | x :: y :: z :: rest, h =>
      have hr : rest.length = 3 * k := by simp at h; omega
      simp [chunk3, ih rest a b c hr]

theorem xy_list_append (k : Nat) (l : List ℚ) (x y z : ℚ) (h : l.length = 3 * k) :
    xy_list (l ++ [x, y, z]) = xy_list l ++ [(x, y)] := by
  simp [xy_list, chunk3_append k l x y z h]

theorem xy_list_length (k : Nat) (l : List ℚ) (h : l.length = 3 * k) :
    (xy_list l).length = k := by
  simp [xy_list, chunk3_length k l h]

theorem point_step_agree (vx vy vz vz' : Nat → ℚ) (pi : Nat → Nat) (pm : Nat)
    (a b : PointAcc) (id : Nat) (h : a.Agree b) :
    (point_step vx vy vz pi pm a id).Agree (point_step vx vy vz' pi pm b id) := by
  obtain ⟨h1, h2, h3, h4, h5, h6⟩ := h
  unfold point_step
  simp only []
  split_ifs
  · exact ⟨by simp [h1], by simp [h2], h3, h4, h5, h6⟩
  · exact ⟨by simp [h1], by simp [h2], h3, h4, h5, h6⟩
  · exact ⟨by simp [h1], by simp [h2], h3, h4, h5, h6⟩
  · refine ⟨by simp [h1, h3], by simp [h2], by simp [h3], by simp; omega, by simp; omega, ?_⟩
    simp only []
    rw [xy_list_append _ _ _ _ _ h4, xy_list_append _ _ _ _ _ h5, h6]

theorem fold_agree (vx vy vz vz' : Nat → ℚ) (pi : Nat → Nat) (pm : Nat) :
    ∀ (ids : List Nat) (a b : PointAcc), a.Agree b →
      (ids.foldl (point_step vx vy vz pi pm) a).Agree
        (ids.foldl (point_step vx vy vz' pi pm) b) := by
  intro ids
  induction ids with
  | nil => intro a b h; exact h
  | cons id rest ih =>
    intro a b h
    exact ih _ _ (point_step_agree vx vy vz vz' pi pm a b id h)

theorem cell_update_agree (n : ℚ) (vy vz vz' : Nat → ℚ) (ni si : Int) (ne se : Nat)
    (a b : Sweep) (h : a.Agree b) :
    (cell_update n vy vz ni si ne se a).Agree (cell_update n vy vz' ni si ne se b) := by
  obtain ⟨h1, h2, h3, h4, h5, h6, h7, h8, h9, h10, h11, h12, h13⟩ := h
  have key := fold_agree b.vertsx vy vz vz' b.previnds b.prevmask
    (pointspec (b.southwest ||| se <<< 1 ||| b.northwest <<< 2 ||| ne <<< 3))
    ⟨fun _ => 0, 0, a.pts, a.npts⟩ ⟨fun _ => 0, 0, b.pts, b.npts⟩
    ⟨rfl, rfl, h8, h11, h12, h13⟩
  obtain ⟨k1, k2, k3, k4, k5, k6⟩ := key
  unfold cell_update Sweep.Agree
  simp only [h1, h4, h5, h6, h7, h9, h10]
  exact ⟨trivial, trivial, trivial, trivial, trivial, k1, k2, k3, by rw [k1], trivial,
    k4, k5, k6⟩

theorem cols_agree (data : List ℚ) (thr : ℚ) (cs ncols : Int) (n : ℚ) (vy vz vz' : Nat → ℚ) :
    ∀ (todo : Nat) (col : Int) (a b : Sweep), a.Agree b →
      (cols data thr cs ncols n vy vz todo col a).Agree
        (cols data thr cs ncols n vy vz' todo col b) := by
  intro todo
  induction todo with
  | zero => intro col a b h; exact h
  | succ k ih =>
    intro col a b h
    unfold cols
    apply ih
    unfold cell
    rw [h.2.1, h.2.2.1]
    exact cell_update_agree n vy vz vz' _ _ _ _ a b h

theorem row_agree (data : List ℚ) (thr : ℚ) (w cs ncols maxrow : Int) (n : ℚ)
    (vz vz' : Nat → ℚ) (r : Int) (a b : Cursor) (h : a.Agree b) :
    (row_sweep data thr w cs ncols maxrow n vz r a).Agree
      (row_sweep data thr w cs ncols maxrow n vz' r b) := by
  obtain ⟨h1, h2, h3, h4, h5, h6⟩ := h
  have key := cols_agree data thr cs ncols n (exact_vertsy n r) vz vz' ncols.toNat 0
    (row_init data thr w cs maxrow n r a) (row_init data thr w cs maxrow n r b)
    ⟨rfl, rfl, rfl, rfl, rfl, rfl, rfl, h1, h2, h3, h4, h5, h6⟩
  obtain ⟨_, _, _, _, _, _, _, k8, k9, k10, k11, k12, k13⟩ := key
  exact ⟨k8, k9, k10, k11, k12, k13⟩

theorem rows_agree (data : List ℚ) (thr : ℚ) (w cs ncols maxrow : Int) (n : ℚ)
    (vz vz' : Nat → ℚ) :
    ∀ (todo : Nat) (r : Int) (a b : Cursor), a.Agree b →
      (rows data thr w cs ncols maxrow n vz todo r a).Agree
        (rows data thr w cs ncols maxrow n vz' todo r b) := by
  intro todo
  induction todo with
  | zero => intro r a b h; exact h
  | succ k ih =>
    intro r a b h
    unfold rows
    exact ih _ _ _ (row_agree data thr w cs ncols maxrow n vz vz' r a b h)

/-- Counters, triangle indices and `(x, y)` positions of a sweep are the same whatever
the initial contents of `vertsz`. -/
theorem sweep_agree (stack stack' : Nat → ℚ) (data : List ℚ) (w h cs : Int) (thr : ℚ) :
    (sweep stack data w h cs thr).Agree (sweep stack' data w h cs thr) :=
  rows_agree data thr w cs _ _ _ _ _ _ 0 _ _ ⟨rfl, rfl, rfl, rfl, rfl, rfl⟩
/-! ## The raster `[1, 1, 1, 0]` of width 2 and height 2 with cells of size 1 -/

theorem sweep_two_zero :
    (sweep (fun _ => 0) [1, 1, 1, 0] 2 2 1 (1 / 2)).npts = 11 ∧
    (sweep (fun _ => 0) [1, 1, 1, 0] 2 2 1 (1 / 2)).ntris = 7 ∧
    (sweep (fun _ => 0) [1, 1, 1, 0] 2 2 1 (1 / 2)).tris
      = [2, 1, 0, 3, 2, 0, 4, 3, 0, 6, 5, 2, 2, 3, 6, 9, 8, 7, 7, 10, 9] ∧
    xy_list (sweep (fun _ => 0) [1, 1, 1, 0] 2 2 1 (1 / 2)).pts
      = [(0, 1 / 2), (1 / 4, 1 / 2), (1 / 2, 1 / 4), (1 / 2, 0), (0, 0), (1, 1 / 4), (1, 0),
         (0, 1), (1 / 4, 1), (1 / 4, 1 / 2), (0, 1 / 2)] := by
  decide!

theorem sweep_two (stack : Nat → ℚ) :
    (sweep stack [1, 1, 1, 0] 2 2 1 (1 / 2)).npts = 11 ∧
    (sweep stack [1, 1, 1, 0] 2 2 1 (1 / 2)).ntris = 7 ∧
    (sweep stack [1, 1, 1, 0] 2 2 1 (1 / 2)).tris
      = [2, 1, 0, 3, 2, 0, 4, 3, 0, 6, 5, 2, 2, 3, 6, 9, 8, 7, 7, 10, 9] ∧
    xy_list (sweep stack [1, 1, 1, 0] 2 2 1 (1 / 2)).pts
      = [(0, 1 / 2), (1 / 4, 1 / 2), (1 / 2, 1 / 4), (1 / 2, 0), (0, 0), (1, 1 / 4), (1, 0),
         (0, 1), (1 / 4, 1), (1 / 4, 1 / 2), (0, 1 / 2)] := by
  obtain ⟨h1, h2, h3, _, _, h6⟩ := sweep_agree stack (fun _ => 0) [1, 1, 1, 0] 2 2 1 (1 / 2)
  rw [h1, h2, h3, h6]
  exact sweep_two_zero

theorem two_winding :
    ∀ t ∈ chunk3 [2, 1, 0, 3, 2, 0, 4, 3, 0, 6, 5, 2, 2, 3, 6, 9, 8, 7, 7, 10, 9],
      0 < signed_area [(0, 1 / 2), (1 / 4, 1 / 2), (1 / 2, 1 / 4), (1 / 2, 0), (0, 0),
        (1, 1 / 4), (1, 0), (0, 1), (1 / 4, 1), (1 / 4, 1 / 2), (0, 1 / 2)] t := by
  decide!
/-! ## What the point loop does to one id -/

theorem shift_eq_one (id : Nat) : 1 <<< id = 1 ↔ id = 0 := by
  rw [Nat.one_shiftLeft]
  constructor
  · intro h
    by_contra hne
    have : 2 ^ 1 ≤ 2 ^ id := Nat.pow_le_pow_right (by omega) (by omega)
    omega
  · rintro rfl; rfl

theorem shift_eq_pow (id k : Nat) : 1 <<< id = 2 ^ k ↔ id = k := by
  rw [Nat.one_shiftLeft]
  constructor
  · intro h; exact Nat.pow_right_injective (le_refl 2) h
  · rintro rfl; rfl

theorem step_cond (pm id : Nat) :
    reused pm id ↔ ((1 <<< id = 1 ∧ pm &&& 4 ≠ 0) ∨ (1 <<< id = 128 ∧ pm &&& 8 ≠ 0) ∨
      (1 <<< id = 64 ∧ pm &&& 16 ≠ 0)) := by
  have h7 : (1 <<< id = 128) ↔ id = 7 := shift_eq_pow id 7
  have h6 : (1 <<< id = 64) ↔ id = 6 := shift_eq_pow id 6
  rw [shift_eq_one, h7, h6]
  rfl

theorem point_step_reused (vx vy vz : Nat → ℚ) (pi : Nat → Nat) (pm : Nat)
    (acc : PointAcc) (id : Nat) (h : reused pm id) :
    point_step vx vy vz pi pm acc id
      = { acc with mask := acc.mask ||| 1 <<< id,
                   currinds := Function.update acc.currinds id (pi (west_id id)) } := by
  have h7 : (1 <<< id = 128) ↔ id = 7 := shift_eq_pow id 7
  have h6 : (1 <<< id = 64) ↔ id = 6 := shift_eq_pow id 6
  unfold point_step
  simp only [shift_eq_one, h7, h6]
  rcases h with ⟨rfl, h⟩ | ⟨rfl, h⟩ | ⟨rfl, h⟩
  · simp [h, west_id]
  · simp [h, west_id]
  · simp [h, west_id]

theorem point_step_fresh (vx vy vz : Nat → ℚ) (pi : Nat → Nat) (pm : Nat)
    (acc : PointAcc) (id : Nat) (h : ¬ reused pm id) :
    point_step vx vy vz pi pm acc id
      = { mask := acc.mask ||| 1 <<< id
          pts := acc.pts ++ [vx id, vy id, vz id]
          currinds := Function.update acc.currinds id acc.npts
          npts := acc.npts + 1 } := by
  rw [step_cond] at h
  push_neg at h
  obtain ⟨h1, h2, h3⟩ := h
  unfold point_step
  simp only []
  rw [if_neg (by intro ⟨a, b⟩; exact b (h1 a)), if_neg (by intro ⟨a, b⟩; exact b (h2 a)),
    if_neg (by intro ⟨a, b⟩; exact b (h3 a))]

/-- Closed form of the output of the point loop: one point is appended for each fresh id,
in order. -/
theorem fold_closed (vx vy vz : Nat → ℚ) (pi : Nat → Nat) (pm : Nat) :
    ∀ (ids : List Nat) (acc : PointAcc), acc.pts.length = 3 * acc.npts →
      (ids.foldl (point_step vx vy vz pi pm) acc).npts
        = acc.npts + (fresh_ids pm ids).length ∧
      xy_list (ids.foldl (point_step vx vy vz pi pm) acc).pts
        = xy_list acc.pts ++ (fresh_ids pm ids).map (fun id => (vx id, vy id)) ∧
      (ids.foldl (point_step vx vy vz pi pm) acc).pts.length
        = 3 * (ids.foldl (point_step vx vy vz pi pm) acc).npts := by
  intro ids
  induction ids with
  | nil => intro acc h; simp [fresh_ids, h]
  | cons id rest ih =>
    intro acc h
    simp only [List.foldl_cons]
    by_cases hr : reused pm id
    · have e := point_step_reused vx vy vz pi pm acc id hr
      obtain ⟨h1, h2, h3⟩ := ih (point_step vx vy vz pi pm acc id) (by rw [e]; exact h)
      refine ⟨?_, ?_, h3⟩
      · rw [h1, e]; simp [fresh_ids, hr]
      · rw [h2, e]; simp [fresh_ids, hr]
    · have e := point_step_fresh vx vy vz pi pm acc id hr
      obtain ⟨h1, h2, h3⟩ := ih (point_step vx vy vz pi pm acc id)
        (by rw [e]; simp; omega)
      refine ⟨?_, ?_, h3⟩
      · rw [h1, e]; simp [fresh_ids, hr]; omega
      · rw [h2, e]; simp [fresh_ids, hr, xy_list_append _ _ _ _ _ h]
/-! ## Where the recorded indices point -/

theorem xy_getD_append (l : List ℚ) (k : Nat) (x y z : ℚ) (h : l.length = 3 * k) (i : Nat)
    (hi : i < k) :
    (xy_list (l ++ [x, y, z])).getD i (0, 0) = (xy_list l).getD i (0, 0) := by
  rw [xy_list_append k l x y z h]
  exact List.getD_append _ _ _ _ (by rw [xy_list_length k l h]; exact hi)

theorem xy_getD_last (l : List ℚ) (k : Nat) (x y z : ℚ) (h : l.length = 3 * k) :
    (xy_list (l ++ [x, y, z])).getD k (0, 0) = (x, y) := by
  rw [xy_list_append k l x y z h, List.getD_append_right _ _ _ _
    (by rw [xy_list_length k l h]), xy_list_length k l h]
  simp

/-- After the point loop, the index recorded for an id of the list is the previous
cell's index when the id is reused, and otherwise designates a point appended by this
loop that lies at the position of the id. -/
theorem fold_resolve (vx vy vz : Nat → ℚ) (pi : Nat → Nat) (pm : Nat) (ids : List Nat)
    (acc : PointAcc) (h : acc.pts.length = 3 * acc.npts) :
    ∀ id ∈ ids,
      (reused pm id →
        (ids.foldl (point_step vx vy vz pi pm) acc).currinds id = pi (west_id id)) ∧
      (¬ reused pm id →
        acc.npts ≤ (ids.foldl (point_step vx vy vz pi pm) acc).currinds id ∧
        (ids.foldl (point_step vx vy vz pi pm) acc).currinds id
          < (ids.foldl (point_step vx vy vz pi pm) acc).npts ∧
        (xy_list (ids.foldl (point_step vx vy vz pi pm) acc).pts).getD
          ((ids.foldl (point_step vx vy vz pi pm) acc).currinds id) (0, 0)
          = (vx id, vy id)) := by
  have key := fold_spec (point_step vx vy vz pi pm)
    (fun a => a.pts.length = 3 * a.npts ∧ acc.npts ≤ a.npts)
    (fun a id => (reused pm id → a.currinds id = pi (west_id id)) ∧
      (¬ reused pm id → acc.npts ≤ a.currinds id ∧ a.currinds id < a.npts ∧
        (xy_list a.pts).getD (a.currinds id) (0, 0) = (vx id, vy id))) ?_ ?_ ?_ ids acc
    ⟨h, le_refl _⟩
  · exact key.2.2
  · intro a id ⟨h1, h2⟩
    have c := point_step_counts vx vy vz pi pm a id
    exact ⟨by omega, by omega⟩
  · intro a id ⟨h1, h2⟩
    constructor
    · intro hr
      rw [point_step_reused vx vy vz pi pm a id hr]
      simp
    · intro hr
      rw [point_step_fresh vx vy vz pi pm a id hr]
      simp only [Function.update_same]
      exact ⟨h2, by omega, xy_getD_last _ _ _ _ _ h1⟩
  · intro a id id' ⟨h1, h2⟩ ⟨q1, q2⟩
    by_cases e : id' = id
    · subst e
      constructor
      · intro hr
        rw [point_step_reused vx vy vz pi pm a id' hr]
        simp
      · intro hr
        rw [point_step_fresh vx vy vz pi pm a id' hr]
        simp only [Function.update_same]
        exact ⟨h2, by omega, xy_getD_last _ _ _ _ _ h1⟩
    · constructor
      · intro hr
        rw [point_step_other vx vy vz pi pm a id id' e]
        exact q1 hr
      · intro hr
        obtain ⟨q3, q4, q5⟩ := q2 hr
        rw [point_step_other vx vy vz pi pm a id id' e]
        by_cases hid : reused pm id
        · rw [point_step_reused vx vy vz pi pm a id hid]
          exact ⟨q3, q4, q5⟩
        · rw [point_step_fresh vx vy vz pi pm a id hid]
          simp only []
          exact ⟨q3, by omega, by rw [xy_getD_append _ _ _ _ _ h1 _ q4]; exact q5⟩
/-! ## Winding -/

theorem mask_of_fold (vx vy vz : Nat → ℚ) (pi : Nat → Nat) (pm : Nat) (ids : List Nat)
    (ci : Nat → Nat) (pts : List ℚ) (npts : Nat) :
    (ids.foldl (point_step vx vy vz pi pm) ⟨ci, 0, pts, npts⟩).mask = mask_of ids :=
  fold_mask vx vy vz pi pm ids ⟨ci, 0, pts, npts⟩

/-- The state of the point loop after a cell whose entry state is `Placed`: earlier
points are untouched and every id of the code resolves to a stored point at its place. -/
theorem cell_points (n : ℚ) (vy vz : Nat → ℚ) (col : Int) (s : Sweep)
    (hp : Placed n vy col s) (code : Nat) :
    ((pointspec code).foldl (point_step s.vertsx vy vz s.previnds s.prevmask)
        ⟨fun _ => 0, 0, s.pts, s.npts⟩).pts.length
      = 3 * ((pointspec code).foldl (point_step s.vertsx vy vz s.previnds s.prevmask)
        ⟨fun _ => 0, 0, s.pts, s.npts⟩).npts ∧
    s.npts ≤ ((pointspec code).foldl (point_step s.vertsx vy vz s.previnds s.prevmask)
        ⟨fun _ => 0, 0, s.pts, s.npts⟩).npts ∧
    (∀ i, i < s.npts →
      (xy_list ((pointspec code).foldl (point_step s.vertsx vy vz s.previnds s.prevmask)
        ⟨fun _ => 0, 0, s.pts, s.npts⟩).pts).getD i (0, 0) = (xy_list s.pts).getD i (0, 0)) ∧
    ∀ id ∈ pointspec code,
      ((pointspec code).foldl (point_step s.vertsx vy vz s.previnds s.prevmask)
        ⟨fun _ => 0, 0, s.pts, s.npts⟩).currinds id
        < ((pointspec code).foldl (point_step s.vertsx vy vz s.previnds s.prevmask)
          ⟨fun _ => 0, 0, s.pts, s.npts⟩).npts ∧
      (xy_list ((pointspec code).foldl (point_step s.vertsx vy vz s.previnds s.prevmask)
        ⟨fun _ => 0, 0, s.pts, s.npts⟩).pts).getD
        (((pointspec code).foldl (point_step s.vertsx vy vz s.previnds s.prevmask)
          ⟨fun _ => 0, 0, s.pts, s.npts⟩).currinds id) (0, 0) = (s.vertsx id, vy id) := by
  obtain ⟨_, hlen, _, hprev⟩ := hp
  obtain ⟨c1, c2, c3⟩ := fold_closed s.vertsx vy vz s.previnds s.prevmask (pointspec code)
    ⟨fun _ => 0, 0, s.pts, s.npts⟩ hlen
  have hres := fold_resolve s.vertsx vy vz s.previnds s.prevmask (pointspec code)
    ⟨fun _ => 0, 0, s.pts, s.npts⟩ hlen
  generalize (pointspec code).foldl (point_step s.vertsx vy vz s.previnds s.prevmask)
    ⟨fun _ => 0, 0, s.pts, s.npts⟩ = acc at *
  simp only [] at c1 c2 hres
  have hold : ∀ i, i < s.npts → (xy_list acc.pts).getD i (0, 0) = (xy_list s.pts).getD i (0, 0) := by
    intro i hi
    rw [c2]
    exact List.getD_append _ _ _ _ (by rw [xy_list_length s.npts s.pts hlen]; exact hi)
  refine ⟨c3, by omega, hold, ?_⟩
  intro id hid
  obtain ⟨r1, r2⟩ := hres id hid
  by_cases hr : reused s.prevmask id
  · obtain ⟨p1, p2⟩ := hprev id hr
    rw [r1 hr]
    exact ⟨by omega, by rw [hold _ p1]; exact p2⟩
  · obtain ⟨_, q2, q3⟩ := r2 hr
    exact ⟨q2, q3⟩

theorem cell_update_placed (n : ℚ) (r : Int) (vz : Nat → ℚ) (ni si : Int) (ne se : Nat)
    (col : Int) (s : Sweep) (hp : Placed n (exact_vertsy n r) col s) :
    Placed n (exact_vertsy n r) (col + 1)
      (cell_update n (exact_vertsy n r) vz ni si ne se s) := by
  have hx := hp.1
  have ht := hp.2.2.1
  unfold cell_update
  simp only []
  generalize (s.southwest ||| se <<< 1 ||| s.northwest <<< 2 ||| ne <<< 3 : Nat) = code
  obtain ⟨k1, k2, k3, k4⟩ := cell_points n (exact_vertsy n r) vz col s hp code
  have hm := mask_of_fold s.vertsx (exact_vertsy n r) vz s.previnds s.prevmask (pointspec code)
    (fun _ => 0) s.pts s.npts
  have hbits := mask_bits_declared code
  refine ⟨?_, k1, ?_, ?_⟩
  · intro i; dsimp only; rw [hx i]; push_cast; ring
  · dsimp only; rw [List.length_append, tri_stores_length, ht]; ring
  · intro e he
    dsimp only at he ⊢
    rw [hm] at he
    rcases he with ⟨rfl, hb⟩ | ⟨rfl, hb⟩ | ⟨rfl, hb⟩
    · obtain ⟨q1, q2⟩ := k4 2 (hbits.1 hb)
      refine ⟨q1, ?_⟩
      rw [show west_id 0 = 2 from rfl, q2, hx 2, hx 0]
      simp [exact_vertsx, exact_vertsy]
      ring
    · obtain ⟨q1, q2⟩ := k4 3 (hbits.2.1 hb)
      refine ⟨q1, ?_⟩
      rw [show west_id 7 = 3 from rfl, q2, hx 3, hx 7]
      simp [exact_vertsx, exact_vertsy]
      ring
    · obtain ⟨q1, q2⟩ := k4 4 (hbits.2.2 hb)
      refine ⟨q1, ?_⟩
      rw [show west_id 6 = 4 from rfl, q2, hx 4, hx 6]
      simp [exact_vertsx, exact_vertsy]
      ring

theorem row_init_placed (data : List ℚ) (thr : ℚ) (w cs maxrow : Int) (n : ℚ) (vy : Nat → ℚ)
    (r : Int) (out : Cursor) (h1 : out.pts.length = 3 * out.npts)
    (h2 : out.tris.length = 3 * out.ntris) :
    Placed n vy 0 (row_init data thr w cs maxrow n r out) := by
  refine ⟨by intro i; simp [row_init], h1, h2, ?_⟩
  intro e he
  simp [row_init, reused] at he

/-- The mesh of a result built from the cursors `out`. -/
theorem mesh_of_ok {out : Cursor} {g g' : Globals} {m : par_msquares_mesh}
    (h : (Except.ok (⟨1, [out.mesh]⟩, g) : Except Fault (par_msquares_meshlist × Globals))
      = .ok (⟨1, [m]⟩, g')) : m = out.mesh := by
  injection h with h
  injection h with h _
  injection h with _ h
  injection h with h _
  exact h.symm

section tracked
variable {data : List ℚ} {w h cs ncols nrows : Int}

theorem row_init_tracked (thr n : ℚ) (r : Int) (out : Cursor) :
    Tracked w h cs ncols r 0 (row_init data thr w cs ((h - 1) * w) n r out) :=
  ⟨fun _ => by simp [row_init], sample_le_one _ _ _, sample_le_one _ _ _⟩

theorem cell_tracked (thr n : ℚ) (vy vz : Nat → ℚ) (r col : Int) (s : Sweep)
    (hs : Tracked w h cs ncols r col s) :
    Tracked w h cs ncols r (col + 1) (cell data thr cs ncols n vy vz col s) := by
  refine ⟨fun hlt => ?_, sample_le_one _ _ _, sample_le_one _ _ _⟩
  obtain ⟨hn, hso⟩ := hs.1 (by omega)
  have hl : col ≠ ncols - 1 := by omega
  simp only [cell, cell_update, east_index, hl, if_false, hn, hso]
  constructor <;> ring

end tracked

/-! ## No position is stored twice within a row -/

theorem pointspec_nodup (code : Nat) : (pointspec code).Nodup := by
  by_cases h : code < 16
  · revert code; decide
  · simp [pointspec_of_ge (not_lt.mp h)]

theorem pointspec_lt (code : Nat) : ∀ id ∈ pointspec code, id < 8 := by
  by_cases h : code < 16
  · revert code; decide
  · simp [pointspec_of_ge (not_lt.mp h)]

section corners
variable {data : List ℚ} {w h cs ncols nrows : Int}

theorem index_south (G : Grid data w h cs ncols nrows) (r : Int) :
    MIN (r * cs * w + cs * w) ((h - 1) * w) = min ((r + 1) * cs) (h - 1) * w := by
  have hw := G.w_pos
  have e : r * cs * w + cs * w = (r + 1) * cs * w := by ring
  rw [e]
  unfold MIN
  by_cases hle : (r + 1) * cs ≤ h - 1
  · have : (r + 1) * cs * w ≤ (h - 1) * w := mul_le_mul_of_nonneg_right hle (le_of_lt hw)
    rw [if_neg (by omega), min_eq_left hle]
  · have hlt : h - 1 < (r + 1) * cs := by omega
    have : (h - 1) * w < (r + 1) * cs * w := mul_lt_mul_of_pos_right hlt hw
    rw [if_pos (by omega), min_eq_right (le_of_lt hlt)]

theorem index_east (G : Grid data w h cs ncols nrows) (c : Int) (h0 : 0 ≤ c) (h1 : c < ncols)
    (x : Int) :
    east_index cs ncols c (x + c * cs) = x + min ((c + 1) * cs) (w - 1) := by
  obtain ⟨_, e1, e2⟩ := G.east c h0 h1
  have e : (c + 1) * cs = c * cs + cs := by ring
  unfold east_index
  by_cases hl : c = ncols - 1
  · have := e1 hl
    rw [if_pos hl, e, min_eq_right (by omega)]
    omega
  · have := e2 hl
    rw [if_neg hl, e, min_eq_left (by omega)]
    omega

theorem bits_sum (sw se nw ne : Nat) (h1 : sw ≤ 1) (h2 : se ≤ 1) (h3 : nw ≤ 1) (h4 : ne ≤ 1) :
    sw ||| se <<< 1 ||| nw <<< 2 ||| ne <<< 3 = sw + 2 * se + 4 * nw + 8 * ne := by
  interval_cases sw <;> interval_cases se <;> interval_cases nw <;> interval_cases ne <;> rfl

theorem row_init_cornered (thr n : ℚ) (r : Int) (out : Cursor) :
    Cornered data thr w h cs ncols r 0 (row_init data thr w cs ((h - 1) * w) n r out) :=
  fun _ => by simp [row_init]

theorem cell_cornered (thr n : ℚ) (vy vz : Nat → ℚ) (r col : Int) (s : Sweep)
    (hs : Tracked w h cs ncols r col s) :
    Cornered data thr w h cs ncols r (col + 1) (cell data thr cs ncols n vy vz col s) := by
  intro hlt
  obtain ⟨hn, hso⟩ := hs.1 (by omega)
  have hl : col ≠ ncols - 1 := by omega
  simp only [cell, cell_update, east_index, hl, if_false, hn, hso]
  constructor <;> congr 1 <;> ring

/-- The state before cell `(r, c)`: indices and west samples in closed form. -/
theorem cols_cornered (thr n : ℚ) (vy vz : Nat → ℚ) (r : Int) (out : Cursor) (c : Nat)
    (hc : (c : Int) ≤ ncols) :
    Tracked w h cs ncols r c
      (cols data thr cs ncols n vy vz c 0 (row_init data thr w cs ((h - 1) * w) n r out)) ∧
    Cornered data thr w h cs ncols r c
      (cols data thr cs ncols n vy vz c 0 (row_init data thr w cs ((h - 1) * w) n r out)) := by
  have key := cols_inv data thr cs ncols n vy vz
    (fun col s => Tracked w h cs ncols r col s ∧ Cornered data thr w h cs ncols r col s)
    (fun col s _ _ hs => ⟨cell_tracked thr n vy vz r col s hs.1,
      cell_cornered thr n vy vz r col s hs.1⟩)
    c 0 _ (le_refl _) (by omega)
    ⟨row_init_tracked thr n r out, row_init_cornered thr n r out⟩
  simpa using key

/-- The code that the cell body computes is the code of the specification. -/
theorem code_eq (G : Grid data w h cs ncols nrows) (thr : ℚ) (r : Int)
    (c : Int) (hc0 : 0 ≤ c) (hc1 : c < ncols) (s : Sweep)
    (ht : Tracked w h cs ncols r c s) (hk : Cornered data thr w h cs ncols r c s) :
    s.southwest ||| sample data thr (east_index cs ncols c s.southi) <<< 1 |||
        s.northwest <<< 2 ||| sample data thr (east_index cs ncols c s.northi) <<< 3
      = spec_code data thr w h cs r c := by
  obtain ⟨hn, hso⟩ := ht.1 hc1
  obtain ⟨knw, ksw⟩ := hk hc1
  rw [bits_sum _ _ _ _ ht.2.2 (sample_le_one _ _ _) ht.2.1 (sample_le_one _ _ _)]
  rw [knw, ksw, hn, hso, index_east G c hc0 hc1, index_east G c hc0 hc1, index_south G r]
  rfl

end corners

section reads
variable {data : List ℚ} {w h cs ncols nrows : Int}

theorem load_ok (data : List ℚ) (i : Int) (h0 : 0 ≤ i) (h1 : i < data.length) :
    ∃ v, load data i = .ok v := by
  unfold load
  rw [if_neg (by omega)]
  have hlt : i.toNat < data.length := by omega
  rw [List.getElem?_eq_getElem hlt]
  exact ⟨_, rfl⟩

/-- The four raster indices of cell `(r, c)` lie in the raster. -/
theorem corner_bounds (G : Grid data w h cs ncols nrows) (r : Int) (hr0 : 0 ≤ r)
    (hr1 : r < nrows) (c : Int) (hc0 : 0 ≤ c) (hc1 : c < ncols) :
    (0 ≤ r * cs * w + c * cs ∧ r * cs * w + c * cs < w * h) ∧
    (0 ≤ min ((r + 1) * cs) (h - 1) * w + c * cs ∧
      min ((r + 1) * cs) (h - 1) * w + c * cs < w * h) ∧
    (0 ≤ r * cs * w + min ((c + 1) * cs) (w - 1) ∧
      r * cs * w + min ((c + 1) * cs) (w - 1) < w * h) ∧
    (0 ≤ min ((r + 1) * cs) (h - 1) * w + min ((c + 1) * cs) (w - 1) ∧
      min ((r + 1) * cs) (h - 1) * w + min ((c + 1) * cs) (w - 1) < w * h) := by
  obtain ⟨n0, n1, n2⟩ := G.north r hr0 hr1
  obtain ⟨s0, s1⟩ := G.south r hr0 hr1
  obtain ⟨e0, e1, e2⟩ := G.east c hc0 hc1
  rw [index_south G r] at s0 s1
  have hcs := G.cs_pos
  have e : (c + 1) * cs = c * cs + cs := by ring
  rw [e]
  by_cases hl : c = ncols - 1
  · have := e1 hl
    have hm : min (c * cs + cs) (w - 1) = w - 1 := min_eq_right (by omega)
    rw [hm]
    omega
  · have := e2 hl
    have hm : min (c * cs + cs) (w - 1) = c * cs + cs := min_eq_left (by omega)
    rw [hm]
    omega

end reads

/-! ## The loops unrolled from the right -/

section unroll
variable (data : List ℚ) (thr : ℚ) (w cs ncols maxrow : Int) (n : ℚ) (vy vz : Nat → ℚ)

theorem cols_succ : ∀ (k : Nat) (col : Int) (s : Sweep),
    cols data thr cs ncols n vy vz (k + 1) col s
      = cell data thr cs ncols n vy vz (col + k) (cols data thr cs ncols n vy vz k col s) := by
  intro k
  induction k with
  | zero => intro col s; simp [cols]
  | succ k ih =>
    intro col s
    rw [cols, ih (col + 1)]
    rw [show col + 1 + (k : Int) = col + ((k + 1 : Nat) : Int) by push_cast; ring]
    rfl

theorem rows_succ : ∀ (k : Nat) (r : Int) (out : Cursor),
    rows data thr w cs ncols maxrow n vz (k + 1) r out
      = row_sweep data thr w cs ncols maxrow n vz (r + k)
          (rows data thr w cs ncols maxrow n vz k r out) := by
  intro k
  induction k with
  | zero => intro r out; simp [rows]
  | succ k ih =>
    intro r out
    rw [rows, ih (r + 1)]
    rw [show r + 1 + (k : Int) = r + ((k + 1 : Nat) : Int) by push_cast; ring]
    rfl

theorem cell_entry_zero (r : Nat) :
    cell_entry data thr w cs ncols maxrow n vz r 0
      = row_entry data thr w cs ncols maxrow n vz r := rfl

theorem cell_entry_succ (r c : Nat) :
    cell_entry data thr w cs ncols maxrow n vz r (c + 1)
      = cell data thr cs ncols n (exact_vertsy n r) vz c
          (cell_entry data thr w cs ncols maxrow n vz r c) := by
  unfold cell_entry
  rw [cols_succ, zero_add]

theorem rows_last (r : Nat) :
    rows data thr w cs ncols maxrow n vz (r + 1) 0 ⟨[], 0, [], 0⟩
      = (cell_entry data thr w cs ncols maxrow n vz r ncols.toNat).cursor := by
  rw [rows_succ, zero_add]
  rfl

theorem cell_tris (col : Int) (s : Sweep) :
    (cell data thr cs ncols n vy vz col s).tris
      = s.tris ++ tri_stores (cell data thr cs ncols n vy vz col s).previnds
          (trianglespec (s.southwest |||
            sample data thr (east_index cs ncols col s.southi) <<< 1 |||
            s.northwest <<< 2 ||| sample data thr (east_index cs ncols col s.northi) <<< 3)) :=
  rfl

theorem tri_stores_raw (ci : Nat → Nat) (code : Nat) :
    tri_stores ci (trianglespec code) = (raw_cell ci code).map (fun x => x % 65536) := by
  unfold tri_stores raw_cell
  rw [List.map_flatMap]
  rfl

end unroll

/-! ## The triangle array as a concatenation over the cells -/

section layout
variable {data : List ℚ} {w h cs ncols nrows : Int}

theorem entry_tracked (thr n : ℚ) (vz : Nat → ℚ) (r c : Nat) (hc : (c : Int) ≤ ncols) :
    Tracked w h cs ncols r c (cell_entry data thr w cs ncols ((h - 1) * w) n vz r c) ∧
    Cornered data thr w h cs ncols r c
      (cell_entry data thr w cs ncols ((h - 1) * w) n vz r c) :=
  cols_cornered thr n (exact_vertsy n r) vz r _ c hc

theorem cell_entry_tris (G : Grid data w h cs ncols nrows) (thr n : ℚ) (vz : Nat → ℚ)
    (r c : Nat) (hc : (c : Int) < ncols) :
    (cell_entry data thr w cs ncols ((h - 1) * w) n vz r (c + 1)).tris
      = (cell_entry data thr w cs ncols ((h - 1) * w) n vz r c).tris ++
        (raw_cell (cell_entry data thr w cs ncols ((h - 1) * w) n vz r (c + 1)).previnds
          (spec_code data thr w h cs r c)).map (fun x => x % 65536) := by
  obtain ⟨t, k⟩ := @entry_tracked data w h cs ncols thr n vz r c (by omega)
  rw [← tri_stores_raw, ← code_eq G thr r c (by omega) hc _ t k]
  rw [cell_entry_succ]
  exact cell_tris data thr cs ncols n (exact_vertsy n r) vz c _

theorem row_tris (G : Grid data w h cs ncols nrows) (thr n : ℚ) (vz : Nat → ℚ) (r : Nat) :
    ∀ c : Nat, (c : Int) ≤ ncols →
      (cell_entry data thr w cs ncols ((h - 1) * w) n vz r c).tris
        = (row_entry data thr w cs ncols ((h - 1) * w) n vz r).tris ++
          ((List.range c).flatMap (fun c =>
            raw_cell (cell_entry data thr w cs ncols ((h - 1) * w) n vz r (c + 1)).previnds
              (spec_code data thr w h cs r c))).map (fun x => x % 65536) := by
  intro c
  induction c with
  | zero => intro _; simp [cell_entry_zero]
  | succ c ih =>
    intro hc
    rw [cell_entry_tris G thr n vz r c (by push_cast at hc; omega),
      ih (by push_cast at hc; omega), List.range_succ, List.flatMap_append, List.map_append,
      List.append_assoc]
    simp

theorem rows_tris (G : Grid data w h cs ncols nrows) (thr n : ℚ) (vz : Nat → ℚ) :
    ∀ r : Nat,
      (rows data thr w cs ncols ((h - 1) * w) n vz r 0 ⟨[], 0, [], 0⟩).tris
        = (raw_tris (fun r c => spec_code data thr w h cs r c)
            (fun r c => (cell_entry data thr w cs ncols ((h - 1) * w) n vz r (c + 1)).previnds)
            r ncols.toNat).map (fun x => x % 65536) := by
  intro r
  induction r with
  | zero => rfl
  | succ r ih =>
    rw [rows_last]
    show (cell_entry data thr w cs ncols ((h - 1) * w) n vz r ncols.toNat).tris = _
    rw [row_tris G thr n vz r ncols.toNat (by have := G.ncols_pos; omega)]
    show (rows data thr w cs ncols ((h - 1) * w) n vz r 0 ⟨[], 0, [], 0⟩).tris ++ _ = _
    rw [ih]
    unfold raw_tris
    rw [List.range_succ, List.flatMap_append, List.map_append]
    simp

end layout

/-! ## The positions designated by the indices of a cell -/

section positions
variable (data : List ℚ) (thr : ℚ) (w cs ncols maxrow : Int) (n : ℚ) (vz : Nat → ℚ)

theorem rows_sized (hnc : 0 ≤ ncols) : ∀ r : Nat,
    SizedOut ncols r (rows data thr w cs ncols maxrow n vz r 0 ⟨[], 0, [], 0⟩) := by
  intro r
  induction r with
  | zero => unfold SizedOut; simp [rows]
  | succ r ih =>
    rw [rows_succ, zero_add]
    have := row_sized data thr w cs ncols maxrow n vz hnc r _ ih
    rw [show ((r + 1 : Nat) : Int) = (r : Int) + 1 by push_cast; ring]
    exact this

theorem entry_placed (hnc : 0 ≤ ncols) (r c : Nat) (hc : (c : Int) ≤ ncols) :
    Placed n (exact_vertsy n r) c (cell_entry data thr w cs ncols maxrow n vz r c) := by
  have hs := rows_sized data thr w cs ncols maxrow n vz hnc r
  have key := cols_inv data thr cs ncols n (exact_vertsy n r) vz
    (fun col s => Placed n (exact_vertsy n r) col s)
    (fun col s _ _ hs => cell_update_placed n r vz _ _ _ _ col s hs)
    c 0 (row_entry data thr w cs ncols maxrow n vz r) (le_refl _) (by omega)
    (row_init_placed data thr w cs maxrow n _ r _ hs.1 hs.2.1)
  simpa [cell_entry] using key

/-- What one cell does to the points: the stored ones keep their index and position, and
every id of the cell's code resolves to the index of a point at the id's position. -/
theorem cell_step_points (vy : Nat → ℚ) (col : Int) (s : Sweep) (hp : Placed n vy col s) :
    s.npts ≤ (cell data thr cs ncols n vy vz col s).npts ∧
    (∀ i, i < s.npts →
      (xy_list (cell data thr cs ncols n vy vz col s).pts).getD i (0, 0)
        = (xy_list s.pts).getD i (0, 0)) ∧
    ∀ id ∈ pointspec (s.southwest |||
        sample data thr (east_index cs ncols col s.southi) <<< 1 |||
        s.northwest <<< 2 ||| sample data thr (east_index cs ncols col s.northi) <<< 3),
      (cell data thr cs ncols n vy vz col s).previnds id
        < (cell data thr cs ncols n vy vz col s).npts ∧
      (xy_list (cell data thr cs ncols n vy vz col s).pts).getD
        ((cell data thr cs ncols n vy vz col s).previnds id) (0, 0) = (s.vertsx id, vy id) :=
  (cell_points n vy vz col s hp _).2

theorem row_stable (hnc : 0 ≤ ncols) (r c : Nat) : ∀ k : Nat, ((c + k : Nat) : Int) ≤ ncols →
    (cell_entry data thr w cs ncols maxrow n vz r c).npts
      ≤ (cell_entry data thr w cs ncols maxrow n vz r (c + k)).npts ∧
    ∀ i, i < (cell_entry data thr w cs ncols maxrow n vz r c).npts →
      (xy_list (cell_entry data thr w cs ncols maxrow n vz r (c + k)).pts).getD i (0, 0)
        = (xy_list (cell_entry data thr w cs ncols maxrow n vz r c).pts).getD i (0, 0) := by
  intro k
  induction k with
  | zero => intro _; exact ⟨le_refl _, fun _ _ => rfl⟩
  | succ k ih =>
    intro hk
    obtain ⟨i1, i2⟩ := ih (by push_cast at hk ⊢; omega)
    have hp := entry_placed data thr w cs ncols maxrow n vz hnc r (c + k)
      (by push_cast at hk ⊢; omega)
    obtain ⟨s1, s2, _⟩ := cell_step_points data thr cs ncols n vz (exact_vertsy n r) _ _ hp
    rw [show c + (k + 1) = c + k + 1 from rfl, cell_entry_succ]
    exact ⟨le_trans i1 s1, fun i hi => (s2 i (lt_of_lt_of_le hi i1)).trans (i2 i hi)⟩

theorem rows_stable (hnc : 0 ≤ ncols) (r : Nat) : ∀ k : Nat,
    (rows data thr w cs ncols maxrow n vz r 0 ⟨[], 0, [], 0⟩).npts
      ≤ (rows data thr w cs ncols maxrow n vz (r + k) 0 ⟨[], 0, [], 0⟩).npts ∧
    ∀ i, i < (rows data thr w cs ncols maxrow n vz r 0 ⟨[], 0, [], 0⟩).npts →
      (xy_list (rows data thr w cs ncols maxrow n vz (r + k) 0 ⟨[], 0, [], 0⟩).pts).getD i (0, 0)
        = (xy_list (rows data thr w cs ncols maxrow n vz r 0 ⟨[], 0, [], 0⟩).pts).getD i
            (0, 0) := by
  intro k
  induction k with
  | zero => exact ⟨le_refl _, fun _ _ => rfl⟩
  | succ k ih =>
    obtain ⟨i1, i2⟩ := ih
    obtain ⟨s1, s2⟩ := row_stable data thr w cs ncols maxrow n vz hnc (r + k) 0 ncols.toNat
      (by omega)
    rw [zero_add] at s1 s2
    rw [show r + (k + 1) = r + k + 1 from rfl, rows_last]
    exact ⟨le_trans i1 s1, fun i hi => (s2 i (lt_of_lt_of_le hi i1)).trans (i2 i hi)⟩

theorem vertex_offsets (r c : Int) : ∀ p < 8,
    exact_vertsx n p + c * n = n * (c + dx p) ∧ exact_vertsy n r p = n * (r + dy p) := by
  intro p hp
  interval_cases p <;> simp [exact_vertsx, exact_vertsy, dx, dy] <;> ring_nf <;> simp

end positions

/-! ## Every point is referenced by a triangle -/

theorem fold_keep (vx vy vz : Nat → ℚ) (pi : Nat → Nat) (pm : Nat) (x : Nat) :
    ∀ (ids : List Nat) (acc : PointAcc), x ∉ ids →
      (ids.foldl (point_step vx vy vz pi pm) acc).currinds x = acc.currinds x := by
  intro ids
  induction ids with
  | nil => intro acc _; rfl
  | cons id rest ih =>
    intro acc hx
    rw [List.foldl_cons, ih _ (fun h => hx (List.mem_cons_of_mem _ h))]
    exact point_step_other vx vy vz pi pm acc id x (fun e => hx (by rw [e]; simp))

/-- Every index handed out by the point loop is the index of one of the ids. -/
theorem fold_cover (vx vy vz : Nat → ℚ) (pi : Nat → Nat) (pm : Nat) :
    ∀ (ids : List Nat) (acc : PointAcc), ids.Nodup →
      ∀ i, acc.npts ≤ i → i < (ids.foldl (point_step vx vy vz pi pm) acc).npts →
        ∃ id ∈ ids, (ids.foldl (point_step vx vy vz pi pm) acc).currinds id = i := by
  intro ids
  induction ids with
  | nil => intro acc _ i h0 h1; simp at h1; omega
  | cons id rest ih =>
    intro acc hnd i h0 h1
    rw [List.nodup_cons] at hnd
    rw [List.foldl_cons] at h1 ⊢
    by_cases hr : reused pm id
    · have e : (point_step vx vy vz pi pm acc id).npts = acc.npts := by
        rw [point_step_reused vx vy vz pi pm acc id hr]
      obtain ⟨x, hx, hxi⟩ := ih _ hnd.2 i (by rw [e]; exact h0) h1
      exact ⟨x, List.mem_cons_of_mem _ hx, hxi⟩
    · have e : (point_step vx vy vz pi pm acc id).npts = acc.npts + 1 := by
        rw [point_step_fresh vx vy vz pi pm acc id hr]
      by_cases hi : i = acc.npts
      · refine ⟨id, List.mem_cons_self _ _, ?_⟩
        rw [fold_keep vx vy vz pi pm id rest _ hnd.1,
          point_step_fresh vx vy vz pi pm acc id hr, hi]
        simp
      · obtain ⟨x, hx, hxi⟩ := ih _ hnd.2 i (by rw [e]; omega) h1
        exact ⟨x, List.mem_cons_of_mem _ hx, hxi⟩

theorem point_ids_used (code : Nat) : ∀ x ∈ pointspec code, x ∈ trianglespec code := by
  by_cases h : code < 16
  · revert code
    decide
  · rw [pointspec_of_ge (by omega)]
    simp

theorem trianglespec_shape (code : Nat) : ∃ k, (trianglespec code).length = 3 * k := by
  by_cases h : code < 16
  · exact ⟨_, (table_counts code h).2⟩
  · rw [trianglespec_of_ge (by omega)]
    exact ⟨0, rfl⟩

theorem chunk3_cover {α : Type} : ∀ (k : Nat) (l : List α), l.length = 3 * k →
    ∀ x ∈ l, ∃ t ∈ chunk3 l, x = t.1 ∨ x = t.2.1 ∨ x = t.2.2 := by
  intro k
  induction k with
  | zero =>
    intro l hl x hx
    have : l = [] := List.eq_nil_of_length_eq_zero (by omega)
    subst this
    simp at hx
  | succ k ih =>
    intro l hl x hx
    match l, hl, hx with
    | a :: b :: c :: rest, hl, hx =>
      simp only [List.mem_cons] at hx
      simp only [chunk3, List.mem_cons]
      rcases hx with e | e | e | e
      · exact ⟨(a, b, c), Or.inl rfl, Or.inl e⟩
      · exact ⟨(a, b, c), Or.inl rfl, Or.inr (Or.inl e)⟩
      · exact ⟨(a, b, c), Or.inl rfl, Or.inr (Or.inr e)⟩
      · obtain ⟨t, ht, hxt⟩ := ih rest (by simp at hl; omega) x e
        exact ⟨t, Or.inr ht, hxt⟩
    | [], hl, _ => simp at hl
    | [_], hl, _ => simp at hl; omega
    | [_, _], hl, _ => simp at hl; omega

theorem mem_raw_cell (idx : Nat → Nat) (code : Nat) (p : Nat) (hp : p ∈ trianglespec code) :
    idx p ∈ raw_cell idx code := by
  obtain ⟨k, hk⟩ := trianglespec_shape code
  obtain ⟨t, ht, hx⟩ := chunk3_cover k _ hk p hp
  unfold raw_cell
  rw [List.mem_flatMap]
  refine ⟨t, ht, ?_⟩
  rcases hx with e | e | e <;> subst e <;> simp

theorem raw_cell_mem (idx : Nat → Nat) (code : Nat) (x : Nat) (hx : x ∈ raw_cell idx code) :
    ∃ p ∈ trianglespec code, x = idx p := by
  unfold raw_cell at hx
  rw [List.mem_flatMap] at hx
  obtain ⟨t, ht, hxt⟩ := hx
  obtain ⟨m1, m2, m3⟩ := mem_chunk3 _ t ht
  simp only [List.mem_cons, List.mem_singleton, List.not_mem_nil, or_false] at hxt
  rcases hxt with e | e | e
  · exact ⟨_, m3, e⟩
  · exact ⟨_, m2, e⟩
  · exact ⟨_, m1, e⟩

theorem mem_raw_tris (code : Nat → Nat → Nat) (idx : Nat → Nat → Nat → Nat) (R C : Nat)
    (x : Nat) :
    x ∈ raw_tris code idx R C ↔ ∃ r, r < R ∧ ∃ c, c < C ∧ x ∈ raw_cell (idx r c) (code r c) := by
  simp [raw_tris, List.mem_flatMap, List.mem_range]

theorem cell_cover (data : List ℚ) (thr : ℚ) (cs ncols : Int) (n : ℚ) (vy vz : Nat → ℚ)
    (col : Int) (s : Sweep) (i : Nat) (h0 : s.npts ≤ i)
    (h1 : i < (cell data thr cs ncols n vy vz col s).npts) :
    ∃ p ∈ pointspec (s.southwest |||
        sample data thr (east_index cs ncols col s.southi) <<< 1 |||
        s.northwest <<< 2 ||| sample data thr (east_index cs ncols col s.northi) <<< 3),
      (cell data thr cs ncols n vy vz col s).previnds p = i :=
  fold_cover s.vertsx vy vz s.previnds s.prevmask _ ⟨fun _ => 0, 0, s.pts, s.npts⟩
    (pointspec_nodup _) i h0 h1

section cover
variable {data : List ℚ} {w h cs ncols nrows : Int}

theorem row_cover (G : Grid data w h cs ncols nrows) (thr n : ℚ) (vz : Nat → ℚ) (r : Nat) :
    ∀ c : Nat, (c : Int) ≤ ncols →
      ∀ i, i < (cell_entry data thr w cs ncols ((h - 1) * w) n vz r c).npts →
        i < (row_entry data thr w cs ncols ((h - 1) * w) n vz r).npts ∨
        ∃ c', c' < c ∧
          i ∈ raw_cell (cell_entry data thr w cs ncols ((h - 1) * w) n vz r (c' + 1)).previnds
            (spec_code data thr w h cs r c') := by
  intro c
  induction c with
  | zero => intro _ i hi; exact Or.inl hi
  | succ c ih =>
    intro hc i hi
    by_cases hlt : i < (cell_entry data thr w cs ncols ((h - 1) * w) n vz r c).npts
    · rcases ih (by push_cast at hc; omega) i hlt with a | ⟨c', hc', hm⟩
      · exact Or.inl a
      · exact Or.inr ⟨c', by omega, hm⟩
    · obtain ⟨t, k⟩ := @entry_tracked data w h cs ncols thr n vz r c (by push_cast at hc; omega)
      rw [cell_entry_succ] at hi
      obtain ⟨p, hp, hpi⟩ := cell_cover data thr cs ncols n (exact_vertsy n r) vz c _ i
        (by omega) hi
      rw [code_eq G thr r c (by omega) (by push_cast at hc; omega) _ t k] at hp
      refine Or.inr ⟨c, by omega, ?_⟩
      rw [cell_entry_succ, ← hpi]
      exact mem_raw_cell _ _ p (point_ids_used _ p hp)

theorem rows_cover (G : Grid data w h cs ncols nrows) (thr n : ℚ) (vz : Nat → ℚ) :
    ∀ (R : Nat) (i : Nat),
      i < (rows data thr w cs ncols ((h - 1) * w) n vz R 0 ⟨[], 0, [], 0⟩).npts →
      i ∈ raw_tris (fun r c => spec_code data thr w h cs r c)
        (fun r c => (cell_entry data thr w cs ncols ((h - 1) * w) n vz r (c + 1)).previnds)
        R ncols.toNat := by
  intro R
  induction R with
  | zero => intro i hi; simp [rows] at hi
  | succ R ih =>
    intro i hi
    rw [rows_last] at hi
    rw [mem_raw_tris]
    rcases row_cover G thr n vz R ncols.toNat (by have := G.ncols_pos; omega) i hi with
      a | ⟨c', hc', hm⟩
    · obtain ⟨r, hr, c, hc, hm⟩ := (mem_raw_tris _ _ _ _ _).1 (ih i a)
      exact ⟨r, by omega, c, hc, hm⟩
    · exact ⟨R, by omega, c', hc', hm⟩

/-- Every id of the code of cell `(r, c)` resolves, after the cell, to the index of a
point that lies at the id's position when `R > r` rows have been swept. -/
theorem rows_positions (G : Grid data w h cs ncols nrows) (thr n : ℚ) (vz : Nat → ℚ)
    (R r c : Nat) (hr : r < R) (hc : (c : Int) < ncols) :
    ∀ p ∈ pointspec (spec_code data thr w h cs r c),
      (cell_entry data thr w cs ncols ((h - 1) * w) n vz r (c + 1)).previnds p
        < (rows data thr w cs ncols ((h - 1) * w) n vz R 0 ⟨[], 0, [], 0⟩).npts ∧
      (xy_list (rows data thr w cs ncols ((h - 1) * w) n vz R 0 ⟨[], 0, [], 0⟩).pts).getD
        ((cell_entry data thr w cs ncols ((h - 1) * w) n vz r (c + 1)).previnds p) (0, 0)
        = (n * (c + dx p), n * (r + dy p)) := by
  intro p hp
  have hnc : 0 ≤ ncols := le_of_lt G.ncols_pos
  obtain ⟨t, k⟩ := @entry_tracked data w h cs ncols thr n vz r c (by omega)
  have hpl := entry_placed data thr w cs ncols ((h - 1) * w) n vz hnc r c (by omega)
  obtain ⟨_, _, s3⟩ := cell_step_points data thr cs ncols n vz (exact_vertsy n r) _ _ hpl
  rw [code_eq G thr r c (by omega) hc _ t k, ← cell_entry_succ] at s3
  obtain ⟨q1, q2⟩ := s3 p hp
  obtain ⟨a1, a2⟩ := row_stable data thr w cs ncols ((h - 1) * w) n vz hnc r (c + 1)
    (ncols.toNat - (c + 1)) (by omega)
  rw [show c + 1 + (ncols.toNat - (c + 1)) = ncols.toNat by omega] at a1 a2
  obtain ⟨b1, b2⟩ := rows_stable data thr w cs ncols ((h - 1) * w) n vz hnc (r + 1)
    (R - (r + 1))
  rw [show r + 1 + (R - (r + 1)) = R by omega, rows_last] at b1 b2
  have c1 := lt_of_lt_of_le q1 a1
  refine ⟨lt_of_lt_of_le c1 b1, ?_⟩
  rw [b2 _ c1]
  show (xy_list (cell_entry data thr w cs ncols ((h - 1) * w) n vz r ncols.toNat).pts).getD
    _ (0, 0) = _
  rw [a2 _ q1, q2, hpl.1 p]
  obtain ⟨o1, o2⟩ := vertex_offsets n r c p (pointspec_lt _ p hp)
  rw [o1, o2, Int.cast_natCast, Int.cast_natCast]

end cover

/-! ## The layout of the triangle array of a whole sweep -/

theorem map_mod_eq (l : List Nat) (h : ∀ x ∈ l, x < 65536) :
    l.map (fun x => x % 65536) = l := by
  induction l with
  | nil => rfl
  | cons a l ih =>
    rw [List.map_cons, ih (fun x hx => h x (List.mem_cons_of_mem _ hx)),
      Nat.mod_eq_of_lt (h a (List.mem_cons_self _ _))]

/-- The triangle array of a valid sweep before and after the 16-bit store: `idx r c p` is
the index to which id `p` resolves in cell `(r, c)`. -/
theorem sweep_layout (stack : Nat → ℚ) (data : List ℚ) (w h cs : Int) (thr : ℚ)
    (v : Valid data w h cs) :
    ∃ idx : Nat → Nat → Nat → Nat,
      (sweep stack data w h cs thr).tris
        = (raw_tris (fun r c => spec_code data thr w h cs r c) idx
            (h.tdiv cs).toNat (w.tdiv cs).toNat).map (fun x => x % 65536) ∧
      (∀ r c : Nat, (r : Int) < h.tdiv cs → (c : Int) < w.tdiv cs →
        ∀ p ∈ trianglespec (spec_code data thr w h cs r c),
          idx r c p < (sweep stack data w h cs thr).npts ∧
          (xy_list (sweep stack data w h cs thr).pts).getD (idx r c p) (0, 0)
            = (exact_ncell w h cs * (c + dx p), exact_ncell w h cs * (r + dy p))) ∧
      (∀ i, i < (sweep stack data w h cs thr).npts →
        i ∈ raw_tris (fun r c => spec_code data thr w h cs r c) idx
          (h.tdiv cs).toNat (w.tdiv cs).toNat) ∧
      ∀ x ∈ raw_tris (fun r c => spec_code data thr w h cs r c) idx
          (h.tdiv cs).toNat (w.tdiv cs).toNat, x < (sweep stack data w h cs thr).npts := by
  have G := v.grid
  have hpos : ∀ r c : Nat, (r : Int) < h.tdiv cs → (c : Int) < w.tdiv cs →
      ∀ p ∈ trianglespec (spec_code data thr w h cs r c),
        (cell_entry data thr w cs (w.tdiv cs) ((h - 1) * w) (exact_ncell w h cs)
          (Function.update stack 0 0) r (c + 1)).previnds p
          < (sweep stack data w h cs thr).npts ∧
        (xy_list (sweep stack data w h cs thr).pts).getD
          ((cell_entry data thr w cs (w.tdiv cs) ((h - 1) * w) (exact_ncell w h cs)
            (Function.update stack 0 0) r (c + 1)).previnds p) (0, 0)
          = (exact_ncell w h cs * (c + dx p), exact_ncell w h cs * (r + dy p)) :=
    fun r c hr hc p hp =>
      rows_positions G thr (exact_ncell w h cs) (Function.update stack 0 0) (h.tdiv cs).toNat r c
        (by omega) hc p (triangle_ids_declared _ p hp)
  refine ⟨_, rows_tris G thr (exact_ncell w h cs) (Function.update stack 0 0) (h.tdiv cs).toNat,
    hpos, rows_cover G thr (exact_ncell w h cs) (Function.update stack 0 0) (h.tdiv cs).toNat, ?_⟩
  intro x hx
  obtain ⟨r, hr, c, hc, hm⟩ := (mem_raw_tris _ _ _ _ _).1 hx
  obtain ⟨p, hp, hxp⟩ := raw_cell_mem _ _ x hm
  rw [hxp]
  exact (hpos r c (by omega) (by omega) p hp).1

/-! ## A second call -/

theorem table_entry_released : ∀ code < 16,
    table_entry released.point_table code = .error .use_after_free := by
  intro code h
  interval_cases code <;> rfl

theorem east_wrap (cs ncols col x len : Int) (hlen : len ≤ 2147483647)
    (h0 : 0 ≤ east_index cs ncols col x) (h1 : east_index cs ncols col x < len) :
    (if col = ncols - 1 then wrap32 (wrap32 (x + cs) - 1) else wrap32 (x + cs))
      = east_index cs ncols col x := by
  unfold east_index at h0 h1 ⊢
  split
  · rename_i hc
    rw [if_pos hc] at h0 h1
    rw [wrap32_eq (x + cs) (by omega) (by omega), wrap32_eq _ (by omega) (by omega)]
  · rename_i hc
    rw [if_neg hc] at h0 h1
    rw [wrap32_eq (x + cs) (by omega) (by omega)]

theorem march_cell_released (pb tb : Option Nat) (data : List ℚ) (thr : ℚ) (cs ncols : Int)
    (n : ℚ) (vy vz : Nat → ℚ) (col : Int) (s : Sweep)
    (hlen : (data.length : Int) ≤ 2147483647)
    (hn0 : 0 ≤ east_index cs ncols col s.northi)
    (hn1 : east_index cs ncols col s.northi < data.length)
    (hs0 : 0 ≤ east_index cs ncols col s.southi)
    (hs1 : east_index cs ncols col s.southi < data.length)
    (hnw : s.northwest ≤ 1) (hsw : s.southwest ≤ 1) :
    march_cell released pb tb data thr cs ncols n vy vz col s = .error .use_after_free := by
  have en := east_wrap cs ncols col s.northi _ hlen hn0 hn1
  have es := east_wrap cs ncols col s.southi _ hlen hs0 hs1
  have hc := code_lt s.southwest (sample data thr (east_index cs ncols col s.southi))
    s.northwest (sample data thr (east_index cs ncols col s.northi))
    hsw (sample_le_one _ _ _) hnw (sample_le_one _ _ _)
  have ht := table_entry_released _ hc
  unfold march_cell
  simp only [en, es, above_eq data thr _ hn0 hn1, above_eq data thr _ hs0 hs1, ht,
    bind, Except.bind, pure, Except.pure]

section second
variable {data : List ℚ} {w h cs ncols nrows : Int}

theorem march_row_released (G : Grid data w h cs ncols nrows) (hfit : w * h ≤ 2147483647)
    (pb tb : Option Nat) (thr n : ℚ) (vz : Nat → ℚ)
    (r : Int) (hr0 : 0 ≤ r) (hr1 : r < nrows) (out : Cursor) :
    march_row released pb tb data thr w cs ncols ((h - 1) * w) n vz r out
      = .error .use_after_free := by
  obtain ⟨n0, n1, n2⟩ := G.north r hr0 hr1
  obtain ⟨s0, s1⟩ := G.south r hr0 hr1
  obtain ⟨e0, e1, e2⟩ := G.east 0 (le_refl _) G.ncols_pos
  have hlen := G.len_eq
  have hcs := G.cs_pos
  have hnc := G.ncols_pos
  have ht := @row_init32_tracked data w h cs ncols thr n r out
  obtain ⟨hn, hso⟩ := ht.1 hnc
  obtain ⟨k, hk⟩ : ∃ k, ncols.toNat = k + 1 := ⟨ncols.toNat - 1, by omega⟩
  have hcell := march_cell_released pb tb data thr cs ncols n (row_vertsy n r) vz 0
    (row_init32 data thr w cs ((h - 1) * w) n r out) (by rw [hlen]; exact hfit)
  have hcell' := hcell ?_ ?_ ?_ ?_ ht.2.1 ht.2.2
  · unfold march_row
    simp only [row_start_eq G hfit thr n r hr0 hr1 out, bind, Except.bind, pure, Except.pure]
    rw [hk]
    unfold march_cols
    rw [hcell']
  all_goals
    try rw [hlen]
    unfold east_index
    by_cases hl : (0 : Int) = ncols - 1
    · have := e1 hl
      rw [if_pos hl]
      omega
    · have := e2 hl
      rw [if_neg hl]
      omega

theorem march_rows_released (G : Grid data w h cs ncols nrows) (hfit : w * h ≤ 2147483647)
    (pb tb : Option Nat) (thr n : ℚ) (vz : Nat → ℚ) (out : Cursor) :
    march_rows released pb tb data thr w cs ncols ((h - 1) * w) n vz nrows.toNat 0 out
      = .error .use_after_free := by
  have hnr := G.nrows_pos
  obtain ⟨k, hk⟩ : ∃ k, nrows.toNat = k + 1 := ⟨nrows.toNat - 1, by omega⟩
  rw [hk, march_rows_succ, march_row_released G hfit pb tb thr n vz 0 (le_refl _) hnr]

end second

/-- The value of `maxrow` when the raster fits an `int`. -/
theorem maxrow_eq {data : List ℚ} {w h cs : Int} (v : Valid data w h cs)
    (hfit : w * h ≤ 2147483647) : wrap32 (wrap32 (h - 1) * w) = (h - 1) * w := by
  have hw := v.width_pos
  have hh := v.height_pos
  have h2 : 0 ≤ (h - 1) * w := Int.mul_nonneg (by omega) (by omega)
  have h3 : (h - 1) * w = w * h - w := by ring
  have w5 : wrap32 (h - 1) = h - 1 := wrap32_eq _ (by omega) (by nlinarith)
  rw [w5]
  exact wrap32_eq _ (by omega) (by omega)

/-- On a valid input whose raster fits an `int`, a call that finds the statics as a
previous call left them reads a released table entry at its first cell. -/
theorem second_call_faults (stack : Nat → ℚ) (data : List ℚ) (w h cs : Int) (thr : ℚ)
    (flags : Int) (v : Valid data w h cs) (hfit : w * h ≤ 2147483647) :
    par_msquares_from_grayscale released stack data w h cs thr flags
      = .error .use_after_free := by
  have G := v.grid
  have hm := v.tmod
  have hw := v.width_pos
  have hh := v.height_pos
  have hc : cs ≠ 0 := by have := v.cell_pos; omega
  unfold par_msquares_from_grayscale
  simp only [hw, hh, hc, hm.1, hm.2, released, not_true_eq_false,
    if_false, and_self, Option.isNone_some, bind, Except.bind, pure, Except.pure,
    gt_iff_lt, maxrow_eq v hfit, Bool.false_eq_true]
  have hrows := march_rows_released G hfit
    (buffer (wrap32 (wrap32 (wrap32 (w.tdiv cs * h.tdiv cs) * 6) * 3)) 4)
    (buffer (wrap32 (wrap32 (wrap32 (w.tdiv cs * h.tdiv cs) * 3) * 3)) 2)
    thr (ncell w h cs) (Function.update stack 0 0) ⟨[], 0, [], 0⟩
  unfold released at hrows
  rw [hrows]

/-! ## The run of a call up to a cell -/

section split
variable (data : List ℚ) (thr : ℚ) (w cs ncols maxrow : Int) (n : ℚ) (vy vz : Nat → ℚ)

theorem cols32_add : ∀ (a b : Nat) (col : Int) (s : Sweep),
    cols32 data thr cs ncols n vy vz (a + b) col s
      = cols32 data thr cs ncols n vy vz b (col + a)
          (cols32 data thr cs ncols n vy vz a col s) := by
  intro a
  induction a with
  | zero => intro b col s; simp [cols32]
  | succ a ih =>
    intro b col s
    rw [show a + 1 + b = (a + b) + 1 by omega, cols32, ih b (col + 1), cols32]
    rw [show col + 1 + (a : Int) = col + ((a + 1 : Nat) : Int) by push_cast; ring]

theorem rows32_add : ∀ (a b : Nat) (r : Int) (out : Cursor),
    rows32 data thr w cs ncols maxrow n vz (a + b) r out
      = rows32 data thr w cs ncols maxrow n vz b (r + a)
          (rows32 data thr w cs ncols maxrow n vz a r out) := by
  intro a
  induction a with
  | zero => intro b r out; simp [rows32]
  | succ a ih =>
    intro b r out
    rw [show a + 1 + b = (a + b) + 1 by omega, rows32_succ, ih b (r + 1), rows32_succ]
    rw [show r + 1 + (a : Int) = r + ((a + 1 : Nat) : Int) by push_cast; ring]

theorem cell_entry32_succ (r c : Nat) :
    cell_entry32 data thr w cs ncols maxrow n vz r (c + 1)
      = cell32 data thr cs ncols n (row_vertsy n r) vz c
          (cell_entry32 data thr w cs ncols maxrow n vz r c) := by
  unfold cell_entry32
  rw [cols32_add, zero_add]
  rfl

theorem rows32_last (r : Nat) :
    rows32 data thr w cs ncols maxrow n vz (r + 1) 0 ⟨[], 0, [], 0⟩
      = (cell_entry32 data thr w cs ncols maxrow n vz r ncols.toNat).cursor := by
  rw [rows32_add, zero_add]
  rfl

/-- The sweep states of the C code and of the exact sweep before a cell differ at most in
the coordinates. -/
theorem entry_similar (n' : ℚ) (vz' : Nat → ℚ) (r c : Nat) :
    Similar (cell_entry32 data thr w cs ncols maxrow n vz r c)
      (cell_entry data thr w cs ncols maxrow n' vz' r c) :=
  cols_similar data thr cs ncols n n' _ vz _ vz' c 0 _ _
    (row_init_similar data thr w cs maxrow n n' r _ _
      (rows_similar data thr w cs ncols maxrow n n' vz vz' r 0 _ _ ⟨rfl, rfl, rfl, rfl⟩))

/-- The output only grows from the state before a cell to the end of the sweep. -/
theorem entry_le_final (r c : Nat) (nrows : Nat) (hr : r < nrows) (hc : c ≤ ncols.toNat) :
    (cell_entry32 data thr w cs ncols maxrow n vz r c).pts.length
      ≤ (rows32 data thr w cs ncols maxrow n vz nrows 0 ⟨[], 0, [], 0⟩).pts.length ∧
    (cell_entry32 data thr w cs ncols maxrow n vz r c).tris.length
      ≤ (rows32 data thr w cs ncols maxrow n vz nrows 0 ⟨[], 0, [], 0⟩).tris.length := by
  obtain ⟨k, hk⟩ : ∃ k, nrows = (r + 1) + k := ⟨nrows - (r + 1), by omega⟩
  obtain ⟨j, hj⟩ : ∃ j, ncols.toNat = c + j := ⟨ncols.toNat - c, by omega⟩
  have g1 := rows32_grows data thr w cs ncols maxrow n vz k (0 + ((r + 1 : Nat) : Int))
    (rows32 data thr w cs ncols maxrow n vz (r + 1) 0 ⟨[], 0, [], 0⟩)
  rw [← rows32_add, ← hk, rows32_last] at g1
  have g2 := cols32_grows data thr cs ncols n (row_vertsy n r) vz j (0 + (c : Int))
    (cell_entry32 data thr w cs ncols maxrow n vz r c)
  have e : cols32 data thr cs ncols n (row_vertsy n r) vz j (0 + (c : Int))
      (cell_entry32 data thr w cs ncols maxrow n vz r c)
      = cell_entry32 data thr w cs ncols maxrow n vz r ncols.toNat := by
    unfold cell_entry32
    rw [← cols32_add, ← hj]
  rw [e] at g2
  exact ⟨le_trans g2.1 g1.1, le_trans g2.2 g1.2⟩

end split

theorem tracked_of_similar {w h cs ncols r col : Int} {a b : Sweep} (hs : Similar a b)
    (hb : Tracked w h cs ncols r col b) : Tracked w h cs ncols r col a := by
  obtain ⟨h1, h2, h3, h4, _⟩ := hs
  unfold Tracked
  rw [h1, h2, h3, h4]
  exact hb

theorem cornered_of_similar {data : List ℚ} {thr : ℚ} {w h cs ncols r col : Int} {a b : Sweep}
    (hs : Similar a b) (hb : Cornered data thr w h cs ncols r col b) :
    Cornered data thr w h cs ncols r col a := by
  obtain ⟨h1, h2, h3, h4, _⟩ := hs
  unfold Cornered
  rw [h3, h4]
  exact hb

/-- The two output blocks of a call on a valid input that fits the integer types hold
`maxpts * 3` coordinates and `maxtris * 3` indices. -/
theorem blocks_eq {data : List ℚ} {w h cs : Int} (v : Valid data w h cs) (f : Fits w h cs) :
    pts_alloc (w.tdiv cs) (h.tdiv cs) = some (w.tdiv cs * h.tdiv cs * 6 * 3).toNat ∧
    tris_alloc (w.tdiv cs) (h.tdiv cs) = some (w.tdiv cs * h.tdiv cs * 3 * 3).toNat := by
  obtain ⟨b1, b2, b3, b4⟩ := fits_bounds v f
  have w0 : wrap32 (w.tdiv cs * h.tdiv cs) = w.tdiv cs * h.tdiv cs :=
    wrap32_eq _ (by omega) (by omega)
  have w1 : wrap32 (w.tdiv cs * h.tdiv cs * 3) = w.tdiv cs * h.tdiv cs * 3 :=
    wrap32_eq _ (by omega) (by omega)
  have w2 : wrap32 (w.tdiv cs * h.tdiv cs * 3 * 3) = w.tdiv cs * h.tdiv cs * 3 * 3 :=
    wrap32_eq _ (by omega) (by omega)
  have w3 : wrap32 (w.tdiv cs * h.tdiv cs * 6) = w.tdiv cs * h.tdiv cs * 6 :=
    wrap32_eq _ (by omega) (by omega)
  have w4 : wrap32 (w.tdiv cs * h.tdiv cs * 6 * 3) = w.tdiv cs * h.tdiv cs * 6 * 3 :=
    wrap32_eq _ (by omega) (by omega)
  unfold pts_alloc tris_alloc
  rw [w0, w1, w2, w3, w4]
  exact ⟨buffer_eq _ 4 (by omega) (by omega) (Or.inr rfl),
    buffer_eq _ 2 (by omega) (by omega) (Or.inl rfl)⟩

/-- The run of a first call on a valid input that fits the integer types, up to and
including cell `(r, c)`: the row loop reaches row `r`, the column loop reaches column `c`
and the cell body runs, each step yielding the state of the rounded sweep. -/
theorem cell_run32 (stack : Nat → ℚ) (data : List ℚ) (w h cs : Int) (thr : ℚ)
    (v : Valid data w h cs) (f : Fits w h cs) (r c : Nat) (hr : (r : Int) < h.tdiv cs)
    (hc : (c : Int) < w.tdiv cs) :
    march_rows built (pts_alloc (w.tdiv cs) (h.tdiv cs)) (tris_alloc (w.tdiv cs) (h.tdiv cs))
        data thr w cs (w.tdiv cs) (wrap32 (wrap32 (h - 1) * w)) (ncell w h cs)
        (Function.update stack 0 0) r 0 ⟨[], 0, [], 0⟩
      = .ok (rows32 data thr w cs (w.tdiv cs) ((h - 1) * w) (ncell w h cs)
          (Function.update stack 0 0) r 0 ⟨[], 0, [], 0⟩) ∧
    row_start data thr w cs (wrap32 (wrap32 (h - 1) * w)) (ncell w h cs) r
        (rows32 data thr w cs (w.tdiv cs) ((h - 1) * w) (ncell w h cs)
          (Function.update stack 0 0) r 0 ⟨[], 0, [], 0⟩)
      = .ok (row_entry32 data thr w cs (w.tdiv cs) ((h - 1) * w) (ncell w h cs)
          (Function.update stack 0 0) r) ∧
    march_cols built (pts_alloc (w.tdiv cs) (h.tdiv cs)) (tris_alloc (w.tdiv cs) (h.tdiv cs))
        data thr cs (w.tdiv cs) (ncell w h cs) (row_vertsy (ncell w h cs) r)
        (Function.update stack 0 0) c 0
        (row_entry32 data thr w cs (w.tdiv cs) ((h - 1) * w) (ncell w h cs)
          (Function.update stack 0 0) r)
      = .ok (cell_entry32 data thr w cs (w.tdiv cs) ((h - 1) * w) (ncell w h cs)
          (Function.update stack 0 0) r c) ∧
    march_cell built (pts_alloc (w.tdiv cs) (h.tdiv cs)) (tris_alloc (w.tdiv cs) (h.tdiv cs))
        data thr cs (w.tdiv cs) (ncell w h cs) (row_vertsy (ncell w h cs) r)
        (Function.update stack 0 0) c
        (cell_entry32 data thr w cs (w.tdiv cs) ((h - 1) * w) (ncell w h cs)
          (Function.update stack 0 0) r c)
      = .ok (cell_entry32 data thr w cs (w.tdiv cs) ((h - 1) * w) (ncell w h cs)
          (Function.update stack 0 0) r (c + 1)) := by
  have G := v.grid
  obtain ⟨bp, bt⟩ := blocks_eq v f
  obtain ⟨z1, z2, z3, z4⟩ := sweep32_sized stack data w h cs thr v
  obtain ⟨b1, b2, b3, b4⟩ := fits_bounds v f
  have hnr := G.nrows_pos
  have hnc := G.ncols_pos
  -- capacities
  have cap : ∀ c' : Nat, c' ≤ (w.tdiv cs).toNat →
      (cell_entry32 data thr w cs (w.tdiv cs) ((h - 1) * w) (ncell w h cs)
        (Function.update stack 0 0) r c').pts.length
        ≤ limit (pts_alloc (w.tdiv cs) (h.tdiv cs)) ∧
      (cell_entry32 data thr w cs (w.tdiv cs) ((h - 1) * w) (ncell w h cs)
        (Function.update stack 0 0) r c').tris.length
        ≤ limit (tris_alloc (w.tdiv cs) (h.tdiv cs)) := by
    intro c' hc'
    obtain ⟨g1, g2⟩ := entry_le_final data thr w cs (w.tdiv cs) ((h - 1) * w) (ncell w h cs)
      (Function.update stack 0 0) r c' (h.tdiv cs).toNat (by omega) hc'
    have e : rows32 data thr w cs (w.tdiv cs) ((h - 1) * w) (ncell w h cs)
        (Function.update stack 0 0) (h.tdiv cs).toNat 0 ⟨[], 0, [], 0⟩
        = sweep32 stack data w h cs thr := rfl
    rw [e] at g1 g2
    rw [bp, bt]
    simp only [limit]
    omega
  have c0 := cap 0 (by omega)
  have cc := cap c (by omega)
  have cc1 := cap (c + 1) (by omega)
  rw [maxrow_eq v f.raster]
  refine ⟨?_, ?_, ?_, ?_⟩
  · exact march_rows_eq G f.raster _ _ thr _ _ r 0 _ (le_refl _) (by omega) c0.1 c0.2
  · exact row_start_eq G f.raster thr _ r (by omega) hr _
  · exact (march_cols_upto G f.raster _ _ thr _ _ _ r (by omega) hr c 0 _ (le_refl _)
      (by omega) (row_init32_tracked thr _ r _) cc.1 cc.2).1
  · have ht : Tracked w h cs (w.tdiv cs) r c
        (cell_entry32 data thr w cs (w.tdiv cs) ((h - 1) * w) (ncell w h cs)
          (Function.update stack 0 0) r c) :=
      tracked_of_similar
        (entry_similar data thr w cs (w.tdiv cs) ((h - 1) * w) (ncell w h cs)
          (Function.update stack 0 0) (ncell w h cs) (Function.update stack 0 0) r c)
        (entry_tracked thr _ _ r c (by omega)).1
    rw [cell_entry32_succ]
    rw [cell_entry32_succ] at cc1
    exact march_cell_tracked G f.raster _ _ thr _ _ _ r (by omega) hr c (by omega) hc _ ht
      cc1.1 cc1.2

/-! ## Valid inputs on which a call fails -/

/-- A first call on a valid input, after its two entry assertions and `init_tables`: the
row loop over the two allocated blocks, then the two final assertions. -/
theorem call_body (stack : Nat → ℚ) (data : List ℚ) (w h cs : Int) (thr : ℚ) (flags : Int)
    (v : Valid data w h cs) :
    par_msquares_from_grayscale Globals.initial stack data w h cs thr flags
      = match march_rows built (pts_alloc (w.tdiv cs) (h.tdiv cs))
          (tris_alloc (w.tdiv cs) (h.tdiv cs)) data thr w cs (w.tdiv cs)
          (wrap32 (wrap32 (h - 1) * w)) (ncell w h cs) (Function.update stack 0 0)
          (h.tdiv cs).toNat 0 ⟨[], 0, [], 0⟩ with
        | .error e => .error e
        | .ok out =>
          if ¬ ((out.npts : Int) ≤ wrap32 (wrap32 (w.tdiv cs * h.tdiv cs) * 6)) then
            .error .assertion
          else if ¬ ((out.ntris : Int) ≤ wrap32 (wrap32 (w.tdiv cs * h.tdiv cs) * 3)) then
            .error .assertion
          else .ok (⟨1, [out.mesh]⟩, released) := by
  have hm := v.tmod
  have hw := v.width_pos
  have hh := v.height_pos
  have hc : cs ≠ 0 := by have := v.cell_pos; omega
  unfold par_msquares_from_grayscale pts_alloc tris_alloc
  simp only [hw, hh, hc, hm.1, hm.2, Globals.initial, init_tables_eq, not_true_eq_false,
    if_false, and_self, Option.isNone_none, if_true, bind, Except.bind, pure, Except.pure,
    gt_iff_lt]
  cases march_rows built (buffer (wrap32 (wrap32 (wrap32 (w.tdiv cs * h.tdiv cs) * 6) * 3)) 4)
      (buffer (wrap32 (wrap32 (wrap32 (w.tdiv cs * h.tdiv cs) * 3) * 3)) 2) data thr w cs
      (w.tdiv cs) (wrap32 (wrap32 (h - 1) * w)) (ncell w h cs) (Function.update stack 0 0)
      (h.tdiv cs).toNat 0 ⟨[], 0, [], 0⟩ with
  | error e => rfl
  | ok out =>
    simp only []
    by_cases h1 : (out.npts : Int) ≤ wrap32 (wrap32 (w.tdiv cs * h.tdiv cs) * 6)
    · by_cases h2 : (out.ntris : Int) ≤ wrap32 (wrap32 (w.tdiv cs * h.tdiv cs) * 3)
      · simp only [h1, h2, not_true_eq_false, if_false]
        rfl
      · simp only [h1, h2, not_true_eq_false, not_false_eq_true, if_false, if_true]
    · simp only [h1, not_false_eq_true, if_true]

/-- The rounded sweep of a raster that is nowhere above the threshold stores nothing. -/
theorem sweep32_outside (stack : Nat → ℚ) (data : List ℚ) (w h cs : Int) (thr : ℚ)
    (v : Valid data w h cs) (hle : ∀ x ∈ data, x ≤ thr) :
    sweep32 stack data w h cs thr = ⟨[], 0, [], 0⟩ := by
  obtain ⟨s1, s2, s3, s4⟩ := sweep_similar stack data w h cs thr
  rw [sweep_outside stack data w h cs thr v hle] at s1 s2 s3 s4
  generalize sweep32 stack data w h cs thr = out at s1 s2 s3 s4
  obtain ⟨p, np, t, nt⟩ := out
  simp only at s1 s2 s3 s4
  have : p = [] := List.length_eq_zero.mp s4
  subst this s1 s2 s3
  rfl

/-- A valid raster that fits an `int` and is nowhere above the threshold, on a grid so
large that `maxpts = ncols * nrows * 6` wraps to a negative `int`: the sweep stores
nothing and the assertion `npts <= maxpts` fails. -/
theorem assertion_fails (stack : Nat → ℚ) (data : List ℚ) (w h cs : Int) (thr : ℚ)
    (flags : Int) (v : Valid data w h cs) (hfit : w * h ≤ 2147483647)
    (hle : ∀ x ∈ data, x ≤ thr)
    (hneg : wrap32 (wrap32 (w.tdiv cs * h.tdiv cs) * 6) < 0) :
    march_rows built (pts_alloc (w.tdiv cs) (h.tdiv cs))
        (tris_alloc (w.tdiv cs) (h.tdiv cs)) data thr w cs (w.tdiv cs)
        (wrap32 (wrap32 (h - 1) * w)) (ncell w h cs) (Function.update stack 0 0)
        (h.tdiv cs).toNat 0 ⟨[], 0, [], 0⟩ = .ok ⟨[], 0, [], 0⟩ ∧
    par_msquares_from_grayscale Globals.initial stack data w h cs thr flags
      = .error .assertion := by
  have G := v.grid
  have e : rows32 data thr w cs (w.tdiv cs) ((h - 1) * w) (ncell w h cs)
      (Function.update stack 0 0) (h.tdiv cs).toNat 0 ⟨[], 0, [], 0⟩
      = sweep32 stack data w h cs thr := rfl
  have hrows := march_rows_eq G hfit (pts_alloc (w.tdiv cs) (h.tdiv cs))
    (tris_alloc (w.tdiv cs) (h.tdiv cs)) thr (ncell w h cs) (Function.update stack 0 0)
    (h.tdiv cs).toNat 0 ⟨[], 0, [], 0⟩ (le_refl _) (by have := G.nrows_pos; omega)
    (by rw [e, sweep32_outside stack data w h cs thr v hle]; exact Nat.zero_le _)
    (by rw [e, sweep32_outside stack data w h cs thr v hle]; exact Nat.zero_le _)
  rw [e, sweep32_outside stack data w h cs thr v hle, ← maxrow_eq v hfit] at hrows
  refine ⟨hrows, ?_⟩
  rw [call_body stack data w h cs thr flags v, hrows]
  have hn : ¬ (((0 : Nat) : Int) ≤ wrap32 (wrap32 (w.tdiv cs * h.tdiv cs) * 6)) := by
    push_cast
    omega
  simp only [hn, not_false_eq_true, if_true]

/-- On a valid input the south-west sample of the first cell is read at the index
`MIN (northi + cellsize * width) maxrow` computed in `int`; when that is negative the read
is outside the raster and the call faults. -/
theorem south_read_faults (stack : Nat → ℚ) (data : List ℚ) (w h cs : Int) (thr : ℚ)
    (flags : Int) (v : Valid data w h cs)
    (hneg : MIN (wrap32 (wrap32 (wrap32 (0 * cs) * w) + wrap32 (cs * w)))
      (wrap32 (wrap32 (h - 1) * w)) < 0) :
    row_start data thr w cs (wrap32 (wrap32 (h - 1) * w)) (ncell w h cs) 0 ⟨[], 0, [], 0⟩
      = .error .out_of_bounds ∧
    par_msquares_from_grayscale Globals.initial stack data w h cs thr flags
      = .error .out_of_bounds := by
  have G := v.grid
  have hw := v.width_pos
  have hh := v.height_pos
  have hlen := v.length_eq
  have hpos : 0 < w * h := Int.mul_pos hw hh
  have z : wrap32 (wrap32 (0 * cs) * w) = 0 := by
    rw [zero_mul]
    have : wrap32 0 = 0 := by decide
    rw [this, zero_mul, this]
  have a1 := above_eq data thr 0 (le_refl _) (by omega)
  have a2 : above data thr (MIN (wrap32 (wrap32 (wrap32 (0 * cs) * w) + wrap32 (cs * w)))
      (wrap32 (wrap32 (h - 1) * w))) = .error .out_of_bounds := by
    unfold above load
    rw [if_pos hneg]
  have hrow : row_start data thr w cs (wrap32 (wrap32 (h - 1) * w)) (ncell w h cs) 0
      ⟨[], 0, [], 0⟩ = .error .out_of_bounds := by
    unfold row_start
    simp only [bind, Except.bind]
    rw [a2]
    rw [z] at *
    rw [a1]
  refine ⟨hrow, ?_⟩
  have hnr := G.nrows_pos
  obtain ⟨k, hk⟩ : ∃ k, (h.tdiv cs).toNat = k + 1 := ⟨(h.tdiv cs).toNat - 1, by omega⟩
  rw [call_body stack data w h cs thr flags v, hk, march_rows_succ]
  unfold march_row
  simp only [bind, Except.bind]
  rw [hrow]

/-! ## Neighbouring cells in the C sweep -/

section stuck
variable (data : List ℚ) (thr : ℚ) (w cs ncols maxrow : Int) (vz : Nat → ℚ)

end stuck

theorem fits_one : Fits 1 1 1 := ⟨by decide, by decide⟩

theorem dyadic_one : Dyadic 1 1 1 := ⟨0, by decide, by decide, by decide⟩

theorem fits_two : Fits 2 2 1 := ⟨by decide, by decide⟩

theorem dyadic_two : Dyadic 2 2 1 := ⟨1, by decide, by decide, by decide⟩

theorem fits_three : Fits 3 2 1 := ⟨by decide, by decide⟩

theorem fits_block : Fits 2 2 2 := ⟨by decide, by decide⟩

theorem valid_triple : Valid [1, 0, 1] 3 1 1 :=
  ⟨by decide, by decide, by decide, ⟨3, by decide⟩, ⟨1, by decide⟩, by decide⟩

theorem fits_triple : Fits 3 1 1 := ⟨by decide, by decide⟩

/-- A one-cell grid of side at most 46340 fits the integer types and nothing rounds on it. -/
theorem one_cell_fits (cs : Int) (h1 : 1 ≤ cs) (h2 : cs ≤ 46340) :
    Fits cs cs cs ∧ Dyadic cs cs cs := by
  have e1 : cs.tdiv cs = 1 := Int.tdiv_self (by omega)
  have hm : MAX cs cs = cs := by unfold MAX; rw [if_neg (by omega)]
  refine ⟨⟨by nlinarith, by rw [e1]; decide⟩, 0, by decide, ?_, ?_⟩
  · rw [hm]; ring
  · rw [hm]; omega

/-- The raster of 18919 x 18919 samples, all equal to `x`. -/
theorem valid_huge (x : ℚ) : Valid (List.replicate 357928561 x) 18919 18919 1 :=
  ⟨by decide, by decide, by decide, one_dvd _, one_dvd _,
    by rw [List.length_replicate]; norm_num⟩

/-- On the raster of 18919 x 18919 zeros with cells of size 1 the sweep stores nothing,
`maxpts` wraps to a negative `int` and the assertion `npts <= maxpts` fails. -/
theorem huge_aborts (stack : Nat → ℚ) (flags : Int) :
    march_rows built (pts_alloc 18919 18919) (tris_alloc 18919 18919)
        (List.replicate 357928561 0) 0 18919 1 18919 (wrap32 (wrap32 (18919 - 1) * 18919))
        (ncell 18919 18919 1) (Function.update stack 0 0) 18919 0 ⟨[], 0, [], 0⟩
      = .ok ⟨[], 0, [], 0⟩ ∧
    par_msquares_from_grayscale Globals.initial stack (List.replicate 357928561 0)
      18919 18919 1 0 flags = .error .assertion :=
  assertion_fails stack _ 18919 18919 1 0 flags (valid_huge 0) (by norm_num)
    (fun x hx => by rw [List.eq_of_mem_replicate hx]) (by decide)

/-- The raster of 46341 x 46341 samples, all equal to `x`, as a single cell. -/
theorem valid_wide (x : ℚ) : Valid (List.replicate 2147488281 x) 46341 46341 46341 :=
  ⟨by decide, by decide, by decide, dvd_refl _, dvd_refl _,
    by rw [List.length_replicate]; norm_num⟩

/-- On a raster of 46341 x 46341 samples taken as one cell, `northi + cellsize * width`
wraps to a negative `int` and the read of the south-west sample is outside the raster. -/
theorem wide_faults (x thr : ℚ) (stack : Nat → ℚ) (flags : Int) :
    row_start (List.replicate 2147488281 x) thr 46341 46341
        (wrap32 (wrap32 (46341 - 1) * 46341)) (ncell 46341 46341 46341) 0 ⟨[], 0, [], 0⟩
      = .error .out_of_bounds ∧
    par_msquares_from_grayscale Globals.initial stack (List.replicate 2147488281 x)
      46341 46341 46341 thr flags = .error .out_of_bounds :=
  south_read_faults stack _ 46341 46341 46341 thr flags (valid_wide x) (by decide)

/-- The positions that the C code stores for the raster `[1, 0, 1]` of width 3: the cell
size `1/3` is rounded to the `float` `11184811/33554432`. -/
theorem triple_rounded :
    (sweep32 (fun _ => 0) [1, 0, 1] 3 1 1 (1 / 2)).npts = 10 ∧
    xy_list (sweep32 (fun _ => 0) [1, 0, 1] 3 1 1 (1 / 2)).pts
      = [(0, 11184811 / 33554432), (11184811 / 67108864, 11184811 / 33554432),
         (11184811 / 67108864, 0), (0, 0), (1 / 2, 11184811 / 33554432),
         (11184811 / 16777216, 11184811 / 33554432), (11184811 / 16777216, 0), (1 / 2, 0),
         (1, 11184811 / 33554432), (1, 0)] := by
  decide!

theorem getD_cases {α : Type} (l : List α) (i : Nat) (d : α) :
    l.getD i d = d ∨ l.getD i d ∈ l := by
  by_cases h : i < l.length
  · right
    rw [List.getD_eq_getElem _ _ h]
    exact List.getElem_mem _
  · left
    exact List.getD_eq_default _ _ (by omega)

/-- On a valid raster that is everywhere above the threshold the code that the
specification gives to every cell is 15. -/
theorem spec_code_inside (data : List ℚ) (thr : ℚ) (w h cs : Int) (v : Valid data w h cs)
    (hgt : ∀ x ∈ data, thr < x) (r c : Int) (hr0 : 0 ≤ r) (hr1 : r < h.tdiv cs)
    (hc0 : 0 ≤ c) (hc1 : c < w.tdiv cs) : spec_code data thr w h cs r c = 15 := by
  have G := v.grid
  obtain ⟨b1, b2, b3, b4⟩ := corner_bounds G r hr0 hr1 c hc0 hc1
  have hlen := G.len_eq
  unfold spec_code
  rw [sample_eq_one data thr hgt _ b1.1 (by rw [hlen]; exact b1.2),
    sample_eq_one data thr hgt _ b2.1 (by rw [hlen]; exact b2.2),
    sample_eq_one data thr hgt _ b3.1 (by rw [hlen]; exact b3.2),
    sample_eq_one data thr hgt _ b4.1 (by rw [hlen]; exact b4.2)]

/-! ## The layout of the triangle array of the C sweep -/

/-- C2 (as stated, refuted): on the valid raster of 18919 x 18919 samples equal to 0
(`cellsize = 1`, `threshold = 0`) the sweep of a first call ends with `npts = 0`, but
`maxpts = ncols * nrows * 6` is computed in `int` and is `-2147395930`, so the final
assertion `npts <= maxpts` fails. -/
theorem C2_counterexample :
    Valid (List.replicate 357928561 (0 : ℚ)) 18919 18919 1 ∧
    wrap32 (wrap32 ((18919 : Int).tdiv 1 * (18919 : Int).tdiv 1) * 6) = -2147395930 ∧
    ∀ (stack : Nat → ℚ) (flags : Int),
      march_rows built (pts_alloc 18919 18919) (tris_alloc 18919 18919)
          (List.replicate 357928561 0) 0 18919 1 18919 (wrap32 (wrap32 (18919 - 1) * 18919))
          (ncell 18919 18919 1) (Function.update stack 0 0) 18919 0 ⟨[], 0, [], 0⟩
        = .ok ⟨[], 0, [], 0⟩ ∧
      par_msquares_from_grayscale Globals.initial stack (List.replicate 357928561 0)
        18919 18919 1 0 flags = .error .assertion :=
  ⟨valid_huge 0, by decide, fun stack flags => huge_aborts stack flags⟩

/-- C2 (amended): on every valid input that fits the integer types the sweep of a first
call ends with `npts <= ncols * nrows * 6` and `ntris <= ncols * nrows * 3`, these two
products are the values of `maxpts` and `maxtris`, so neither final assertion fails and
the call returns. -/
theorem C2_worst_case_bounds (stack : Nat → ℚ) (data : List ℚ) (w h cs : Int) (thr : ℚ)
    (flags : Int) (v : Valid data w h cs) (f : Fits w h cs) :
    ∃ m : par_msquares_mesh,
      par_msquares_from_grayscale Globals.initial stack data w h cs thr flags
        = .ok (⟨1, [m]⟩, released) ∧
      (m.npoints : Int) ≤ w.tdiv cs * h.tdiv cs * 6 ∧
      (m.ntriangles : Int) ≤ w.tdiv cs * h.tdiv cs * 3 ∧
      wrap32 (wrap32 (w.tdiv cs * h.tdiv cs) * 6) = w.tdiv cs * h.tdiv cs * 6 ∧
      wrap32 (wrap32 (w.tdiv cs * h.tdiv cs) * 3) = w.tdiv cs * h.tdiv cs * 3 := by
  obtain ⟨b1, b2, _, _⟩ := fits_bounds v f
  have w0 : wrap32 (w.tdiv cs * h.tdiv cs) = w.tdiv cs * h.tdiv cs :=
    wrap32_eq _ (by omega) (by omega)
  refine ⟨_, from_grayscale_eq stack data w h cs thr flags v f,
    (sweep32_sized stack data w h cs thr v).2.2.1,
    (sweep32_sized stack data w h cs thr v).2.2.2, ?_, ?_⟩
  · rw [w0]; exact wrap32_eq _ (by omega) (by omega)
  · rw [w0]; exact wrap32_eq _ (by omega) (by omega)

theorem C2_worst_case_bounds_witness :
    (Valid [1, 1, 1, 0] 2 2 1 ∧ Fits 2 2 1) ∧
    ∃ m : par_msquares_mesh,
      par_msquares_from_grayscale Globals.initial (fun _ => 0) [1, 1, 1, 0] 2 2 1 (1 / 2) 0
        = .ok (⟨1, [m]⟩, released) ∧
      (m.npoints : Int) ≤ (2 : Int).tdiv 1 * (2 : Int).tdiv 1 * 6 ∧
      (m.ntriangles : Int) ≤ (2 : Int).tdiv 1 * (2 : Int).tdiv 1 * 3 ∧
      wrap32 (wrap32 ((2 : Int).tdiv 1 * (2 : Int).tdiv 1) * 6)
        = (2 : Int).tdiv 1 * (2 : Int).tdiv 1 * 6 ∧
      wrap32 (wrap32 ((2 : Int).tdiv 1 * (2 : Int).tdiv 1) * 3)
        = (2 : Int).tdiv 1 * (2 : Int).tdiv 1 * 3 :=
  ⟨⟨valid_two, fits_two⟩, C2_worst_case_bounds _ _ _ _ _ _ _ valid_two fits_two⟩

/-- C3 (as stated, refuted): in the valid raster of 18919 x 18919 samples equal to 0
every value is less than or equal to the threshold 0, yet a first call with `cellsize = 1`
does not return the empty mesh: it fails the assertion `npts <= maxpts`. -/
theorem C3_counterexample :
    Valid (List.replicate 357928561 (0 : ℚ)) 18919 18919 1 ∧
    (∀ x ∈ List.replicate 357928561 (0 : ℚ), x ≤ 0) ∧
    ∀ (stack : Nat → ℚ) (flags : Int),
      par_msquares_from_grayscale Globals.initial stack (List.replicate 357928561 0)
        18919 18919 1 0 flags = .error .assertion :=
  ⟨valid_huge 0, fun x hx => by rw [List.eq_of_mem_replicate hx],
    fun stack flags => (huge_aborts stack flags).2⟩

/-- C3 (amended): on every valid input that fits the integer types and whose raster
values are all less than or equal to the threshold, a first call returns the empty mesh:
`npoints = 0` and `ntriangles = 0`, with nothing stored in either array. -/
theorem C3_nothing_inside (stack : Nat → ℚ) (data : List ℚ) (w h cs : Int) (thr : ℚ)
    (flags : Int) (v : Valid data w h cs) (f : Fits w h cs) (hle : ∀ x ∈ data, x ≤ thr) :
    ∃ m : par_msquares_mesh,
      par_msquares_from_grayscale Globals.initial stack data w h cs thr flags
        = .ok (⟨1, [m]⟩, released) ∧
      m.npoints = 0 ∧ m.ntriangles = 0 ∧ m.points = [] ∧ m.triangles = [] := by
  refine ⟨_, from_grayscale_eq stack data w h cs thr flags v f, ?_⟩
  rw [sweep32_outside stack data w h cs thr v hle]
  exact ⟨rfl, rfl, rfl, rfl⟩

theorem C3_nothing_inside_witness :
    (Valid [0, 1 / 2, 1 / 2, 0, 1 / 4, 1 / 2] 3 2 1 ∧ Fits 3 2 1 ∧
      ∀ x ∈ ([0, 1 / 2, 1 / 2, 0, 1 / 4, 1 / 2] : List ℚ), x ≤ 1 / 2) ∧
    ∃ m : par_msquares_mesh,
      par_msquares_from_grayscale Globals.initial (fun _ => 0)
          [0, 1 / 2, 1 / 2, 0, 1 / 4, 1 / 2] 3 2 1 (1 / 2) 0
        = .ok (⟨1, [m]⟩, released) ∧
      m.npoints = 0 ∧ m.ntriangles = 0 ∧ m.points = [] ∧ m.triangles = [] :=
  ⟨⟨valid_three, fits_three, by norm_num⟩,
    C3_nothing_inside _ _ _ _ _ _ _ valid_three fits_three (by norm_num)⟩

/-- C4 (as stated, refuted): the raster of 46341 x 46341 samples equal to 1 is a valid
one-cell grid (`width = height = cellsize = 46341`) whose values all exceed the threshold
0, yet a first call returns no mesh: `northi + cellsize * width = 46341 * 46341` does not
fit an `int`, the south index becomes negative and the read of the south-west sample is
outside the raster. -/
theorem C4_counterexample :
    Valid (List.replicate 2147488281 (1 : ℚ)) 46341 46341 46341 ∧
    (∀ x ∈ List.replicate 2147488281 (1 : ℚ), (0 : ℚ) < x) ∧
    ∀ (stack : Nat → ℚ) (flags : Int),
      par_msquares_from_grayscale Globals.initial stack (List.replicate 2147488281 1)
        46341 46341 46341 0 flags = .error .out_of_bounds :=
  ⟨valid_wide 1, fun x hx => by rw [List.eq_of_mem_replicate hx]; norm_num,
    fun stack flags => (wide_faults 1 0 stack flags).2⟩

/-- C4 (amended): for every one-cell grid with `width = height = cellsize` between 1 and
46340 (so that `cellsize * cellsize` fits an `int`) whose raster values all strictly
exceed the threshold, a first call returns a mesh with exactly 4 points and 2 triangles;
the points are the corners `(0,1)`, `(1,1)`, `(1,0)`, `(0,0)` of the unit square, in this
order, and the triangles `(2,1,0)` and `(0,3,2)` use all four. -/
theorem C4_single_cell_inside (stack : Nat → ℚ) (data : List ℚ) (cs : Int) (thr : ℚ)
    (flags : Int) (v : Valid data cs cs cs) (hcs : cs ≤ 46340) (hgt : ∀ x ∈ data, thr < x) :
    ∃ m : par_msquares_mesh,
      par_msquares_from_grayscale Globals.initial stack data cs cs cs thr flags
        = .ok (⟨1, [m]⟩, released) ∧
      m.npoints = 4 ∧ m.ntriangles = 2 ∧
      (chunk3 m.points).map (fun p => (p.1, p.2.1)) = [(0, 1), (1, 1), (1, 0), (0, 0)] ∧
      m.triangles = [2, 1, 0, 0, 3, 2] := by
  obtain ⟨f, d⟩ := one_cell_fits cs v.cell_pos hcs
  refine ⟨_, from_grayscale_exact stack data cs cs cs thr flags v f d, ?_⟩
  rw [sweep_one_cell stack data cs thr v hgt]
  exact ⟨rfl, rfl, rfl, rfl⟩

theorem C4_single_cell_inside_witness :
    (Valid [1, 1, 1, 1] 2 2 2 ∧ (2 : Int) ≤ 46340 ∧
      ∀ x ∈ ([1, 1, 1, 1] : List ℚ), (1 / 2 : ℚ) < x) ∧
    ∃ m : par_msquares_mesh,
      par_msquares_from_grayscale Globals.initial (fun _ => 0) [1, 1, 1, 1] 2 2 2 (1 / 2) 0
        = .ok (⟨1, [m]⟩, released) ∧
      m.npoints = 4 ∧ m.ntriangles = 2 ∧
      (chunk3 m.points).map (fun p => (p.1, p.2.1)) = [(0, 1), (1, 1), (1, 0), (0, 0)] ∧
      m.triangles = [2, 1, 0, 0, 3, 2] :=
  ⟨⟨valid_block, by decide, by norm_num⟩,
    C4_single_cell_inside _ _ _ _ _ valid_block (by decide) (by norm_num)⟩

/-- C5 (as stated, refuted): no run on the raster `[1, 1, 1, 0]` with `width = 2`,
`height = 2`, `cellsize = 1`, `threshold = 1/2` returns a mesh with 1 triangle and 3
points. -/
theorem C5_counterexample :
    ¬ ∃ (stack : Nat → ℚ) (flags : Int) (m : par_msquares_mesh) (g : Globals),
      par_msquares_from_grayscale Globals.initial stack [1, 1, 1, 0] 2 2 1 (1 / 2) flags
        = .ok (⟨1, [m]⟩, g) ∧
      m.ntriangles = 1 ∧ m.npoints = 3 := by
  rintro ⟨stack, flags, m, g, h, h1, _⟩
  rw [from_grayscale_exact stack _ _ _ _ _ flags valid_two fits_two dyadic_two] at h
  injection h with h
  injection h with h _
  injection h with _ h
  injection h with h _
  subst h
  have := (sweep_two stack).2.1
  simp only [Cursor.mesh] at h1
  omega

/-- C5 (amended): the raster `[1, 1, 1, 0]` with `width = 2`, `height = 2`,
`cellsize = 1`, `threshold = 1/2` is a grid of 2 x 2 cells, and a first call returns a mesh
with exactly 7 triangles and 11 points, every triangle wound counter-clockwise. -/
theorem C5_two_by_two (stack : Nat → ℚ) (flags : Int) :
    ∃ m : par_msquares_mesh,
      par_msquares_from_grayscale Globals.initial stack [1, 1, 1, 0] 2 2 1 (1 / 2) flags
        = .ok (⟨1, [m]⟩, released) ∧
      m.ntriangles = 7 ∧ m.npoints = 11 ∧
      ∀ t ∈ chunk3 m.triangles, 0 < signed_area (xy_list m.points) t := by
  refine ⟨_, from_grayscale_exact stack _ _ _ _ _ flags valid_two fits_two dyadic_two, ?_⟩
  obtain ⟨h1, h2, h3, h4⟩ := sweep_two stack
  refine ⟨h2, h1, ?_⟩
  simp only [Cursor.mesh, h3, h4]
  exact two_winding

/-- C7 (the code at the failing input): for the one-sample raster `[1]` with
`width = height = cellsize = 1` and `threshold = 0` the mesh has `dim = 3`, but the `z`
coordinates of its four points are `0`, `stack 2`, `stack 4`, `stack 6`: only
`vertsz[0]` is ever set to 0, the other three are whatever the array held on entry. -/
theorem C7_z_from_stack (stack : Nat → ℚ) (flags : Int) :
    ∃ m : par_msquares_mesh,
      par_msquares_from_grayscale Globals.initial stack [1] 1 1 1 0 flags
        = .ok (⟨1, [m]⟩, released) ∧
      m.dim = 3 ∧
      (chunk3 m.points).map (fun p => p.2.2) = [0, stack 2, stack 4, stack 6] := by
  refine ⟨_, from_grayscale_exact stack [1] 1 1 1 0 flags valid_one fits_one dyadic_one,
    rfl, ?_⟩
  rw [sweep_one_cell stack [1] 1 0 valid_one (by norm_num)]
  rfl

/-- C10 (the code at the failing input): the first call on the raster `[1]` returns and
leaves the statics pointing at released table entries; a second call with the same
arguments does not rebuild the tables and faults on a released entry. -/
theorem C10_second_call (stack stack' : Nat → ℚ) (flags : Int) :
    ∃ (ml : par_msquares_meshlist) (g : Globals),
      par_msquares_from_grayscale Globals.initial stack [1] 1 1 1 0 flags = .ok (ml, g) ∧
      g.point_table.isNone = false ∧
      par_msquares_from_grayscale g stack' [1] 1 1 1 0 flags = .error .use_after_free :=
  ⟨_, _, from_grayscale_exact stack [1] 1 1 1 0 flags valid_one fits_one dyadic_one, rfl,
    second_call_faults stack' [1] 1 1 1 0 flags valid_one fits_one.raster⟩

/-- C11 (the code at the failing input): the list returned for the raster `[1]` has count 1
and `par_msquares_get_mesh` returns its mesh at index 0 and fails its assertion at index 1,
but at index `-1` the assertion passes and the array `meshes` is read out of bounds. -/
theorem C11_negative_index (stack : Nat → ℚ) (flags : Int) :
    ∃ (ml : par_msquares_meshlist) (g : Globals) (m : par_msquares_mesh),
      par_msquares_from_grayscale Globals.initial stack [1] 1 1 1 0 flags = .ok (ml, g) ∧
      par_msquares_get_count (some ml) = .ok 1 ∧
      par_msquares_get_mesh (some ml) 0 = .ok m ∧
      par_msquares_get_mesh (some ml) 1 = .error .assertion ∧
      par_msquares_get_mesh (some ml) (-1) = .error .out_of_bounds ∧
      par_msquares_get_mesh (some ml) (-1) ≠ .error .assertion :=
  ⟨_, _, _, from_grayscale_exact stack [1] 1 1 1 0 flags valid_one fits_one dyadic_one,
    rfl, rfl, rfl, rfl, by intro h; cases h⟩

/-- C12 (as stated, refuted): with `cellsize = 1`, `width = height = 18919` and the raster
of 18919 x 18919 samples equal to 0 none of the four conditions holds (`width > 0`,
`height > 0`, `cellsize` divides both), yet a first call fails an assertion and returns no
mesh list: `maxpts = ncols * nrows * 6` does not fit an `int` and `npts <= maxpts` fails. -/
theorem C12_counterexample :
    (1 : Int) ≤ 1 ∧
    (((List.replicate 357928561 (0 : ℚ)).length : Nat) : Int) = 18919 * 18919 ∧
    ¬ ((18919 : Int) ≤ 0 ∨ (18919 : Int) ≤ 0 ∨ ¬ (1 : Int) ∣ 18919 ∨ ¬ (1 : Int) ∣ 18919) ∧
    ∀ (stack : Nat → ℚ) (flags : Int),
      par_msquares_from_grayscale Globals.initial stack (List.replicate 357928561 0)
        18919 18919 1 0 flags = .error .assertion := by
  refine ⟨by decide, (valid_huge 0).length_eq, ?_, fun stack flags => (huge_aborts stack flags).2⟩
  rintro (a | a | a | a)
  · revert a; decide
  · revert a; decide
  · exact a (one_dvd _)
  · exact a (one_dvd _)

/-- C12 (amended): for every `cellsize >= 1` and a raster of `width * height` samples
that fits the integer types whenever `width` and `height` are positive, a first call fails
an assertion exactly when `width <= 0`, `height <= 0`, or `cellsize` does not divide
`width` or `height`; when none of these holds it returns a mesh list. -/
theorem C12_preconditions (stack : Nat → ℚ) (data : List ℚ) (w h cs : Int) (thr : ℚ)
    (flags : Int) (hcs : 1 ≤ cs)
    (hlen : 0 < w → 0 < h → (data.length : Int) = w * h ∧ Fits w h cs) :
    (par_msquares_from_grayscale Globals.initial stack data w h cs thr flags
        = .error .assertion ↔ (w ≤ 0 ∨ h ≤ 0 ∨ ¬ cs ∣ w ∨ ¬ cs ∣ h)) ∧
    (¬ (w ≤ 0 ∨ h ≤ 0 ∨ ¬ cs ∣ w ∨ ¬ cs ∣ h) →
      ∃ (ml : par_msquares_meshlist) (g : Globals),
        par_msquares_from_grayscale Globals.initial stack data w h cs thr flags
          = .ok (ml, g)) := by
  have hne : cs ≠ 0 := by omega
  by_cases hw : w > 0
  · by_cases hwd : w.tmod cs = 0
    · by_cases hh : h > 0 ∧ h.tmod cs = 0
      · have v : Valid data w h cs :=
          ⟨hw, hh.1, hcs, Int.dvd_of_tmod_eq_zero hwd, Int.dvd_of_tmod_eq_zero hh.2,
            (hlen hw hh.1).1⟩
        have e := from_grayscale_eq stack data w h cs thr flags v (hlen hw hh.1).2
        have hno : ¬ (w ≤ 0 ∨ h ≤ 0 ∨ ¬ cs ∣ w ∨ ¬ cs ∣ h) := by
          rintro (a | a | a | a)
          · omega
          · omega
          · exact a v.width_dvd
          · exact a v.height_dvd
        refine ⟨⟨fun a => ?_, fun a => absurd a hno⟩, fun _ => ⟨_, _, e⟩⟩
        rw [e] at a
        cases a
      · have hbad : w ≤ 0 ∨ h ≤ 0 ∨ ¬ cs ∣ w ∨ ¬ cs ∣ h := by
          by_cases h0 : h > 0
          · exact Or.inr (Or.inr (Or.inr fun d => hh ⟨h0, Int.tmod_eq_zero_of_dvd d⟩))
          · exact Or.inr (Or.inl (by omega))
        refine ⟨⟨fun _ => hbad, fun _ => ?_⟩, fun a => absurd hbad a⟩
        simp only [par_msquares_from_grayscale, hw, hne, hwd, hh, not_true_eq_false,
          not_false_eq_true, if_true, if_false]
        rfl
    · have hbad : w ≤ 0 ∨ h ≤ 0 ∨ ¬ cs ∣ w ∨ ¬ cs ∣ h :=
        Or.inr (Or.inr (Or.inl fun d => hwd (Int.tmod_eq_zero_of_dvd d)))
      refine ⟨⟨fun _ => hbad, fun _ => ?_⟩, fun a => absurd hbad a⟩
      simp only [par_msquares_from_grayscale, hw, hne, hwd, not_true_eq_false,
        not_false_eq_true, if_true, if_false]
      rfl
  · have hbad : w ≤ 0 ∨ h ≤ 0 ∨ ¬ cs ∣ w ∨ ¬ cs ∣ h := Or.inl (by omega)
    refine ⟨⟨fun _ => hbad, fun _ => ?_⟩, fun a => absurd hbad a⟩
    simp only [par_msquares_from_grayscale, hw, not_false_eq_true, if_true]
    rfl

theorem C12_preconditions_witness :
    ((1 : Int) ≤ 1 ∧
      ((0 : Int) < 2 → (0 : Int) < 2 →
        ((([1, 1, 1, 0] : List ℚ).length : Nat) : Int) = 2 * 2 ∧ Fits 2 2 1)) ∧
    (par_msquares_from_grayscale Globals.initial (fun _ => 0) [1, 1, 1, 0] 2 2 1 (1 / 2) 0
        = .error .assertion ↔
      ((2 : Int) ≤ 0 ∨ (2 : Int) ≤ 0 ∨ ¬ (1 : Int) ∣ 2 ∨ ¬ (1 : Int) ∣ 2)) ∧
    ∃ (ml : par_msquares_meshlist) (g : Globals),
      par_msquares_from_grayscale Globals.initial (fun _ => 0) [1, 1, 1, 0] 2 2 1 (1 / 2) 0
        = .ok (ml, g) :=
  ⟨⟨by decide, fun _ _ => ⟨by decide, fits_two⟩⟩,
    (C12_preconditions (fun _ => 0) [1, 1, 1, 0] 2 2 1 (1 / 2) 0 (by decide)
      (fun _ _ => ⟨by decide, fits_two⟩)).1,
    (C12_preconditions (fun _ => 0) [1, 1, 1, 0] 2 2 1 (1 / 2) 0 (by decide)
      (fun _ _ => ⟨by decide, fits_two⟩)).2 (by decide)⟩

/-- C13 (as stated, refuted): on the valid raster of 46341 x 46341 samples taken as one
cell (`cellsize = 46341`) the index of the south-west sample of the first cell,
`MIN (northi + cellsize * width) maxrow` computed in `int`, is `-2147479015`: the product
`46341 * 46341` does not fit an `int`.  The read at that index is outside the raster and a
first call stops there. -/
theorem C13_counterexample :
    Valid (List.replicate 2147488281 (0 : ℚ)) 46341 46341 46341 ∧
    MIN (wrap32 (wrap32 (wrap32 (0 * 46341) * 46341) + wrap32 (46341 * 46341)))
      (wrap32 (wrap32 (46341 - 1) * 46341)) = -2147479015 ∧
    ∀ (stack : Nat → ℚ) (flags : Int),
      row_start (List.replicate 2147488281 0) 0 46341 46341
          (wrap32 (wrap32 (46341 - 1) * 46341)) (ncell 46341 46341 46341) 0 ⟨[], 0, [], 0⟩
        = .error .out_of_bounds ∧
      par_msquares_from_grayscale Globals.initial stack (List.replicate 2147488281 0)
        46341 46341 46341 0 flags = .error .out_of_bounds :=
  ⟨valid_wide 0, by decide, fun stack flags => wide_faults 0 0 stack flags⟩

/-- C13 (amended): on every valid input that fits the integer types, for every row `r`
and column `c` of the grid, the run of a first call reaches row `r` (cursor `out`), starts
the row (`s0`), reaches cell `(r, c)` (`s` before the cell) and runs it (`sE` after it).
The raster indices of the four corner samples of the cell, `s.northi` and `s.southi` (read
by the row loop for column 0 and by the previous cell otherwise) and `sE.northi` and
`sE.southi` (read by the cell), are the closed forms below, lie in
`0 <= index < width * height`, and the read of `data` at each of them succeeds. -/
theorem C13_reads_in_bounds (stack : Nat → ℚ) (data : List ℚ) (w h cs : Int) (thr : ℚ)
    (v : Valid data w h cs) (f : Fits w h cs) (r c : Nat) (hr : (r : Int) < h.tdiv cs)
    (hc : (c : Int) < w.tdiv cs) :
    ∃ (out : Cursor) (s0 s sE : Sweep),
      march_rows built (pts_alloc (w.tdiv cs) (h.tdiv cs)) (tris_alloc (w.tdiv cs) (h.tdiv cs))
        data thr w cs (w.tdiv cs) (wrap32 (wrap32 (h - 1) * w)) (ncell w h cs)
        (Function.update stack 0 0) r 0 ⟨[], 0, [], 0⟩ = .ok out ∧
      row_start data thr w cs (wrap32 (wrap32 (h - 1) * w)) (ncell w h cs) r out = .ok s0 ∧
      march_cols built (pts_alloc (w.tdiv cs) (h.tdiv cs)) (tris_alloc (w.tdiv cs) (h.tdiv cs))
        data thr cs (w.tdiv cs) (ncell w h cs) (row_vertsy (ncell w h cs) r)
        (Function.update stack 0 0) c 0 s0 = .ok s ∧
      march_cell built (pts_alloc (w.tdiv cs) (h.tdiv cs)) (tris_alloc (w.tdiv cs) (h.tdiv cs))
        data thr cs (w.tdiv cs) (ncell w h cs) (row_vertsy (ncell w h cs) r)
        (Function.update stack 0 0) c s = .ok sE ∧
      s.northi = r * cs * w + c * cs ∧
      s.southi = min ((r + 1) * cs) (h - 1) * w + c * cs ∧
      sE.northi = r * cs * w + min ((c + 1) * cs) (w - 1) ∧
      sE.southi = min ((r + 1) * cs) (h - 1) * w + min ((c + 1) * cs) (w - 1) ∧
      ∀ i ∈ [s.northi, s.southi, sE.northi, sE.southi],
        0 ≤ i ∧ i < w * h ∧ ∃ x, load data i = .ok x := by
  have G := v.grid
  obtain ⟨r1, r2, r3, r4⟩ := cell_run32 stack data w h cs thr v f r c hr hc
  have t := tracked_of_similar
    (entry_similar data thr w cs (w.tdiv cs) ((h - 1) * w) (ncell w h cs)
      (Function.update stack 0 0) (ncell w h cs) (Function.update stack 0 0) r c)
    (@entry_tracked data w h cs (w.tdiv cs) thr (ncell w h cs) (Function.update stack 0 0)
      r c (by omega)).1
  obtain ⟨hn, hso⟩ := t.1 hc
  obtain ⟨b1, b2, b3, b4⟩ := corner_bounds G r (by omega) hr c (by omega) hc
  rw [index_south G r] at hso
  have en : (cell_entry32 data thr w cs (w.tdiv cs) ((h - 1) * w) (ncell w h cs)
      (Function.update stack 0 0) r (c + 1)).northi
      = r * cs * w + min ((c + 1) * cs) (w - 1) := by
    rw [cell_entry32_succ]
    show east_index cs (w.tdiv cs) c _ = _
    rw [hn, index_east G c (by omega) hc]
  have es : (cell_entry32 data thr w cs (w.tdiv cs) ((h - 1) * w) (ncell w h cs)
      (Function.update stack 0 0) r (c + 1)).southi
      = min ((r + 1) * cs) (h - 1) * w + min ((c + 1) * cs) (w - 1) := by
    rw [cell_entry32_succ]
    show east_index cs (w.tdiv cs) c _ = _
    rw [hso, index_east G c (by omega) hc]
  refine ⟨_, _, _, _, r1, r2, r3, r4, hn, hso, en, es, ?_⟩
  have hlen := G.len_eq
  intro i hi
  rw [hn, hso, en, es] at hi
  simp only [List.mem_cons, List.mem_singleton, List.not_mem_nil, or_false] at hi
  rcases hi with e | e | e | e <;> subst e
  · exact ⟨b1.1, b1.2, load_ok data _ b1.1 (by rw [hlen]; exact b1.2)⟩
  · exact ⟨b2.1, b2.2, load_ok data _ b2.1 (by rw [hlen]; exact b2.2)⟩
  · exact ⟨b3.1, b3.2, load_ok data _ b3.1 (by rw [hlen]; exact b3.2)⟩
  · exact ⟨b4.1, b4.2, load_ok data _ b4.1 (by rw [hlen]; exact b4.2)⟩

theorem C13_reads_in_bounds_witness :
    (Valid [1, 1, 1, 0] 2 2 1 ∧ Fits 2 2 1 ∧ ((1 : Nat) : Int) < (2 : Int).tdiv 1 ∧
      ((1 : Nat) : Int) < (2 : Int).tdiv 1) ∧
    ∃ (out : Cursor) (s0 s sE : Sweep),
      march_rows built (pts_alloc ((2 : Int).tdiv 1) ((2 : Int).tdiv 1))
        (tris_alloc ((2 : Int).tdiv 1) ((2 : Int).tdiv 1))
        [1, 1, 1, 0] (1 / 2) 2 1 ((2 : Int).tdiv 1) (wrap32 (wrap32 (2 - 1) * 2)) (ncell 2 2 1)
        (Function.update (fun _ => 0) 0 0) 1 0 ⟨[], 0, [], 0⟩ = .ok out ∧
      row_start [1, 1, 1, 0] (1 / 2) 2 1 (wrap32 (wrap32 (2 - 1) * 2)) (ncell 2 2 1)
        ((1 : Nat) : Int) out = .ok s0 ∧
      march_cols built (pts_alloc ((2 : Int).tdiv 1) ((2 : Int).tdiv 1))
        (tris_alloc ((2 : Int).tdiv 1) ((2 : Int).tdiv 1))
        [1, 1, 1, 0] (1 / 2) 1 ((2 : Int).tdiv 1) (ncell 2 2 1)
        (row_vertsy (ncell 2 2 1) ((1 : Nat) : Int))
        (Function.update (fun _ => 0) 0 0) 1 0 s0 = .ok s ∧
      march_cell built (pts_alloc ((2 : Int).tdiv 1) ((2 : Int).tdiv 1))
        (tris_alloc ((2 : Int).tdiv 1) ((2 : Int).tdiv 1))
        [1, 1, 1, 0] (1 / 2) 1 ((2 : Int).tdiv 1) (ncell 2 2 1)
        (row_vertsy (ncell 2 2 1) ((1 : Nat) : Int))
        (Function.update (fun _ => 0) 0 0) ((1 : Nat) : Int) s = .ok sE ∧
      s.northi = ((1 : Nat) : Int) * 1 * 2 + ((1 : Nat) : Int) * 1 ∧
      s.southi = min ((((1 : Nat) : Int) + 1) * 1) (2 - 1) * 2 + ((1 : Nat) : Int) * 1 ∧
      sE.northi = ((1 : Nat) : Int) * 1 * 2 + min ((((1 : Nat) : Int) + 1) * 1) (2 - 1) ∧
      sE.southi = min ((((1 : Nat) : Int) + 1) * 1) (2 - 1) * 2
        + min ((((1 : Nat) : Int) + 1) * 1) (2 - 1) ∧
      ∀ i ∈ [s.northi, s.southi, sE.northi, sE.southi],
        0 ≤ i ∧ i < 2 * 2 ∧ ∃ x, load [1, 1, 1, 0] i = .ok x :=
  ⟨⟨valid_two, fits_two, by decide, by decide⟩,
    C13_reads_in_bounds (fun _ => 0) [1, 1, 1, 0] 2 2 1 (1 / 2) valid_two fits_two 1 1
      (by decide) (by decide)⟩

/-- C14 (as stated, refuted): on the valid raster of 46341 x 46341 samples equal to 1
taken as one cell (`cellsize = 46341`, `threshold = 0`) the code that the claim assigns to
cell `(0, 0)` is 15, but the program computes no code for it: the index of the south
samples is formed in `int` from `cellsize * width = 46341 * 46341`, which wraps, the read
of the south-west sample is outside the raster and a first call stops there. -/
theorem C14_counterexample :
    Valid (List.replicate 2147488281 (1 : ℚ)) 46341 46341 46341 ∧
    spec_code (List.replicate 2147488281 1) 0 46341 46341 46341 0 0 = 15 ∧
    ∀ (stack : Nat → ℚ) (flags : Int),
      row_start (List.replicate 2147488281 1) 0 46341 46341
          (wrap32 (wrap32 (46341 - 1) * 46341)) (ncell 46341 46341 46341) 0 ⟨[], 0, [], 0⟩
        = .error .out_of_bounds ∧
      par_msquares_from_grayscale Globals.initial stack (List.replicate 2147488281 1)
        46341 46341 46341 0 flags = .error .out_of_bounds := by
  refine ⟨valid_wide 1, ?_, fun stack flags => wide_faults 1 0 stack flags⟩
  exact spec_code_inside _ 0 46341 46341 46341 (valid_wide 1)
    (fun x hx => by rw [List.eq_of_mem_replicate hx]; norm_num) 0 0
    (by decide) (by decide) (by decide) (by decide)

/-- C14 (amended): on every valid input that fits the integer types, for every row `r`
and column `c` of the grid, the run of a first call reaches row `r` (cursor `out`), starts
the row (`s0`), reaches cell `(r, c)` (`s` before the cell) and runs it (`sE` after it).
The west flags `s.southwest` and `s.northwest` and the east flags `sE.southwest` and
`sE.northwest` of the cell are the results of `data[i] > threshold` at `rS*width + cW`,
`rN*width + cW`, `rS*width + cE` and `rN*width + cE`; the code computed from them is
`SW + 2*SE + 4*NW + 8*NE`, it is the code of the specification, and it is the code whose
table entries the cell uses for its mask and its triangles. -/
theorem C14_cell_code (stack : Nat → ℚ) (data : List ℚ) (w h cs : Int) (thr : ℚ)
    (v : Valid data w h cs) (f : Fits w h cs) (r c : Nat) (hr : (r : Int) < h.tdiv cs)
    (hc : (c : Int) < w.tdiv cs) :
    ∃ (out : Cursor) (s0 s sE : Sweep),
      march_rows built (pts_alloc (w.tdiv cs) (h.tdiv cs)) (tris_alloc (w.tdiv cs) (h.tdiv cs))
        data thr w cs (w.tdiv cs) (wrap32 (wrap32 (h - 1) * w)) (ncell w h cs)
        (Function.update stack 0 0) r 0 ⟨[], 0, [], 0⟩ = .ok out ∧
      row_start data thr w cs (wrap32 (wrap32 (h - 1) * w)) (ncell w h cs) r out = .ok s0 ∧
      march_cols built (pts_alloc (w.tdiv cs) (h.tdiv cs)) (tris_alloc (w.tdiv cs) (h.tdiv cs))
        data thr cs (w.tdiv cs) (ncell w h cs) (row_vertsy (ncell w h cs) r)
        (Function.update stack 0 0) c 0 s0 = .ok s ∧
      march_cell built (pts_alloc (w.tdiv cs) (h.tdiv cs)) (tris_alloc (w.tdiv cs) (h.tdiv cs))
        data thr cs (w.tdiv cs) (ncell w h cs) (row_vertsy (ncell w h cs) r)
        (Function.update stack 0 0) c s = .ok sE ∧
      above data thr (min ((r + 1) * cs) (h - 1) * w + c * cs) = .ok s.southwest ∧
      above data thr (min ((r + 1) * cs) (h - 1) * w + min ((c + 1) * cs) (w - 1))
        = .ok sE.southwest ∧
      above data thr (r * cs * w + c * cs) = .ok s.northwest ∧
      above data thr (r * cs * w + min ((c + 1) * cs) (w - 1)) = .ok sE.northwest ∧
      ∃ code, code < 16 ∧
        code = s.southwest ||| sE.southwest <<< 1 ||| s.northwest <<< 2 |||
          sE.northwest <<< 3 ∧
        code = s.southwest + 2 * sE.southwest + 4 * s.northwest + 8 * sE.northwest ∧
        code = spec_code data thr w h cs r c ∧
        sE.prevmask = mask_of (pointspec code) ∧
        sE.tris = s.tris ++ tri_stores sE.previnds (trianglespec code) := by
  have G := v.grid
  obtain ⟨r1, r2, r3, r4⟩ := cell_run32 stack data w h cs thr v f r c hr hc
  have hsim := entry_similar data thr w cs (w.tdiv cs) ((h - 1) * w) (ncell w h cs)
    (Function.update stack 0 0) (ncell w h cs) (Function.update stack 0 0) r c
  obtain ⟨t', k'⟩ := @entry_tracked data w h cs (w.tdiv cs) thr (ncell w h cs)
    (Function.update stack 0 0) r c (by omega)
  have t := tracked_of_similar hsim t'
  have k := cornered_of_similar hsim k'
  obtain ⟨hn, hso⟩ := t.1 hc
  obtain ⟨knw, ksw⟩ := k hc
  obtain ⟨b1, b2, b3, b4⟩ := corner_bounds G r (by omega) hr c (by omega) hc
  have hlen := G.len_eq
  rw [index_south G r] at hso ksw
  rw [cell_entry32_succ] at r4
  refine ⟨_, _, _, _, r1, r2, r3, r4, ?_, ?_, ?_, ?_, _, ?_, rfl, ?_, ?_, ?_, rfl⟩
  · rw [ksw]
    exact above_eq data thr _ b2.1 (by rw [hlen]; exact b2.2)
  · show _ = Except.ok (sample data thr (east_index cs (w.tdiv cs) c _))
    rw [hso, index_east G c (by omega) hc]
    exact above_eq data thr _ b4.1 (by rw [hlen]; exact b4.2)
  · rw [knw]
    exact above_eq data thr _ b1.1 (by rw [hlen]; exact b1.2)
  · show _ = Except.ok (sample data thr (east_index cs (w.tdiv cs) c _))
    rw [hn, index_east G c (by omega) hc]
    exact above_eq data thr _ b3.1 (by rw [hlen]; exact b3.2)
  · exact code_lt _ _ _ _ t.2.2 (sample_le_one _ _ _) t.2.1 (sample_le_one _ _ _)
  · exact bits_sum _ _ _ _ t.2.2 (sample_le_one _ _ _) t.2.1 (sample_le_one _ _ _)
  · exact code_eq G thr r c (by omega) hc _ t k
  · exact mask_of_fold _ _ _ _ _ _ _ _ _

theorem C14_cell_code_witness :
    (Valid [1, 1, 1, 0] 2 2 1 ∧ Fits 2 2 1 ∧ ((1 : Nat) : Int) < (2 : Int).tdiv 1 ∧
      ((0 : Nat) : Int) < (2 : Int).tdiv 1) ∧
    ∃ (out : Cursor) (s0 s sE : Sweep),
      march_rows built (pts_alloc ((2 : Int).tdiv 1) ((2 : Int).tdiv 1))
        (tris_alloc ((2 : Int).tdiv 1) ((2 : Int).tdiv 1))
        [1, 1, 1, 0] (1 / 2) 2 1 ((2 : Int).tdiv 1) (wrap32 (wrap32 (2 - 1) * 2)) (ncell 2 2 1)
        (Function.update (fun _ => 0) 0 0) 1 0 ⟨[], 0, [], 0⟩ = .ok out ∧
      row_start [1, 1, 1, 0] (1 / 2) 2 1 (wrap32 (wrap32 (2 - 1) * 2)) (ncell 2 2 1)
        ((1 : Nat) : Int) out = .ok s0 ∧
      march_cols built (pts_alloc ((2 : Int).tdiv 1) ((2 : Int).tdiv 1))
        (tris_alloc ((2 : Int).tdiv 1) ((2 : Int).tdiv 1))
        [1, 1, 1, 0] (1 / 2) 1 ((2 : Int).tdiv 1) (ncell 2 2 1)
        (row_vertsy (ncell 2 2 1) ((1 : Nat) : Int))
        (Function.update (fun _ => 0) 0 0) 0 0 s0 = .ok s ∧
      march_cell built (pts_alloc ((2 : Int).tdiv 1) ((2 : Int).tdiv 1))
        (tris_alloc ((2 : Int).tdiv 1) ((2 : Int).tdiv 1))
        [1, 1, 1, 0] (1 / 2) 1 ((2 : Int).tdiv 1) (ncell 2 2 1)
        (row_vertsy (ncell 2 2 1) ((1 : Nat) : Int))
        (Function.update (fun _ => 0) 0 0) ((0 : Nat) : Int) s = .ok sE ∧
      above [1, 1, 1, 0] (1 / 2)
        (min ((((1 : Nat) : Int) + 1) * 1) (2 - 1) * 2 + ((0 : Nat) : Int) * 1)
        = .ok s.southwest ∧
      above [1, 1, 1, 0] (1 / 2) (min ((((1 : Nat) : Int) + 1) * 1) (2 - 1) * 2
          + min ((((0 : Nat) : Int) + 1) * 1) (2 - 1))
        = .ok sE.southwest ∧
      above [1, 1, 1, 0] (1 / 2) (((1 : Nat) : Int) * 1 * 2 + ((0 : Nat) : Int) * 1)
        = .ok s.northwest ∧
      above [1, 1, 1, 0] (1 / 2)
        (((1 : Nat) : Int) * 1 * 2 + min ((((0 : Nat) : Int) + 1) * 1) (2 - 1))
        = .ok sE.northwest ∧
      ∃ code, code < 16 ∧
        code = s.southwest ||| sE.southwest <<< 1 ||| s.northwest <<< 2 |||
          sE.northwest <<< 3 ∧
        code = s.southwest + 2 * sE.southwest + 4 * s.northwest + 8 * sE.northwest ∧
        code = spec_code [1, 1, 1, 0] (1 / 2) 2 2 1 ((1 : Nat) : Int) ((0 : Nat) : Int) ∧
        sE.prevmask = mask_of (pointspec code) ∧
        sE.tris = s.tris ++ tri_stores sE.previnds (trianglespec code) :=
  ⟨⟨valid_two, fits_two, by decide, by decide⟩,
    C14_cell_code (fun _ => 0) [1, 1, 1, 0] 2 2 1 (1 / 2) valid_two fits_two 1 0
      (by decide) (by decide)⟩

/-- C15 (as stated, refuted): on the valid raster `[1, 0, 1]` with `width = 3`,
`height = 1`, `cellsize = 1`, `threshold = 1/2` a first call returns a mesh of 10 points.
The triangles of cell `(0, 0)` use the id 0, which the claim places at
`(n * (0 + dx 0), n * (0 + dy 0)) = (0, 1/3)` with `n = cellsize / max(width, height) = 1/3`,
but no index designates a point stored there: the C code holds `n` in a `float`, as
`11184811/33554432`, and stores `(0, 11184811/33554432)`. -/
theorem C15_counterexample :
    Valid [1, 0, 1] 3 1 1 ∧
    ∃ m : par_msquares_mesh,
      par_msquares_from_grayscale Globals.initial (fun _ => 0) [1, 0, 1] 3 1 1 (1 / 2) 0
        = .ok (⟨1, [m]⟩, released) ∧
      m.npoints ≤ 65536 ∧
      0 ∈ trianglespec (spec_code [1, 0, 1] (1 / 2) 3 1 1 ((0 : Nat) : Int) ((0 : Nat) : Int)) ∧
      ∀ i : Nat, (xy_list m.points).getD i (0, 0)
        ≠ (exact_ncell 3 1 1 * (((0 : Nat) : ℚ) + dx 0),
            exact_ncell 3 1 1 * (((0 : Nat) : ℚ) + dy 0)) := by
  refine ⟨valid_triple, _,
    from_grayscale_eq (fun _ => 0) [1, 0, 1] 3 1 1 (1 / 2) 0 valid_triple fits_triple, ?_, ?_, ?_⟩
  · show (sweep32 (fun _ => 0) [1, 0, 1] 3 1 1 (1 / 2)).npts ≤ 65536
    rw [triple_rounded.1]
    decide
  · decide!
  · intro i
    show (xy_list (sweep32 (fun _ => 0) [1, 0, 1] 3 1 1 (1 / 2)).pts).getD i (0, 0) ≠ _
    rw [triple_rounded.2]
    have hd : ((0 : ℚ), (0 : ℚ)) ≠ (exact_ncell 3 1 1 * (((0 : Nat) : ℚ) + dx 0),
        exact_ncell 3 1 1 * (((0 : Nat) : ℚ) + dy 0)) := by decide!
    have hl : ∀ q ∈ ([(0, 11184811 / 33554432), (11184811 / 67108864, 11184811 / 33554432),
        (11184811 / 67108864, 0), (0, 0), (1 / 2, 11184811 / 33554432),
        (11184811 / 16777216, 11184811 / 33554432), (11184811 / 16777216, 0), (1 / 2, 0),
        (1, 11184811 / 33554432), (1, 0)] : List (ℚ × ℚ)),
        q ≠ (exact_ncell 3 1 1 * (((0 : Nat) : ℚ) + dx 0),
          exact_ncell 3 1 1 * (((0 : Nat) : ℚ) + dy 0)) := by decide!
    rcases getD_cases _ i ((0 : ℚ), (0 : ℚ)) with e | e
    · rw [e]; exact hd
    · exact hl _ e

/-- C15 (amended): on every valid input that fits the integer types, whose grid is dyadic
(the longer side of the raster is below `2^24` and spans `2^k` cells, `k <= 22`, so that no
`float` operation rounds) and whose mesh (first call) has at most 65536 points, the
triangle array is the concatenation, over the cells in row-major order, of one triple
`(i_c, i_b, i_a)` per table triangle `(a, b, c)` of the cell's code, in table order, where
for every id `p` of these triangles the index `i_p = idx r c p` is below `npoints` and
designates a point stored at `x = n * (c + dx p)`, `y = n * (r + dy p)`, `n` being the
value of `normalized_cellsize`, whether the index was reused from the west neighbour or
freshly emitted. -/
theorem C15_triangle_layout (stack : Nat → ℚ) (data : List ℚ) (w h cs : Int) (thr : ℚ)
    (flags : Int) (v : Valid data w h cs) (f : Fits w h cs) (d : Dyadic w h cs) :
    ∃ m : par_msquares_mesh,
      par_msquares_from_grayscale Globals.initial stack data w h cs thr flags
        = .ok (⟨1, [m]⟩, released) ∧
      ncell w h cs = (cs : ℚ) / (MAX w h : ℚ) ∧
      (m.npoints ≤ 65536 →
        ∃ idx : Nat → Nat → Nat → Nat,
          m.triangles = raw_tris (fun r c => spec_code data thr w h cs r c) idx
            (h.tdiv cs).toNat (w.tdiv cs).toNat ∧
          ∀ r c : Nat, (r : Int) < h.tdiv cs → (c : Int) < w.tdiv cs →
            ∀ p ∈ trianglespec (spec_code data thr w h cs r c),
              idx r c p < m.npoints ∧
              (xy_list m.points).getD (idx r c p) (0, 0)
                = (ncell w h cs * (c + dx p), ncell w h cs * (r + dy p))) := by
  obtain ⟨e, e1, e2, _, _⟩ := dyadic_cellsize v d
  rw [e1, ← e2]
  refine ⟨_, from_grayscale_exact stack data w h cs thr flags v f d, rfl, fun hle => ?_⟩
  obtain ⟨idx, h1, h2, _, h4⟩ := sweep_layout stack data w h cs thr v
  refine ⟨idx, ?_, h2⟩
  show (sweep stack data w h cs thr).tris = _
  rw [h1]
  exact map_mod_eq _ (fun x hx => lt_of_lt_of_le (h4 x hx) hle)

theorem C15_triangle_layout_witness :
    (Valid [1, 1, 1, 0] 2 2 1 ∧ Fits 2 2 1 ∧ Dyadic 2 2 1) ∧
    ∃ m : par_msquares_mesh,
      par_msquares_from_grayscale Globals.initial (fun _ => 0) [1, 1, 1, 0] 2 2 1 (1 / 2) 0
        = .ok (⟨1, [m]⟩, released) ∧
      ncell 2 2 1 = ((1 : Int) : ℚ) / (MAX 2 2 : ℚ) ∧
      m.npoints ≤ 65536 ∧
      ∃ idx : Nat → Nat → Nat → Nat,
        m.triangles = raw_tris (fun r c => spec_code [1, 1, 1, 0] (1 / 2) 2 2 1 r c) idx
          ((2 : Int).tdiv 1).toNat ((2 : Int).tdiv 1).toNat ∧
        ∀ r c : Nat, (r : Int) < (2 : Int).tdiv 1 → (c : Int) < (2 : Int).tdiv 1 →
          ∀ p ∈ trianglespec (spec_code [1, 1, 1, 0] (1 / 2) 2 2 1 r c),
            idx r c p < m.npoints ∧
            (xy_list m.points).getD (idx r c p) (0, 0)
              = (ncell 2 2 1 * (c + dx p), ncell 2 2 1 * (r + dy p)) := by
  obtain ⟨m, hm, hn, hw⟩ :=
    C15_triangle_layout (fun _ => 0) [1, 1, 1, 0] 2 2 1 (1 / 2) 0 valid_two fits_two dyadic_two
  have e := mesh_of_ok
    ((from_grayscale_exact _ _ _ _ _ _ _ valid_two fits_two dyadic_two).symm.trans hm)
  have hp : m.npoints = 11 := by rw [e]; exact (sweep_two _).1
  exact ⟨⟨valid_two, fits_two, dyadic_two⟩, m, hm, hn, by omega, hw (by omega)⟩

/-- C16: in the tables built by `init_tables`, for each of the 16 codes the point list
(after its count) has no repeated id and is the list of the ids of the code's triangle list
in order of first occurrence; so every id referenced by a triangle is among the points of
the code, and all ids are in `0..7`. -/
theorem C16_points_of_triangles :
    init_tables = .ok built ∧
    ∀ code < 16,
      point_table[code]? = some ((pointspec code).length :: pointspec code) ∧
      triangle_table[code]? = some ((trianglespec code).length / 3 :: trianglespec code) ∧
      (trianglespec code).length % 3 = 0 ∧
      (pointspec code).Nodup ∧
      pointspec code = first_occurrences (trianglespec code) ∧
      (∀ id ∈ trianglespec code, id ∈ pointspec code) ∧
      (∀ id ∈ pointspec code, id ∈ trianglespec code) ∧
      (∀ id ∈ pointspec code, id < 8) ∧ (∀ id ∈ trianglespec code, id < 8) :=
  ⟨init_tables_eq, by decide⟩

/-- C17: `init_tables` builds 16 point lists and 16 triangle lists; both lists of
code 0 are empty, both lists of every code `1..15` are non-empty, no code has more than 3
triangles or more than 6 points, and codes 7 and 6 reach these maxima. -/
theorem C17_table_sizes :
    init_tables = .ok built ∧
    point_table.length = 16 ∧ triangle_table.length = 16 ∧
    point_table[0]? = some [0] ∧ triangle_table[0]? = some [0] ∧
    (∀ code < 16,
      point_table[code]? = some ((pointspec code).length :: pointspec code) ∧
      triangle_table[code]? = some ((trianglespec code).length / 3 :: trianglespec code) ∧
      (trianglespec code).length % 3 = 0 ∧
      (code ≠ 0 → pointspec code ≠ [] ∧ trianglespec code ≠ []) ∧
      (pointspec code).length ≤ 6 ∧ (trianglespec code).length / 3 ≤ 3) ∧
    (trianglespec 7).length / 3 = 3 ∧ (pointspec 6).length = 6 :=
  ⟨init_tables_eq, by decide⟩

/-- C18: in the tables built by `init_tables`, for every code the point list holds the
corner id of each set bit (bit 0: id 0, bit 1: id 2, bit 2: id 6, bit 3: id 4), the midpoint
id of each edge whose two corner bits differ (1: bits 0 and 1, 3: bits 1 and 3, 5: bits 2
and 3, 7: bits 0 and 2), and nothing else; so when the east corners of a cell are the west
corners of its east neighbour, the neighbour has west-edge id 0, 7 or 6 exactly when the
cell has the coinciding east-edge id 2, 3 or 4. -/
theorem C18_ids_of_code :
    init_tables = .ok built ∧
    (∀ code < 16,
      point_table[code]? = some ((pointspec code).length :: pointspec code) ∧
      (0 ∈ pointspec code ↔ code % 2 = 1) ∧
      (2 ∈ pointspec code ↔ code / 2 % 2 = 1) ∧
      (6 ∈ pointspec code ↔ code / 4 % 2 = 1) ∧
      (4 ∈ pointspec code ↔ code / 8 % 2 = 1) ∧
      (1 ∈ pointspec code ↔ code % 2 ≠ code / 2 % 2) ∧
      (3 ∈ pointspec code ↔ code / 2 % 2 ≠ code / 8 % 2) ∧
      (5 ∈ pointspec code ↔ code / 4 % 2 ≠ code / 8 % 2) ∧
      (7 ∈ pointspec code ↔ code % 2 ≠ code / 4 % 2) ∧
      (∀ id ∈ pointspec code, id < 8)) ∧
    ∀ west < 16, ∀ east < 16, east % 2 = west / 2 % 2 ∧ east / 4 % 2 = west / 8 % 2 →
      (0 ∈ pointspec east ↔ 2 ∈ pointspec west) ∧
      (7 ∈ pointspec east ↔ 3 ∈ pointspec west) ∧
      (6 ∈ pointspec east ↔ 4 ∈ pointspec west) :=
  ⟨init_tables_eq, fun code hc => by interval_cases code <;> decide,
    fun west hw east he => by
      interval_cases west <;> interval_cases east <;> decide⟩

end Parg
